import Mathlib

/-!
Shallow embedding of the maze-generation core of the repository
(`src/generation/maze_generator.py`), together with proofs of the
specification claims about it.

The embedding models:
* the grid builder and the recursive-backtracking carver
  (`_create_maze_grid` / `carve_path`),
* the advanced-difficulty extra wall-removal pass,
* the geometry emitter (`_generate_rectangular_maze_code`), abstracted to
  the `WallSegment` data model of the specification (one segment per
  emitted `translate(...) cube(...)` statement, tagged with its role),
* the multi-level generator (`_generate_multilevel_maze_code`), both at the
  segment level and at the literal string level (the source manipulates the
  generated OpenSCAD text with `str.replace`).

Python's process-global `random` generator is modelled by threading an
explicit stream of natural numbers (`RNG`) through the computation, which
is the standard state-passing embedding of global mutable state.
`random.shuffle` is modelled by the Fisher-Yates loop CPython uses, with
`_randbelow k` modelled as `next value % k`.
-/

/-- The four wall directions, as used by the carver
(`'top', 'right', 'bottom', 'left'`). -/
inductive Dir where
  | top | right | bottom | left
deriving DecidableEq, Repr

/-- `opposite` dict from `carve_path`:
`{'top': 'bottom', 'right': 'left', 'bottom': 'top', 'left': 'right'}`. -/
def Dir.opposite : Dir → Dir
  | .top => .bottom
  | .right => .left
  | .bottom => .top
  | .left => .right

/-- x-offset of the neighbor in a given direction, from the neighbor list
`[(x, y-1, 'top'), (x+1, y, 'right'), (x, y+1, 'bottom'), (x-1, y, 'left')]`. -/
def Dir.dx : Dir → Int
  | .top => 0
  | .right => 1
  | .bottom => 0
  | .left => -1

/-- y-offset of the neighbor in a given direction. -/
def Dir.dy : Dir → Int
  | .top => -1
  | .right => 0
  | .bottom => 1
  | .left => 0

/-- The `'walls'` dict of one cell. -/
structure Walls where
  top : Bool
  right : Bool
  bottom : Bool
  left : Bool
deriving DecidableEq, Repr

/-- Read one wall flag. -/
def Walls.get (w : Walls) : Dir → Bool
  | .top => w.top
  | .right => w.right
  | .bottom => w.bottom
  | .left => w.left

/-- Clear one wall flag (`grid[y][x]['walls'][direction] = False`). -/
def Walls.clear (w : Walls) : Dir → Walls
  | .top => { w with top := false }
  | .right => { w with right := false }
  | .bottom => { w with bottom := false }
  | .left => { w with left := false }

/-- One grid cell: `{'visited': False, 'walls': {...}}`. -/
structure Cell where
  visited : Bool
  walls : Walls
deriving DecidableEq, Repr

/-- The initial cell appended for every position by `_create_maze_grid`. -/
def initCell : Cell :=
  { visited := false
    walls := { top := true, right := true, bottom := true, left := true } }

/-- The grid: a list of rows (`grid[y][x]`), exactly as in the source. -/
abbrev Grid := List (List Cell)

/-- The explicit random stream standing for the process-global `random`
module state: an infinite sequence of natural numbers. -/
abbrev RNG := Nat → Nat

/-- Draw the next raw value from the stream. -/
def nextNat (r : RNG) : Nat × RNG :=
  (r 0, fun n => r (n + 1))

/-- Errors the Python code can raise, plus (modelled from the spec) the
typed error `InvalidDimension` that §4.1 and §7 of the specification
describe; no such typed error exists anywhere in the source. -/
inductive PyError where
  | indexError
  | valueError
  | invalidDimension
deriving DecidableEq, Repr

/-- `random.randint(a, b)`: raises `ValueError` when `b < a`, otherwise
returns a value in `[a, b]` drawn from the stream. -/
def randint (a b : Int) (r : RNG) : Except PyError (Int × RNG) :=
  if b < a then .error .valueError
  else
    let (v, r') := nextNat r
    .ok (a + (v % (b - a + 1).toNat : Nat), r')

/-- `random.choice(seq)`: pick an element indexed by the next draw. -/
def choice (l : List α) (d : α) (r : RNG) : α × RNG :=
  let (v, r') := nextNat r
  (l.getD (v % l.length) d, r')

/-- Swap two positions of a list (one step of CPython's
`random.shuffle` loop `x[i], x[j] = x[j], x[i]`). -/
def listSwap (l : List α) (i j : Nat) : List α :=
  match l[i]?, l[j]? with
  | some a, some b => (l.set i b).set j a
  | _, _ => l

/-- The Fisher-Yates loop of `random.shuffle`:
`for i in reversed(range(1, len(x))): j = _randbelow(i+1); swap x[i] x[j]`.
`shuffleSteps i` performs the iterations for positions `i+1` down to `1`. -/
def shuffleSteps : Nat → List α → RNG → List α × RNG
  | 0, l, r => (l, r)
  | i + 1, l, r =>
    let (v, r') := nextNat r
    shuffleSteps i (listSwap l (i + 1) (v % (i + 2))) r'

/-- `random.shuffle`, modelled on an immutable list. -/
def shuffle (l : List α) (r : RNG) : List α × RNG :=
  shuffleSteps (l.length - 1) l r

/-- `'difficulty'` parameter values. -/
inductive Difficulty where
  | beginner | intermediate | advanced
deriving DecidableEq, Repr

/-- `'type'` parameter values (`'circular'` falls back to the rectangular
geometry in the source). -/
inductive MazeType where
  | rectangular | multiLevel | circular
deriving DecidableEq, Repr

/-- `'features'` list entries used by the rectangular emitter. -/
inductive Feature where
  | base | pillars | roof | deadEnds
deriving DecidableEq, Repr

/-- The fully resolved maze parameter set (`params` dict). -/
structure MazeParams where
  width : Int
  height : Int
  wall_height : Int
  wall_thickness : Int
  path_width : Int
  difficulty : Difficulty
  mazeType : MazeType
  features : List Feature
deriving DecidableEq, Repr

/-! ## Grid access

`gridGet g x y` is `grid[y][x]`; `gridModify` writes one cell.  All reads
and writes performed by the carver are guarded by
`0 <= nx < width and 0 <= ny < height` in the source, so total `getD`/`set`
access with a dummy default is faithful on those in-bounds coordinates. -/

/-- `grid[y][x]` (total, with a dummy cell out of range; every source
access is bounds-guarded). -/
def gridGet (g : Grid) (x y : Int) : Cell :=
  (g.getD y.toNat []).getD x.toNat initCell

/-- Replace the cell at `(x, y)` by `f` of its current value. -/
def gridModify (g : Grid) (x y : Int) (f : Cell → Cell) : Grid :=
  g.set y.toNat ((g.getD y.toNat []).set x.toNat (f (gridGet g x y)))

/-- `grid[y][x]['visited'] = True`. -/
def markVisited (g : Grid) (x y : Int) : Grid :=
  gridModify g x y fun c => { c with visited := true }

/-- The paired wall removal
`grid[y][x]['walls'][direction] = False;`
`grid[ny][nx]['walls'][opposite[direction]] = False`. -/
def removeWallPair (g : Grid) (x y nx ny : Int) (d : Dir) : Grid :=
  let g' := gridModify g x y fun c => { c with walls := c.walls.clear d }
  gridModify g' nx ny fun c => { c with walls := c.walls.clear d.opposite }

/-- The neighbor list of `carve_path`:
`[(x, y-1, 'top'), (x+1, y, 'right'), (x, y+1, 'bottom'), (x-1, y, 'left')]`. -/
def neighborsOf (x y : Int) : List (Int × Int × Dir) :=
  [(x, y - 1, .top), (x + 1, y, .right), (x, y + 1, .bottom), (x - 1, y, .left)]

/-- The grid allocation loop of `_create_maze_grid`: `height` rows of
`width` copies of the initial fully-walled unvisited cell (`range` of a
non-positive number is empty, hence `toNat`). -/
def buildGrid (width height : Int) : Grid :=
  List.replicate height.toNat (List.replicate width.toNat initCell)

/-- The recursive `carve_path(x, y)` of `_create_maze_grid`, made
structurally recursive on a fuel argument (the recursion depth of the
source is bounded by the number of cells, and `create_maze_grid` passes
fuel `width*height`, which is proved sufficient below):

```
grid[y][x]['visited'] = True
neighbors = [(x, y-1, 'top'), (x+1, y, 'right'), (x, y+1, 'bottom'), (x-1, y, 'left')]
random.shuffle(neighbors)
for nx, ny, direction in neighbors:
    if 0 <= nx < width and 0 <= ny < height and not grid[ny][nx]['visited']:
        grid[y][x]['walls'][direction] = False
        grid[ny][nx]['walls'][opposite[direction]] = False
        carve_path(nx, ny)
```
-/
def carve_path (width height : Int) : Nat → Int → Int → Grid × RNG → Grid × RNG
  | 0, _, _, gs => gs
  | fuel + 1, x, y, gs =>
    let g := markVisited gs.1 x y
    let ns := shuffle (neighborsOf x y) gs.2
    ns.1.foldl
      (fun gs' t =>
        if 0 ≤ t.1 ∧ t.1 < width ∧ 0 ≤ t.2.1 ∧ t.2.1 < height ∧
            (gridGet gs'.1 t.1 t.2.1).visited = false then
          carve_path width height fuel t.1 t.2.1
            (removeWallPair gs'.1 x y t.1 t.2.1 t.2.2, gs'.2)
        else gs')
      (g, ns.2)

/-- Start-cell selection and the carving call of `_create_maze_grid`:

```
start_x, start_y = (0, 0) if difficulty != 'advanced'
                   else (random.randint(0, width-1), random.randint(0, height-1))
carve_path(start_x, start_y)
```

For `width, height >= 1` the start is in bounds and carving is total; if
the start indices fall outside the grid, the assignment
`grid[start_y][start_x]['visited'] = True` raises `IndexError` (for the
`advanced` branch `random.randint(0, -1)` raises `ValueError` first).
Returns the carved grid together with the start cell and the stream. -/
def carvePhase (width height : Int) (difficulty : Difficulty) (r : RNG) :
    Except PyError (Grid × (Int × Int) × RNG) :=
  let grid := buildGrid width height
  let start : Except PyError (Int × Int × RNG) :=
    match difficulty with
    | .advanced =>
      match randint 0 (width - 1) r with
      | .error e => .error e
      | .ok (sx, r) =>
        match randint 0 (height - 1) r with
        | .error e => .error e
        | .ok (sy, r) => .ok (sx, sy, r)
    | _ => .ok (0, 0, r)
  match start with
  | .error e => .error e
  | .ok (sx, sy, r) =>
    if 0 ≤ sx ∧ sx < width ∧ 0 ≤ sy ∧ sy < height then
      let gs := carve_path width height (width.toNat * height.toNat) sx sy (grid, r)
      .ok (gs.1, (sx, sy), gs.2)
    else .error .indexError

/-- Neighbor computation of the advanced extra wall-removal pass
(the `elif` chain; `else: continue` yields `none`). -/
def dirStep (width height x y : Int) : Dir → Option (Int × Int)
  | .top => if 0 < y then some (x, y - 1) else none
  | .right => if x < width - 1 then some (x + 1, y) else none
  | .bottom => if y < height - 1 then some (x, y + 1) else none
  | .left => if 0 < x then some (x - 1, y) else none

/-- One iteration of the advanced extra-path loop:

```
x, y = random.randint(0, width-1), random.randint(0, height-1)
direction = random.choice(['top', 'right', 'bottom', 'left'])
if grid[y][x]['walls'][direction]:
    nx, ny = ... (bounds-guarded, else continue)
    grid[y][x]['walls'][direction] = False
    grid[ny][nx]['walls'][opposite[direction]] = False
```
-/
def extraStep (width height : Int) (gs : Grid × RNG) :
    Except PyError (Grid × RNG) :=
  match randint 0 (width - 1) gs.2 with
  | .error e => .error e
  | .ok (x, r) =>
    match randint 0 (height - 1) r with
    | .error e => .error e
    | .ok (y, r) =>
      let dr := choice [Dir.top, Dir.right, Dir.bottom, Dir.left] Dir.top r
      if (gridGet gs.1 x y).walls.get dr.1 then
        match dirStep width height x y dr.1 with
        | some (nx, ny) => .ok (removeWallPair gs.1 x y nx ny dr.1, dr.2)
        | none => .ok (gs.1, dr.2)
      else .ok (gs.1, dr.2)

/-- The advanced extra-path loop `for _ in range(width * height // 10)`. -/
def extraPass (width height : Int) : Nat → Grid × RNG → Except PyError (Grid × RNG)
  | 0, gs => .ok gs
  | n + 1, gs =>
    match extraStep width height gs with
    | .error e => .error e
    | .ok gs' => extraPass width height n gs'

/-- `_create_maze_grid(width, height, difficulty)`: build, carve, and (for
`'advanced'` only) run the extra wall-removal pass. -/
def create_maze_grid (width height : Int) (difficulty : Difficulty) (r : RNG) :
    Except PyError (Grid × RNG) :=
  match carvePhase width height difficulty r with
  | .error e => .error e
  | .ok (g, _, r) =>
    match difficulty with
    | .advanced => extraPass width height (width.toNat * height.toNat / 10) (g, r)
    | _ => .ok (g, r)

/-! ## Geometry emission

`_generate_rectangular_maze_code` emits one `translate([...]) cube([...])`
statement per solid; following §3 of the specification each such statement
is modelled as one `WallSegment` (origin, dimensions, role).  The role tag
records which emission site of the source produced the segment. -/

/-- Segment roles, per §3 of the specification. -/
inductive Role where
  | boundary | internal | entranceCut | exitCut | pillar | base | roof
deriving DecidableEq, Repr

/-- One axis-aligned solid: origin `(ox, oy, oz)`, dimensions
`(dx, dy, dz)`, and its role. -/
structure WallSegment where
  ox : Int
  oy : Int
  oz : Int
  dx : Int
  dy : Int
  dz : Int
  role : Role
deriving DecidableEq, Repr

/-- `cell_size = path_width + wall_thickness`. -/
def cellSize (p : MazeParams) : Int := p.path_width + p.wall_thickness

/-- `total_width = width * cell_size + wall_thickness` (grid width read
from the grid itself: `len(maze_grid[0])`). -/
def totalWidth (gw : Nat) (p : MazeParams) : Int :=
  gw * cellSize p + p.wall_thickness

/-- `total_height = height * cell_size + wall_thickness`. -/
def totalHeight (gh : Nat) (p : MazeParams) : Int :=
  gh * cellSize p + p.wall_thickness

/-- The base-platform segment:
`translate([0, 0, -2]) cube([total_width, total_height, 2])`. -/
def baseSegments (gw gh : Nat) (p : MazeParams) : List WallSegment :=
  if Feature.base ∈ p.features then
    [⟨0, 0, -2, totalWidth gw p, totalHeight gh p, 2, .base⟩]
  else []

/-- The four boundary walls (left, right, bottom, top), in source order. -/
def boundarySegments (gw gh : Nat) (p : MazeParams) : List WallSegment :=
  [⟨0, 0, 0, p.wall_thickness, totalHeight gh p, p.wall_height, .boundary⟩,
   ⟨totalWidth gw p - p.wall_thickness, 0, 0,
     p.wall_thickness, totalHeight gh p, p.wall_height, .boundary⟩,
   ⟨0, 0, 0, totalWidth gw p, p.wall_thickness, p.wall_height, .boundary⟩,
   ⟨0, totalHeight gh p - p.wall_thickness, 0,
     totalWidth gw p, p.wall_thickness, p.wall_height, .boundary⟩]

/-- The internal segment emitted for the `'right'` wall of cell `(x, y)`:
`translate([base_x + path_width, base_y, 0])
 cube([wall_thickness, path_width, wall_height])`. -/
def rightWallSegment (p : MazeParams) (x y : Int) : WallSegment :=
  ⟨x * cellSize p + p.wall_thickness + p.path_width,
   y * cellSize p + p.wall_thickness, 0,
   p.wall_thickness, p.path_width, p.wall_height, .internal⟩

/-- The internal segment emitted for the `'top'` wall of cell `(x, y)`:
`translate([base_x, base_y + path_width, 0])
 cube([path_width, wall_thickness, wall_height])`. -/
def topWallSegment (p : MazeParams) (x y : Int) : WallSegment :=
  ⟨x * cellSize p + p.wall_thickness,
   y * cellSize p + p.wall_thickness + p.path_width, 0,
   p.path_width, p.wall_thickness, p.wall_height, .internal⟩

/-- The two conditional internal-wall emissions for one cell:

```
if cell['walls']['right'] and x < width - 1: ...
if cell['walls']['top'] and y < height - 1: ...
```
-/
def cellSegments (g : Grid) (gw gh : Nat) (p : MazeParams) (x y : Nat) :
    List WallSegment :=
  (if (gridGet g x y).walls.right ∧ (x : Int) < (gw : Int) - 1 then
    [rightWallSegment p x y] else []) ++
  (if (gridGet g x y).walls.top ∧ (y : Int) < (gh : Int) - 1 then
    [topWallSegment p x y] else [])

/-- The internal-wall loop `for y in range(height): for x in range(width)`,
in row-major order. -/
def internalSegments (g : Grid) (gw gh : Nat) (p : MazeParams) :
    List WallSegment :=
  (List.range gh).flatMap fun y =>
    (List.range gw).flatMap fun x => cellSegments g gw gh p x y

/-- The decorative pillar loop
`for y in range(height+1): for x in range(width+1)` emitting
`translate([x*cell_size, y*cell_size, 0])
 cube([wall_thickness, wall_thickness, wall_height + 5])`. -/
def pillarSegments (gw gh : Nat) (p : MazeParams) : List WallSegment :=
  if Feature.pillars ∈ p.features then
    (List.range (gh + 1)).flatMap fun y =>
      (List.range (gw + 1)).flatMap fun x =>
        [⟨(x : Int) * cellSize p, (y : Int) * cellSize p, 0,
          p.wall_thickness, p.wall_thickness, p.wall_height + 5, .pillar⟩]
  else []

/-- The entrance and exit cut solids:

```
entrance_x = wall_thickness; entrance_y = 0
exit_x = total_width - wall_thickness * 2; exit_y = total_height - wall_thickness
translate([entrance_x, entrance_y - 1, 0]) cube([path_width, wall_thickness + 2, wall_height])
translate([exit_x, exit_y - 1, 0]) cube([path_width, wall_thickness + 2, wall_height])
```
-/
def cutSegments (gw gh : Nat) (p : MazeParams) : List WallSegment :=
  [⟨p.wall_thickness, -1, 0,
    p.path_width, p.wall_thickness + 2, p.wall_height, .entranceCut⟩,
   ⟨totalWidth gw p - p.wall_thickness * 2,
    totalHeight gh p - p.wall_thickness - 1, 0,
    p.path_width, p.wall_thickness + 2, p.wall_height, .exitCut⟩]

/-- The roof slab `translate([0, 0, wall_height])
 cube([total_width, total_height, 2])`. -/
def roofSegments (gw gh : Nat) (p : MazeParams) : List WallSegment :=
  if Feature.roof ∈ p.features then
    [⟨0, 0, p.wall_height, totalWidth gw p, totalHeight gh p, 2, .roof⟩]
  else []

/-- All segments of `_generate_rectangular_maze_code`, in the emission
order of the source: base platform (if enabled), boundary walls, internal
walls (row-major), pillars (if enabled), entrance and exit cuts, roof (if
enabled).  Grid dimensions are read from the grid
(`width, height = len(maze_grid[0]), len(maze_grid)`). -/
def rectangularMazeSegments (g : Grid) (p : MazeParams) : List WallSegment :=
  let gw := (g.getD 0 []).length
  let gh := g.length
  baseSegments gw gh p ++ boundarySegments gw gh p ++
    internalSegments g gw gh p ++ pillarSegments gw gh p ++
    cutSegments gw gh p ++ roofSegments gw gh p

/-- Segment-level semantics of `_generate_multilevel_maze_code`.  The
source takes the OpenSCAD text of the *same single carved grid* and
rewrites it with `str.replace`, inserting after every `}` an *empty* block

```
// Level 2 (shifted)
translate([0, 0, wall_height + 5]) {
    // Simplified second level
}
```

which contains no solid at all; no second grid is carved and no cube
statement is added or moved, so the emitted solids are exactly those of
the single rectangular maze.  (The string level is modelled verbatim
below; see `generate_multilevel_maze_code`.) -/
def multilevelMazeSegments (g : Grid) (p : MazeParams) : List WallSegment :=
  rectangularMazeSegments g p

/-- `_generate_algorithmic_maze`: carve one grid with `_create_maze_grid`,
then dispatch on the maze type (the `'circular'` branch falls back to the
rectangular geometry plus a TODO comment).  Returns the segment list and
the final random-stream state. -/
def generate_algorithmic_maze (p : MazeParams) (r : RNG) :
    Except PyError (List WallSegment × RNG) :=
  match create_maze_grid p.width p.height p.difficulty r with
  | .error e => .error e
  | .ok (g, r) =>
    match p.mazeType with
    | .multiLevel => .ok (multilevelMazeSegments g p, r)
    | _ => .ok (rectangularMazeSegments g p, r)

/-- Render one segment as its OpenSCAD statement, exactly as the f-strings
of the source do (`translate([x, y, z]) cube([dx, dy, dz]);`): the
byte-level serialization of the output. -/
def renderSegment (s : WallSegment) : String :=
  "translate([" ++ toString s.ox ++ ", " ++ toString s.oy ++ ", " ++
    toString s.oz ++ "]) cube([" ++ toString s.dx ++ ", " ++ toString s.dy ++
    ", " ++ toString s.dz ++ "]);"

/-- Serialize a generation result byte-for-byte (one statement per line). -/
def serializeSegments (l : List WallSegment) : String :=
  String.intercalate "\n" (l.map renderSegment)

/-! ## String-level code generation

`_generate_multilevel_maze_code` operates on the generated OpenSCAD *text*
with `str.replace`, so the multi-level behaviour is also modelled at the
literal string level. -/

/-- The literal `code_lines` list of `_generate_rectangular_maze_code`
(each emitted cube statement is `renderSegment` of its segment, plus the
indentation and trailing comments of the source). -/
def rectCodeLines (g : Grid) (p : MazeParams) : List String :=
  let gw := (g.getD 0 []).length
  let gh := g.length
  (["// Algorithmically generated rectangular maze",
    "// Grid size: " ++ toString gw ++ "x" ++ toString gh,
    "// Wall height: " ++ toString p.wall_height ++ ", thickness: " ++
      toString p.wall_thickness,
    "// Path width: " ++ toString p.path_width,
    "",
    "union() \x7b"] ++
  (if Feature.base ∈ p.features then
    ["    // Base platform",
     "    " ++ renderSegment ⟨0, 0, -2, totalWidth gw p, totalHeight gh p, 2, .base⟩,
     ""]
   else []) ++
  ["    // Boundary walls",
   "    " ++ renderSegment
       ⟨0, 0, 0, p.wall_thickness, totalHeight gh p, p.wall_height, .boundary⟩ ++
     " // Left wall",
   "    " ++ renderSegment
       ⟨totalWidth gw p - p.wall_thickness, 0, 0, p.wall_thickness,
        totalHeight gh p, p.wall_height, .boundary⟩ ++ " // Right wall",
   "    " ++ renderSegment
       ⟨0, 0, 0, totalWidth gw p, p.wall_thickness, p.wall_height, .boundary⟩ ++
     " // Bottom wall",
   "    " ++ renderSegment
       ⟨0, totalHeight gh p - p.wall_thickness, 0, totalWidth gw p,
        p.wall_thickness, p.wall_height, .boundary⟩ ++ " // Top wall",
   ""] ++
  ("    // Internal walls" ::
    (internalSegments g gw gh p).map (fun s => "    " ++ renderSegment s)) ++
  (if Feature.pillars ∈ p.features then
    "" :: "    // Decorative pillars at intersections" ::
      (pillarSegments gw gh p).map (fun s => "    " ++ renderSegment s)
   else []) ++
  ["\x7d"] ++
  ["",
   "// Create entrance and exit",
   "difference() \x7b",
   "    union() \x7b /* maze walls above */ \x7d",
   "",
   "    // Entrance",
   "    " ++ renderSegment
       ⟨p.wall_thickness, -1, 0, p.path_width, p.wall_thickness + 2,
        p.wall_height, .entranceCut⟩,
   "",
   "    // Exit",
   "    " ++ renderSegment
       ⟨totalWidth gw p - p.wall_thickness * 2,
        totalHeight gh p - p.wall_thickness - 1, 0, p.path_width,
        p.wall_thickness + 2, p.wall_height, .exitCut⟩,
   "\x7d"] ++
  (if Feature.roof ∈ p.features then
    ["",
     "// Optional roof",
     renderSegment ⟨0, 0, p.wall_height, totalWidth gw p, totalHeight gh p, 2, .roof⟩]
   else []))

/-- `'\n'.join(code_lines)`: the OpenSCAD text of the rectangular maze. -/
def generate_rectangular_maze_code (g : Grid) (p : MazeParams) : String :=
  String.intercalate "\n" (rectCodeLines g p)

/-- Replace every non-overlapping occurrence of `pat` (nonempty) in `s`
left-to-right by `rep` (the semantics of Python's `str.replace`, an
external standard-library function; modelled with a fuel bounded by the
string length so the kernel can evaluate it). -/
def replaceFuel (pat rep : List Char) : Nat → List Char → List Char
  | 0, s => s
  | _ + 1, [] => []
  | fuel + 1, c :: rest =>
    if pat ≠ [] ∧ pat.isPrefixOf (c :: rest) then
      rep ++ replaceFuel pat rep fuel ((c :: rest).drop pat.length)
    else
      c :: replaceFuel pat rep fuel rest

/-- Python `s.replace(pat, rep)` for nonempty `pat`. -/
def pyReplace (s pat rep : String) : String :=
  ⟨replaceFuel pat.data rep.data s.data.length s.data⟩

/-- `_generate_multilevel_maze_code`, verbatim: the text of the *same*
carved grid's rectangular maze is rewritten by three `str.replace` calls
(the second of which replaces `"translate(["` by itself, changing
nothing); the third inserts before every `}` an empty
`translate([0, 0, wall_height + 5]) { ... }` placeholder block. -/
def generate_multilevel_maze_code (g : Grid) (p : MazeParams) : String :=
  let base_code := generate_rectangular_maze_code g p
  let s1 := pyReplace base_code "union() \x7b" "union() \x7b\n    // Level 1\n"
  let s2 := pyReplace s1 "translate([" "translate(["
  pyReplace s2 "\x7d"
    ("\n    // Level 2 (shifted)\n    translate([0, 0, " ++
      toString (p.wall_height + 5) ++
      "]) \x7b\n        // Simplified second level\n    \x7d\n\x7d")

/-- Number of positions where a pattern occurs in a character list. -/
def countOcc (pat : List Char) : List Char → Nat
  | [] => 0
  | c :: rest =>
    (if pat.isPrefixOf (c :: rest) then 1 else 0) + countOcc pat rest

/-- Number of `cube(` occurrences in a string (counts the solid-primitive
statements of a piece of generated OpenSCAD code). -/
def cubeCount (s : String) : Nat :=
  countOcc "cube(".toList s.toList

/-! ## Basic properties of the grid representation -/

/-- The bounds check of the source, `0 <= x < width and 0 <= y < height`. -/
def InB (width height x y : Int) : Prop :=
  0 ≤ x ∧ x < width ∧ 0 ≤ y ∧ y < height

instance (width height x y : Int) : Decidable (InB width height x y) := by
  unfold InB; infer_instance

/-- The grid is a rectangular `W × H` array of cells. -/
def GridShape (g : Grid) (W H : Nat) : Prop :=
  g.length = H ∧ ∀ row ∈ g, row.length = W

theorem gridShape_buildGrid (width height : Int) :
    GridShape (buildGrid width height) width.toNat height.toNat := by
  constructor
  · simp [buildGrid]
  · intro row hrow
    rw [List.eq_of_mem_replicate hrow]
    simp

theorem gridGet_buildGrid {width height x y : Int}
    (hx0 : 0 ≤ x) (hx : x < width) (hy0 : 0 ≤ y) (hy : y < height) :
    gridGet (buildGrid width height) x y = initCell := by
  have hxn : x.toNat < width.toNat := by omega
  have hyn : y.toNat < height.toNat := by omega
  simp [gridGet, buildGrid, List.getD_eq_getElem?_getD, List.getElem?_replicate,
    hxn, hyn]

theorem gridShape_modify {g : Grid} {W H : Nat} (hs : GridShape g W H)
    {x y : Int} (hy : y.toNat < H) (f : Cell → Cell) :
    GridShape (gridModify g x y f) W H := by
  obtain ⟨hlen, hrow⟩ := hs
  constructor
  · simp [gridModify, hlen]
  · intro row hmem
    rcases List.mem_or_eq_of_mem_set hmem with h | h
    · exact hrow _ h
    · subst h
      rw [List.length_set]
      apply hrow
      have : g[y.toNat]? = some (g.getD y.toNat []) := by
        rw [List.getD_eq_getElem?_getD]
        cases hg : g[y.toNat]? with
        | none => rw [List.getElem?_eq_none_iff] at hg; omega
        | some r => simp
      exact List.getElem?_mem this


theorem getD_set_self {α : Type _} (l : List α) (n : Nat) (a d : α)
    (h : n < l.length) : (l.set n a).getD n d = a := by
  rw [List.getD_eq_getElem?_getD, List.getElem?_set, if_pos rfl, if_pos h]
  rfl

theorem getD_set_ne {α : Type _} (l : List α) {m n : Nat} (hmn : n ≠ m)
    (a d : α) : (l.set n a).getD m d = l.getD m d := by
  rw [List.getD_eq_getElem?_getD, List.getElem?_set, if_neg hmn,
    ← List.getD_eq_getElem?_getD]

theorem getD_mem_of_lt {α : Type _} (l : List α) (n : Nat) (d : α)
    (h : n < l.length) : l.getD n d ∈ l := by
  apply List.getElem?_mem
  rw [List.getD_eq_getElem?_getD]
  cases hg : l[n]? with
  | none => rw [List.getElem?_eq_none_iff] at hg; omega
  | some r => simp

theorem gridGet_modify_self {g : Grid} {W H : Nat} (hs : GridShape g W H)
    {x y : Int} (hx : x.toNat < W) (hy : y.toNat < H) (f : Cell → Cell) :
    gridGet (gridModify g x y f) x y = f (gridGet g x y) := by
  obtain ⟨hlen, hrow⟩ := hs
  have hyg : y.toNat < g.length := by omega
  have hxg : x.toNat < (g.getD y.toNat []).length := by
    rw [hrow _ (getD_mem_of_lt g y.toNat [] hyg)]; exact hx
  unfold gridModify gridGet
  rw [getD_set_self _ _ _ _ hyg, getD_set_self _ _ _ _ hxg]

theorem gridGet_modify_ne {g : Grid} {x y a b : Int}
    (hne : x.toNat ≠ a.toNat ∨ y.toNat ≠ b.toNat) (f : Cell → Cell) :
    gridGet (gridModify g x y f) a b = gridGet g a b := by
  unfold gridModify gridGet
  by_cases hyb : y.toNat = b.toNat
  · have hxa : x.toNat ≠ a.toNat := by tauto
    rw [← hyb]
    by_cases hylen : y.toNat < g.length
    · rw [getD_set_self _ _ _ _ hylen, getD_set_ne _ hxa]
    · have hle : g.length ≤ y.toNat := by omega
      rw [List.set_eq_of_length_le hle]
  · rw [getD_set_ne _ hyb]

/-- In-bounds integer coordinates are determined by their `toNat` images. -/
theorem inb_toNat_inj {width height x y a b : Int}
    (h1 : InB width height x y) (h2 : InB width height a b)
    (hne : (x, y) ≠ (a, b)) : x.toNat ≠ a.toNat ∨ y.toNat ≠ b.toNat := by
  obtain ⟨hx0, _, hy0, _⟩ := h1
  obtain ⟨ha0, _, hb0, _⟩ := h2
  by_contra hcon
  push_neg at hcon
  apply hne
  have : x = a := by omega
  have : y = b := by omega
  simp_all

/-! ## The shuffle returns a permutation of its input -/

theorem count_listSwap [DecidableEq α] (l : List α) (i j : Nat) (c : α) :
    (listSwap l i j).count c = l.count c := by
  unfold listSwap
  cases h1 : l[i]? with
  | none => rfl
  | some a =>
    cases h2 : l[j]? with
    | none => rfl
    | some b =>
      have hil : i < l.length := (List.getElem?_eq_some_iff.mp h1).1
      have hjl : j < l.length := (List.getElem?_eq_some_iff.mp h2).1
      have hjl' : j < (l.set i b).length := by
        rw [List.length_set]; exact hjl
      have hla : l[i] = a := (List.getElem?_eq_some_iff.mp h1).2
      have hlb : l[j] = b := (List.getElem?_eq_some_iff.mp h2).2
      have hset : (l.set i b)[j] = b := by
        rw [List.getElem_set]
        split <;> simp [hlb]
      rw [List.count_set _ _ _ _ hjl', List.count_set _ _ _ _ hil, hset, hla]
      have hamem : a ∈ l := List.getElem?_mem h1
      have hbmem : b ∈ l := List.getElem?_mem h2
      have hca : a = c → 1 ≤ List.count c l := by
        intro h; subst h; exact List.one_le_count_iff.mpr hamem
      have hcb : b = c → 1 ≤ List.count c l := by
        intro h; subst h; exact List.one_le_count_iff.mpr hbmem
      by_cases hac : a = c <;> by_cases hbc : b = c
      · have := hca hac
        simp only [beq_iff_eq, if_pos hac, if_pos hbc]
        omega
      · have := hca hac
        simp only [beq_iff_eq, if_pos hac, if_neg hbc]
        omega
      · have := hcb hbc
        simp only [beq_iff_eq, if_neg hac, if_pos hbc]
        omega
      · simp only [beq_iff_eq, if_neg hac, if_neg hbc]
        omega

theorem listSwap_perm [DecidableEq α] (l : List α) (i j : Nat) :
    (listSwap l i j).Perm l := by
  rw [List.perm_iff_count]
  intro c
  exact count_listSwap l i j c

theorem shuffleSteps_perm [DecidableEq α] (n : Nat) (l : List α) (r : RNG) :
    (shuffleSteps n l r).1.Perm l := by
  induction n generalizing l r with
  | zero => exact .refl _
  | succ i ih =>
    exact (ih _ _).trans (listSwap_perm _ _ _)

theorem shuffle_perm [DecidableEq α] (l : List α) (r : RNG) :
    (shuffle l r).1.Perm l :=
  shuffleSteps_perm _ l r

/-- Every triple in the neighbor list is the offset of its direction. -/
theorem mem_neighborsOf {x y : Int} {t : Int × Int × Dir}
    (h : t ∈ neighborsOf x y) :
    t.1 = x + t.2.2.dx ∧ t.2.1 = y + t.2.2.dy := by
  simp only [neighborsOf, List.mem_cons, List.not_mem_nil, or_false] at h
  rcases h with h | h | h | h <;> subst h <;>
    refine ⟨?_, ?_⟩ <;> simp [Dir.dx, Dir.dy] <;> omega

/-! ## A master preservation principle

Both carving and the extra wall-removal pass mutate the grid only through
`markVisited` and `removeWallPair`, always on in-bounds cells whose
coordinates differ by one direction offset.  Any grid property preserved
by those two operations is therefore an invariant of the whole
generation. -/

theorem randint_le {a b v : Int} {r r' : RNG}
    (h : randint a b r = .ok (v, r')) : a ≤ v ∧ v ≤ b := by
  unfold randint at h
  split at h
  · exact absurd h (by simp)
  · next hba =>
    simp only [nextNat, Except.ok.injEq, Prod.mk.injEq] at h
    obtain ⟨hv, _⟩ := h
    have hpos : 0 < (b - a + 1).toNat := by omega
    have hmod : (r 0) % (b - a + 1).toNat < (b - a + 1).toNat :=
      Nat.mod_lt _ hpos
    have : ((r 0) % (b - a + 1).toNat : Int) < ((b - a + 1).toNat : Int) := by
      exact_mod_cast hmod
    omega

theorem randint_isOk {a b : Int} (r : RNG) (h : a ≤ b) :
    ∃ v r', randint a b r = .ok (v, r') := by
  unfold randint
  rw [if_neg (by omega)]
  exact ⟨_, _, rfl⟩

/-- If the extra pass removes a wall, it does so across an in-bounds
adjacent pair given by a direction offset. -/
theorem dirStep_some {width height x y : Int} {d : Dir} {nx ny : Int}
    (hx : InB width height x y)
    (h : dirStep width height x y d = some (nx, ny)) :
    nx = x + d.dx ∧ ny = y + d.dy ∧ InB width height nx ny := by
  obtain ⟨hx0, hxw, hy0, hyh⟩ := hx
  cases d <;> simp only [dirStep] at h <;> split at h <;>
      simp only [Option.some.injEq, Prod.mk.injEq, reduceCtorEq] at h <;>
      obtain ⟨h1, h2⟩ := h <;>
    refine ⟨by rw [← h1]; simp [Dir.dx]; try ring, by rw [← h2]; simp [Dir.dy]; try ring, ?_⟩ <;>
    exact ⟨by omega, by omega, by omega, by omega⟩

/-- Preservation through the neighbor loop of `carve_path`. -/
theorem carve_loop_preserves {width height : Int} (Q : Grid → Prop)
    (fuel : Nat) (x y : Int) (hxy : InB width height x y)
    (hremove : ∀ g a b d, InB width height a b →
      InB width height (a + Dir.dx d) (b + Dir.dy d) → Q g →
      Q (removeWallPair g a b (a + Dir.dx d) (b + Dir.dy d) d))
    (ihcarve : ∀ a b g r, InB width height a b → Q g →
      Q (carve_path width height fuel a b (g, r)).1) :
    ∀ (l : List (Int × Int × Dir)) (gr : Grid × RNG),
      (∀ t ∈ l, t ∈ neighborsOf x y) → Q gr.1 →
      Q ((l.foldl
        (fun gs' t =>
          if 0 ≤ t.1 ∧ t.1 < width ∧ 0 ≤ t.2.1 ∧ t.2.1 < height ∧
              (gridGet gs'.1 t.1 t.2.1).visited = false then
            carve_path width height fuel t.1 t.2.1
              (removeWallPair gs'.1 x y t.1 t.2.1 t.2.2, gs'.2)
          else gs') gr)).1 := by
  intro l
  induction l with
  | nil => intro gr _ hQ; exact hQ
  | cons t rest ihl =>
    intro gr hmem hQ
    rw [List.foldl_cons]
    apply ihl _ (fun u hu => hmem u (List.mem_cons_of_mem _ hu))
    by_cases hguard : 0 ≤ t.1 ∧ t.1 < width ∧ 0 ≤ t.2.1 ∧ t.2.1 < height ∧
        (gridGet gr.1 t.1 t.2.1).visited = false
    · rw [if_pos hguard]
      obtain ⟨hdx, hdy⟩ := mem_neighborsOf (hmem t (List.mem_cons_self _ _))
      have hinb : InB width height t.1 t.2.1 :=
        ⟨hguard.1, hguard.2.1, hguard.2.2.1, hguard.2.2.2.1⟩
      apply ihcarve t.1 t.2.1 _ _ hinb
      have hrem := hremove gr.1 x y t.2.2 hxy (by rw [← hdx, ← hdy]; exact hinb) hQ
      rw [← hdx, ← hdy] at hrem
      exact hrem
    · rw [if_neg hguard]
      exact hQ

/-- Preservation through the whole carve. -/
theorem carve_path_preserves {width height : Int} (Q : Grid → Prop)
    (hmark : ∀ g a b, InB width height a b → Q g → Q (markVisited g a b))
    (hremove : ∀ g a b d, InB width height a b →
      InB width height (a + Dir.dx d) (b + Dir.dy d) → Q g →
      Q (removeWallPair g a b (a + Dir.dx d) (b + Dir.dy d) d)) :
    ∀ fuel x y g r, InB width height x y → Q g →
      Q (carve_path width height fuel x y (g, r)).1 := by
  intro fuel
  induction fuel with
  | zero => intro x y g r _ hQ; exact hQ
  | succ fuel ih =>
    intro x y g r hxy hQ
    rw [carve_path]
    exact carve_loop_preserves Q fuel x y hxy hremove
      (fun a b g' r' hab hQ' => ih a b g' r' hab hQ')
      (shuffle (neighborsOf x y) r).1 (markVisited g x y, (shuffle (neighborsOf x y) r).2)
      (fun t ht => ((shuffle_perm (neighborsOf x y) r).mem_iff).mp ht)
      (hmark g x y hxy hQ)

/-- Preservation through one step of the extra wall-removal pass. -/
theorem extraStep_preserves {width height : Int} (Q : Grid → Prop)
    (hremove : ∀ g a b d, InB width height a b →
      InB width height (a + Dir.dx d) (b + Dir.dy d) → Q g →
      Q (removeWallPair g a b (a + Dir.dx d) (b + Dir.dy d) d))
    {gs : Grid × RNG} {gs' : Grid × RNG}
    (h : extraStep width height gs = .ok gs') (hQ : Q gs.1) : Q gs'.1 := by
  unfold extraStep at h
  cases hx : randint 0 (width - 1) gs.2 with
  | error e => rw [hx] at h; exact absurd h (by simp)
  | ok vr =>
    obtain ⟨xx, r1⟩ := vr
    rw [hx] at h
    simp only at h
    cases hy : randint 0 (height - 1) r1 with
    | error e => rw [hy] at h; exact absurd h (by simp)
    | ok vr2 =>
      obtain ⟨yy, r2⟩ := vr2
      rw [hy] at h
      have hxb := randint_le hx
      have hyb := randint_le hy
      have hinb : InB width height xx yy := ⟨hxb.1, by omega, hyb.1, by omega⟩
      simp only at h
      split at h
      · -- wall present
        cases hds : dirStep width height xx yy
            (choice [Dir.top, Dir.right, Dir.bottom, Dir.left] Dir.top r2).1 with
        | none =>
          rw [hds] at h
          simp only [Except.ok.injEq] at h
          rw [← h]
          exact hQ
        | some nxy =>
          obtain ⟨nx, ny⟩ := nxy
          rw [hds] at h
          simp only [Except.ok.injEq] at h
          obtain ⟨hnx, hny, hninb⟩ := dirStep_some hinb hds
          rw [← h]
          simp only
          rw [hnx, hny]
          exact hremove gs.1 xx yy _ hinb (by rw [← hnx, ← hny]; exact hninb) hQ
      · simp only [Except.ok.injEq] at h
        rw [← h]
        exact hQ

/-- Preservation through the whole extra pass. -/
theorem extraPass_preserves {width height : Int} (Q : Grid → Prop)
    (hremove : ∀ g a b d, InB width height a b →
      InB width height (a + Dir.dx d) (b + Dir.dy d) → Q g →
      Q (removeWallPair g a b (a + Dir.dx d) (b + Dir.dy d) d)) :
    ∀ (n : Nat) {gs gs' : Grid × RNG},
      extraPass width height n gs = .ok gs' → Q gs.1 → Q gs'.1 := by
  intro n
  induction n with
  | zero =>
    intro gs gs' h hQ
    simp only [extraPass, Except.ok.injEq] at h
    rw [← h]; exact hQ
  | succ n ih =>
    intro gs gs' h hQ
    simp only [extraPass] at h
    cases hstep : extraStep width height gs with
    | error e => rw [hstep] at h; exact absurd h (by simp)
    | ok gs1 =>
      rw [hstep] at h
      exact ih h (extraStep_preserves Q hremove hstep hQ)

/-- Inversion of a successful `carvePhase`: the start cell is in bounds
and the result is the carve of the freshly-built grid from it. -/
theorem carvePhase_ok_elim {width height : Int} {d : Difficulty} {r : RNG}
    {g : Grid} {st : Int × Int} {r' : RNG}
    (h : carvePhase width height d r = .ok (g, st, r')) :
    InB width height st.1 st.2 ∧
    ∃ r₀ : RNG, (g, r') =
      carve_path width height (width.toNat * height.toNat) st.1 st.2
        (buildGrid width height, r₀) := by
  unfold carvePhase at h
  cases d with
  | advanced =>
    simp only at h
    cases hx : randint 0 (width - 1) r with
    | error e => rw [hx] at h; exact absurd h (by simp)
    | ok vr =>
      obtain ⟨sx, r1⟩ := vr
      rw [hx] at h
      simp only at h
      cases hy : randint 0 (height - 1) r1 with
      | error e => rw [hy] at h; exact absurd h (by simp)
      | ok vr2 =>
        obtain ⟨sy, r2⟩ := vr2
        rw [hy] at h
        simp only at h
        split at h
        · next hinb =>
          simp only [Except.ok.injEq, Prod.mk.injEq] at h
          obtain ⟨hg, hst, hr⟩ := h
          refine ⟨?_, r2, ?_⟩
          · rw [← hst]; exact hinb
          · rw [← hst]
            simp only
            rw [← hg, ← hr]
        · exact absurd h (by simp)
  | beginner =>
    simp only at h
    split at h
    · next hinb =>
      simp only [Except.ok.injEq, Prod.mk.injEq] at h
      obtain ⟨hg, hst, hr⟩ := h
      refine ⟨by rw [← hst]; exact hinb, r, ?_⟩
      rw [← hst]
      simp only
      rw [← hg, ← hr]
    · exact absurd h (by simp)
  | intermediate =>
    simp only at h
    split at h
    · next hinb =>
      simp only [Except.ok.injEq, Prod.mk.injEq] at h
      obtain ⟨hg, hst, hr⟩ := h
      refine ⟨by rw [← hst]; exact hinb, r, ?_⟩
      rw [← hst]
      simp only
      rw [← hg, ← hr]
    · exact absurd h (by simp)

/-- Inversion of a successful `create_maze_grid`: the final grid is
obtained from a successful carve phase, followed (for `advanced`) by the
extra pass. -/
theorem create_maze_grid_ok_elim {width height : Int} {d : Difficulty}
    {r : RNG} {g : Grid} {r' : RNG}
    (h : create_maze_grid width height d r = .ok (g, r')) :
    ∃ g₀ st r₀, carvePhase width height d r = .ok (g₀, st, r₀) ∧
      ((d ≠ .advanced ∧ g = g₀) ∨
       (d = .advanced ∧
         extraPass width height (width.toNat * height.toNat / 10) (g₀, r₀) =
           .ok (g, r'))) := by
  unfold create_maze_grid at h
  cases hcp : carvePhase width height d r with
  | error e => rw [hcp] at h; exact absurd h (by simp)
  | ok v =>
    obtain ⟨g₀, st, r₀⟩ := v
    rw [hcp] at h
    refine ⟨g₀, st, r₀, rfl, ?_⟩
    cases d with
    | advanced =>
      right
      exact ⟨rfl, h⟩
    | beginner =>
      left
      simp only [Except.ok.injEq, Prod.mk.injEq] at h
      exact ⟨by simp, h.1.symm⟩
    | intermediate =>
      left
      simp only [Except.ok.injEq, Prod.mk.injEq] at h
      exact ⟨by simp, h.1.symm⟩

/-! ## Effect of the two mutation operations on wall flags -/

theorem walls_get_clear (w : Walls) (d e : Dir) :
    (w.clear d).get e = if e = d then false else w.get e := by
  cases d <;> cases e <;> simp [Walls.clear, Walls.get]

/-- A cell write either leaves a position unchanged or (when the integer
coordinates collapse to the same array indices) applies `f` there. -/
theorem gridGet_modify_cases (g : Grid) (x y a b : Int) (f : Cell → Cell) :
    gridGet (gridModify g x y f) a b = gridGet g a b ∨
    (x.toNat = a.toNat ∧ y.toNat = b.toNat ∧
      gridGet (gridModify g x y f) a b = f (gridGet g a b)) := by
  by_cases hyb : y.toNat = b.toNat
  · by_cases hxa : x.toNat = a.toNat
    · by_cases hylen : y.toNat < g.length
      · by_cases hxlen : x.toNat < (g.getD y.toNat []).length
        · right
          refine ⟨hxa, hyb, ?_⟩
          unfold gridModify gridGet
          rw [← hyb, ← hxa, getD_set_self _ _ _ _ hylen,
            getD_set_self _ _ _ _ hxlen]
        · left
          unfold gridModify gridGet
          rw [← hyb, ← hxa, getD_set_self _ _ _ _ hylen,
            List.set_eq_of_length_le (by omega)]
      · left
        unfold gridModify gridGet
        rw [List.set_eq_of_length_le (by omega)]
    · left
      exact gridGet_modify_ne (Or.inl hxa) f
  · left
    exact gridGet_modify_ne (Or.inr hyb) f

theorem gridGet_modify_walls (f : Cell → Cell)
    (hf : ∀ c, (f c).walls = c.walls) (g : Grid) (x y a b : Int) :
    (gridGet (gridModify g x y f) a b).walls = (gridGet g a b).walls := by
  rcases gridGet_modify_cases g x y a b f with h | ⟨_, _, h⟩ <;> rw [h]
  exact hf _

theorem gridGet_modify_visited (f : Cell → Cell)
    (hf : ∀ c, (f c).visited = c.visited) (g : Grid) (x y a b : Int) :
    (gridGet (gridModify g x y f) a b).visited = (gridGet g a b).visited := by
  rcases gridGet_modify_cases g x y a b f with h | ⟨_, _, h⟩ <;> rw [h]
  exact hf _

theorem gridGet_markVisited_walls (g : Grid) (x y a b : Int) :
    (gridGet (markVisited g x y) a b).walls = (gridGet g a b).walls := by
  unfold markVisited
  exact gridGet_modify_walls (fun c => { c with visited := true })
    (fun _ => rfl) g x y a b

theorem gridGet_removeWallPair_visited (g : Grid) (x y nx ny : Int) (d : Dir)
    (a b : Int) :
    (gridGet (removeWallPair g x y nx ny d) a b).visited =
      (gridGet g a b).visited := by
  unfold removeWallPair
  dsimp only
  rw [gridGet_modify_visited (fun c => { c with walls := c.walls.clear d.opposite })
      (fun _ => rfl),
    gridGet_modify_visited (fun c => { c with walls := c.walls.clear d })
      (fun _ => rfl)]

/-- Wall-flag lookup. -/
def wallAt (g : Grid) (x y : Int) (d : Dir) : Bool :=
  (gridGet g x y).walls.get d


/-- Characterization of a cell write at in-bounds coordinates. -/
theorem gridGet_modify_ite {width height : Int} {g : Grid}
    (hs : GridShape g width.toNat height.toNat)
    {x y a b : Int} (hxy : InB width height x y) (hab : InB width height a b)
    (f : Cell → Cell) :
    gridGet (gridModify g x y f) a b =
      if a = x ∧ b = y then f (gridGet g x y) else gridGet g a b := by
  by_cases h : a = x ∧ b = y
  · obtain ⟨h1, h2⟩ := h
    subst h1; subst h2
    rw [if_pos ⟨rfl, rfl⟩]
    exact gridGet_modify_self hs (by obtain ⟨_, _, _, _⟩ := hab; omega)
      (by obtain ⟨_, _, _, _⟩ := hab; omega) f
  · rw [if_neg h]
    apply gridGet_modify_ne _ f
    have hne : (x, y) ≠ (a, b) := by
      intro hc
      apply h
      exact ⟨congrArg Prod.fst hc |>.symm, congrArg Prod.snd hc |>.symm⟩
    exact inb_toNat_inj hxy hab hne

/-- A direction offset never maps a cell to itself. -/
theorem dir_offset_ne (a b : Int) (d : Dir) :
    ¬(a + d.dx = a ∧ b + d.dy = b) := by
  cases d <;> simp [Dir.dx, Dir.dy] <;> omega

/-- Shape is preserved by the paired wall removal. -/
theorem gridShape_removeWallPair {width height : Int} {g : Grid}
    (hs : GridShape g width.toNat height.toNat)
    {a b na nb : Int} (hab : InB width height a b)
    (hn : InB width height na nb) (d : Dir) :
    GridShape (removeWallPair g a b na nb d) width.toNat height.toNat := by
  unfold removeWallPair
  dsimp only
  exact gridShape_modify
    (gridShape_modify hs (by obtain ⟨_, _, _, _⟩ := hab; omega) _)
    (by obtain ⟨_, _, _, _⟩ := hn; omega) _

/-- Shape is preserved by marking a cell visited. -/
theorem gridShape_markVisited {width height : Int} {g : Grid}
    (hs : GridShape g width.toNat height.toNat)
    {a b : Int} (hab : InB width height a b) :
    GridShape (markVisited g a b) width.toNat height.toNat := by
  apply gridShape_modify hs
  obtain ⟨_, _, _, _⟩ := hab; omega

/-- The exact effect of the paired wall removal on every in-bounds flag:
the two flags of the shared wall become `false`, everything else is
unchanged. -/
theorem wallAt_removeWallPair {width height : Int} {g : Grid}
    (hs : GridShape g width.toNat height.toNat) {a b : Int}
    (d : Dir) (hab : InB width height a b)
    (hn : InB width height (a + d.dx) (b + d.dy))
    {u v : Int} (huv : InB width height u v) (e : Dir) :
    wallAt (removeWallPair g a b (a + d.dx) (b + d.dy) d) u v e =
      if u = a ∧ v = b ∧ e = d then false
      else if u = a + d.dx ∧ v = b + d.dy ∧ e = d.opposite then false
      else wallAt g u v e := by
  have hb : b.toNat < height.toNat := by obtain ⟨_, _, _, _⟩ := hab; omega
  unfold removeWallPair wallAt
  dsimp only
  rw [gridGet_modify_ite (gridShape_modify hs hb _) hn huv]
  by_cases h2 : u = a + d.dx ∧ v = b + d.dy
  · rw [if_pos h2, gridGet_modify_ite hs hab hn, if_neg (dir_offset_ne a b d)]
    dsimp only
    rw [walls_get_clear]
    have hne : ¬(u = a ∧ v = b ∧ e = d) := by
      rintro ⟨h', h'', _⟩
      exact dir_offset_ne a b d ⟨by omega, by omega⟩
    rw [if_neg hne]
    by_cases he : e = d.opposite
    · rw [if_pos he, if_pos ⟨h2.1, h2.2, he⟩]
    · rw [if_neg he, if_neg (fun hc => he hc.2.2), h2.1, h2.2]
  · rw [if_neg h2, gridGet_modify_ite hs hab huv]
    by_cases h1 : u = a ∧ v = b
    · rw [if_pos h1]
      dsimp only
      rw [walls_get_clear]
      by_cases he : e = d
      · rw [if_pos he, if_pos ⟨h1.1, h1.2, he⟩]
      · rw [if_neg he, if_neg (fun hc => he hc.2.2),
          if_neg (fun hc => h2 ⟨hc.1, hc.2.1⟩), h1.1, h1.2]
    · rw [if_neg h1, if_neg (fun hc => h1 ⟨hc.1, hc.2.1⟩),
        if_neg (fun hc => h2 ⟨hc.1, hc.2.1⟩)]

/-- `markVisited` changes no wall flag. -/
theorem wallAt_markVisited (g : Grid) (x y u v : Int) (e : Dir) :
    wallAt (markVisited g x y) u v e = wallAt g u v e := by
  unfold wallAt
  rw [gridGet_markVisited_walls]

/-! ## The wall-symmetry invariant (and the bottom-row `'top'` flags) -/

/-- Wall symmetry: every pair of adjacent cells agrees on the flags of
their shared wall (`A.walls.right == B.walls.left` for horizontal
neighbors, `A.walls.bottom == B.walls.top` for vertical ones, `'bottom'`
denoting the `y+1` neighbor as in the carver). -/
def WallSym (width height : Int) (g : Grid) : Prop :=
  (∀ x y : Int, InB width height x y → InB width height (x + 1) y →
    wallAt g x y .right = wallAt g (x + 1) y .left) ∧
  (∀ x y : Int, InB width height x y → InB width height x (y + 1) →
    wallAt g x y .bottom = wallAt g x (y + 1) .top)

/-- Every bottom-row cell still has its `'top'` flag set. -/
def Row0Top (width height : Int) (g : Grid) : Prop :=
  ∀ x : Int, InB width height x 0 → wallAt g x 0 .top = true

theorem wallSym_markVisited {width height : Int} {g : Grid} {a b : Int}
    (hsym : WallSym width height g) :
    WallSym width height (markVisited g a b) := by
  obtain ⟨hH, hV⟩ := hsym
  constructor
  · intro x y hxy hxy1
    rw [wallAt_markVisited, wallAt_markVisited]
    exact hH x y hxy hxy1
  · intro x y hxy hxy1
    rw [wallAt_markVisited, wallAt_markVisited]
    exact hV x y hxy hxy1

theorem row0Top_markVisited {width height : Int} {g : Grid} {a b : Int}
    (h0 : Row0Top width height g) :
    Row0Top width height (markVisited g a b) := by
  intro x hx
  rw [wallAt_markVisited]
  exact h0 x hx

theorem wallSym_removeWallPair {width height : Int} {g : Grid}
    (hs : GridShape g width.toNat height.toNat) {a b : Int} {d : Dir}
    (hab : InB width height a b) (hn : InB width height (a + d.dx) (b + d.dy))
    (hsym : WallSym width height g) :
    WallSym width height (removeWallPair g a b (a + d.dx) (b + d.dy) d) := by
  obtain ⟨hH, hV⟩ := hsym
  constructor
  · intro x y hxy hxy1
    rw [wallAt_removeWallPair hs d hab hn hxy,
      wallAt_removeWallPair hs d hab hn hxy1]
    cases d <;>
      simp only [Dir.opposite, Dir.dx, Dir.dy, reduceCtorEq, and_false, and_true,
        if_false, add_zero]
    · exact hH x y hxy hxy1
    · -- d = right: the wall between (a,b) and (a+1,b)
      by_cases hc : x = a ∧ y = b
      · rw [if_pos ⟨hc.1, hc.2⟩, if_pos ⟨by omega, hc.2⟩]
      · rw [if_neg (fun h => hc ⟨h.1, h.2⟩),
          if_neg (fun h => hc ⟨by omega, h.2⟩)]
        exact hH x y hxy hxy1
    · exact hH x y hxy hxy1
    · -- d = left: the wall between (a-1,b) and (a,b)
      by_cases hc : x + 1 = a ∧ y = b
      · rw [if_pos ⟨by omega, hc.2⟩, if_pos ⟨hc.1, hc.2⟩]
      · rw [if_neg (fun h => hc ⟨by omega, h.2⟩),
          if_neg (fun h => hc ⟨h.1, h.2⟩)]
        exact hH x y hxy hxy1
  · intro x y hxy hxy1
    rw [wallAt_removeWallPair hs d hab hn hxy,
      wallAt_removeWallPair hs d hab hn hxy1]
    cases d <;>
      simp only [Dir.opposite, Dir.dx, Dir.dy, reduceCtorEq, and_false, and_true,
        if_false, add_zero]
    · -- d = top: the wall between (a,b-1) and (a,b)
      by_cases hc : x = a ∧ y + 1 = b
      · rw [if_pos ⟨hc.1, by omega⟩, if_pos ⟨hc.1, hc.2⟩]
      · rw [if_neg (fun h => hc ⟨h.1, by omega⟩),
          if_neg (fun h => hc ⟨h.1, h.2⟩)]
        exact hV x y hxy hxy1
    · exact hV x y hxy hxy1
    · -- d = bottom: the wall between (a,b) and (a,b+1)
      by_cases hc : x = a ∧ y = b
      · rw [if_pos ⟨hc.1, hc.2⟩, if_pos ⟨hc.1, by omega⟩]
      · rw [if_neg (fun h => hc ⟨h.1, h.2⟩),
          if_neg (fun h => hc ⟨h.1, by omega⟩)]
        exact hV x y hxy hxy1
    · exact hV x y hxy hxy1

theorem row0Top_removeWallPair {width height : Int} {g : Grid}
    (hs : GridShape g width.toNat height.toNat) {a b : Int} {d : Dir}
    (hab : InB width height a b) (hn : InB width height (a + d.dx) (b + d.dy))
    (h0 : Row0Top width height g) :
    Row0Top width height (removeWallPair g a b (a + d.dx) (b + d.dy) d) := by
  intro x hx
  rw [wallAt_removeWallPair hs d hab hn hx]
  rw [if_neg ?c1, if_neg ?c2]
  · exact h0 x hx
  case c1 =>
    rintro ⟨h1, h2, h3⟩
    obtain ⟨_, _, hb0, _⟩ := hab
    obtain ⟨_, _, hnb, _⟩ := hn
    cases d with
    | top =>
      simp only [Dir.dy] at hnb
      omega
    | right => exact absurd h3 (by simp)
    | bottom => exact absurd h3 (by simp)
    | left => exact absurd h3 (by simp)
  case c2 =>
    rintro ⟨h1, h2, h3⟩
    obtain ⟨_, _, hb0, _⟩ := hab
    cases d with
    | bottom =>
      simp only [Dir.dy] at h2
      omega
    | top => exact absurd h3 (by simp [Dir.opposite])
    | right => exact absurd h3 (by simp [Dir.opposite])
    | left => exact absurd h3 (by simp [Dir.opposite])

/-- Shape, wall symmetry and intact bottom-row `'top'` flags, bundled as
one carve/extra-pass invariant. -/
def SymInv (width height : Int) (g : Grid) : Prop :=
  GridShape g width.toNat height.toNat ∧ WallSym width height g ∧
    Row0Top width height g

theorem symInv_buildGrid (width height : Int) :
    SymInv width height (buildGrid width height) := by
  refine ⟨gridShape_buildGrid width height, ⟨?_, ?_⟩, ?_⟩
  · intro x y hxy hxy1
    unfold wallAt
    rw [gridGet_buildGrid hxy.1 hxy.2.1 hxy.2.2.1 hxy.2.2.2,
      gridGet_buildGrid hxy1.1 hxy1.2.1 hxy1.2.2.1 hxy1.2.2.2]
    rfl
  · intro x y hxy hxy1
    unfold wallAt
    rw [gridGet_buildGrid hxy.1 hxy.2.1 hxy.2.2.1 hxy.2.2.2,
      gridGet_buildGrid hxy1.1 hxy1.2.1 hxy1.2.2.1 hxy1.2.2.2]
    rfl
  · intro x hx
    unfold wallAt
    rw [gridGet_buildGrid hx.1 hx.2.1 hx.2.2.1 hx.2.2.2]
    rfl

theorem symInv_mark {width height : Int} {g : Grid} {a b : Int}
    (hab : InB width height a b) (h : SymInv width height g) :
    SymInv width height (markVisited g a b) :=
  ⟨gridShape_markVisited h.1 hab, wallSym_markVisited h.2.1,
    row0Top_markVisited h.2.2⟩

theorem symInv_remove {width height : Int} {g : Grid} {a b : Int} {d : Dir}
    (hab : InB width height a b) (hn : InB width height (a + d.dx) (b + d.dy))
    (h : SymInv width height g) :
    SymInv width height (removeWallPair g a b (a + d.dx) (b + d.dy) d) :=
  ⟨gridShape_removeWallPair h.1 hab hn d,
    wallSym_removeWallPair h.1 hab hn h.2.1,
    row0Top_removeWallPair h.1 hab hn h.2.2⟩

/-- The bundled invariant holds for the grid produced by the carve phase
and (for every difficulty) for the final grid of `_create_maze_grid`. -/
theorem create_maze_grid_symInv {width height : Int} {d : Difficulty}
    {r : RNG} {g : Grid} {r' : RNG}
    (h : create_maze_grid width height d r = .ok (g, r')) :
    SymInv width height g := by
  obtain ⟨g₀, st, r₀, hcp, hrest⟩ := create_maze_grid_ok_elim h
  obtain ⟨hstb, r₁, hcarve⟩ := carvePhase_ok_elim hcp
  have hg₀ : SymInv width height g₀ := by
    have := carve_path_preserves (SymInv width height)
      (fun g' a b hab hq => symInv_mark hab hq)
      (fun g' a b dd hab hn hq => symInv_remove hab hn hq)
      (width.toNat * height.toNat) st.1 st.2 (buildGrid width height) r₁ hstb
      (symInv_buildGrid width height)
    rw [← hcarve] at this
    exact this
  rcases hrest with ⟨_, hgg⟩ | ⟨_, hpass⟩
  · rw [hgg]; exact hg₀
  · exact extraPass_preserves (SymInv width height)
      (fun g' a b dd hab hn hq => symInv_remove hab hn hq)
      _ hpass hg₀

/-- Same statement for the grid immediately after carving (before any
extra-path pass). -/
theorem carvePhase_symInv {width height : Int} {d : Difficulty}
    {r : RNG} {g : Grid} {st : Int × Int} {r' : RNG}
    (h : carvePhase width height d r = .ok (g, st, r')) :
    SymInv width height g := by
  obtain ⟨hstb, r₁, hcarve⟩ := carvePhase_ok_elim h
  have := carve_path_preserves (SymInv width height)
    (fun g' a b hab hq => symInv_mark hab hq)
    (fun g' a b dd hab hn hq => symInv_remove hab hn hq)
    (width.toNat * height.toNat) st.1 st.2 (buildGrid width height) r₁ hstb
    (symInv_buildGrid width height)
  rw [← hcarve] at this
  exact this

/-! ## Counting visited cells and removed walls -/

/-- Number of visited cells. -/
def visitedCount (width height : Int) (g : Grid) : Nat :=
  (Finset.range height.toNat).sum fun y =>
    (Finset.range width.toNat).sum fun x =>
      if (gridGet g (x : Int) (y : Int)).visited then 1 else 0

/-- Number of unvisited cells. -/
def unvisitedCount (width height : Int) (g : Grid) : Nat :=
  (Finset.range height.toNat).sum fun y =>
    (Finset.range width.toNat).sum fun x =>
      if (gridGet g (x : Int) (y : Int)).visited then 0 else 1

/-- Number of adjacent cell pairs whose shared wall has been removed,
counted on the owning side (the `'right'` flag of the left cell, the
`'bottom'` flag of the cell below in carver orientation). -/
def edgeCount (width height : Int) (g : Grid) : Nat :=
  ((Finset.range height.toNat).sum fun y =>
    (Finset.range (width.toNat - 1)).sum fun x =>
      if wallAt g (x : Int) (y : Int) .right then 0 else 1) +
  ((Finset.range (height.toNat - 1)).sum fun y =>
    (Finset.range width.toNat).sum fun x =>
      if wallAt g (x : Int) (y : Int) .bottom then 0 else 1)

/-- Effect of changing one entry of a rectangular table on its sum. -/
theorem sum2_update {W H : Nat} (F G : Nat → Nat → Nat) {a b : Nat}
    (ha : a < W) (hb : b < H)
    (hoff : ∀ x y, x < W → y < H → ¬(x = a ∧ y = b) → F x y = G x y) :
    (((Finset.range H).sum fun y => (Finset.range W).sum fun x => F x y) + G a b) =
    (((Finset.range H).sum fun y => (Finset.range W).sum fun x => G x y) + F a b) := by
  have hb' : b ∈ Finset.range H := Finset.mem_range.mpr hb
  have ha' : a ∈ Finset.range W := Finset.mem_range.mpr ha
  rw [← Finset.sum_erase_add _ _ hb']
  conv_rhs => rw [← Finset.sum_erase_add _ _ hb']
  have hrows : ((Finset.range H).erase b).sum
        (fun y => (Finset.range W).sum fun x => F x y) =
      ((Finset.range H).erase b).sum
        (fun y => (Finset.range W).sum fun x => G x y) := by
    apply Finset.sum_congr rfl
    intro y hy
    have hyb : y ≠ b := (Finset.mem_erase.mp hy).1
    have hyH : y < H := Finset.mem_range.mp (Finset.mem_erase.mp hy).2
    apply Finset.sum_congr rfl
    intro x hx
    exact hoff x y (Finset.mem_range.mp hx) hyH (fun hc => hyb hc.2)
  rw [hrows]
  rw [← Finset.sum_erase_add _ _ ha']
  conv_rhs => rw [← Finset.sum_erase_add _ _ ha']
  have hcols : ((Finset.range W).erase a).sum (fun x => F x b) =
      ((Finset.range W).erase a).sum (fun x => G x b) := by
    apply Finset.sum_congr rfl
    intro x hx
    have hxa : x ≠ a := (Finset.mem_erase.mp hx).1
    have hxW : x < W := Finset.mem_range.mp (Finset.mem_erase.mp hx).2
    exact hoff x b hxW hb (fun hc => hxa hc.1)
  rw [hcols]
  omega

/-- Congruence: sums only read in-range entries. -/
theorem visitedCount_congr {width height : Int} {g g' : Grid}
    (h : ∀ a b : Int, InB width height a b →
      (gridGet g a b).visited = (gridGet g' a b).visited) :
    visitedCount width height g = visitedCount width height g' := by
  unfold visitedCount
  apply Finset.sum_congr rfl
  intro y hy
  apply Finset.sum_congr rfl
  intro x hx
  rw [h x y ⟨by positivity, by
      have := Finset.mem_range.mp hx; omega, by positivity, by
      have := Finset.mem_range.mp hy; omega⟩]

theorem unvisitedCount_congr {width height : Int} {g g' : Grid}
    (h : ∀ a b : Int, InB width height a b →
      (gridGet g a b).visited = (gridGet g' a b).visited) :
    unvisitedCount width height g = unvisitedCount width height g' := by
  unfold unvisitedCount
  apply Finset.sum_congr rfl
  intro y hy
  apply Finset.sum_congr rfl
  intro x hx
  rw [h x y ⟨by positivity, by
      have := Finset.mem_range.mp hx; omega, by positivity, by
      have := Finset.mem_range.mp hy; omega⟩]

theorem edgeCount_congr {width height : Int} {g g' : Grid}
    (h : ∀ a b : Int, InB width height a b → ∀ e : Dir,
      wallAt g a b e = wallAt g' a b e) :
    edgeCount width height g = edgeCount width height g' := by
  unfold edgeCount
  congr 1
  · apply Finset.sum_congr rfl
    intro y hy
    apply Finset.sum_congr rfl
    intro x hx
    rw [h x y ⟨by positivity, by
        have := Finset.mem_range.mp hx; omega, by positivity, by
        have := Finset.mem_range.mp hy; omega⟩]
  · apply Finset.sum_congr rfl
    intro y hy
    apply Finset.sum_congr rfl
    intro x hx
    rw [h x y ⟨by positivity, by
        have := Finset.mem_range.mp hx; omega, by positivity, by
        have := Finset.mem_range.mp hy; omega⟩]

/-- The sum of unvisited and visited cells is the number of cells. -/
theorem visited_add_unvisited (width height : Int) (g : Grid) :
    visitedCount width height g + unvisitedCount width height g =
      width.toNat * height.toNat := by
  unfold visitedCount unvisitedCount
  rw [← Finset.sum_add_distrib]
  have : ∀ y ∈ Finset.range height.toNat,
      (((Finset.range width.toNat).sum fun x =>
        if (gridGet g (x : Int) (y : Int)).visited then 1 else 0) +
       ((Finset.range width.toNat).sum fun x =>
        if (gridGet g (x : Int) (y : Int)).visited then 0 else 1)) =
      width.toNat := by
    intro y _
    rw [← Finset.sum_add_distrib]
    rw [Finset.sum_congr rfl (fun x _ => by split <;> rfl)]
    simp [Finset.sum_const]
  rw [Finset.sum_congr rfl this]
  simp [Finset.sum_const, Nat.mul_comm]

theorem gridGet_markVisited_at {width height : Int} {g : Grid}
    (hs : GridShape g width.toNat height.toNat) {a b : Int}
    (hab : InB width height a b) :
    gridGet (markVisited g a b) a b = { gridGet g a b with visited := true } := by
  unfold markVisited
  exact gridGet_modify_self hs (by obtain ⟨_, _, _, _⟩ := hab; omega)
    (by obtain ⟨_, _, _, _⟩ := hab; omega) _

/-- Marking an unvisited in-bounds cell raises the visited count by one. -/
theorem visitedCount_markVisited {width height : Int} {g : Grid}
    (hs : GridShape g width.toNat height.toNat) {a b : Int}
    (hab : InB width height a b)
    (hviz : (gridGet g a b).visited = false) :
    visitedCount width height (markVisited g a b) =
      visitedCount width height g + 1 := by
  obtain ⟨ha0, haw, hb0, hbh⟩ := hab
  have ha : a.toNat < width.toNat := by omega
  have hb : b.toNat < height.toNat := by omega
  have hca : ((a.toNat : Nat) : Int) = a := Int.toNat_of_nonneg ha0
  have hcb : ((b.toNat : Nat) : Int) = b := Int.toNat_of_nonneg hb0
  have key := sum2_update
    (fun x y => if (gridGet (markVisited g a b) (x : Int) (y : Int)).visited
      then 1 else 0)
    (fun x y => if (gridGet g (x : Int) (y : Int)).visited then 1 else 0)
    ha hb
    (by
      intro x y hx hy hne
      have hneq : a.toNat ≠ ((x : Int)).toNat ∨ b.toNat ≠ ((y : Int)).toNat := by
        rcases not_and_or.mp hne with h | h
        · left; omega
        · right; omega
      dsimp only
      unfold markVisited
      rw [gridGet_modify_ne hneq])
  have hF : (if (gridGet (markVisited g a b) a b).visited = true then 1 else 0) =
      (1 : Nat) := by
    rw [gridGet_markVisited_at hs ⟨ha0, haw, hb0, hbh⟩]
    rfl
  have hG : (if (gridGet g a b).visited = true then 1 else 0) = (0 : Nat) := by
    rw [hviz]
    rfl
  beta_reduce at key
  rw [hca, hcb, hF, hG] at key
  unfold visitedCount
  omega

/-- Marking an unvisited in-bounds cell lowers the unvisited count by one. -/
theorem unvisitedCount_markVisited {width height : Int} {g : Grid}
    (hs : GridShape g width.toNat height.toNat) {a b : Int}
    (hab : InB width height a b)
    (hviz : (gridGet g a b).visited = false) :
    unvisitedCount width height g =
      unvisitedCount width height (markVisited g a b) + 1 := by
  have h1 := visited_add_unvisited width height g
  have h2 := visited_add_unvisited width height (markVisited g a b)
  have h3 := visitedCount_markVisited hs hab hviz
  omega

/-- The wall removal does not change visited counts. -/
theorem visitedCount_removeWallPair (width height : Int) (g : Grid)
    (x y nx ny : Int) (d : Dir) :
    visitedCount width height (removeWallPair g x y nx ny d) =
      visitedCount width height g :=
  visitedCount_congr fun a b _ => gridGet_removeWallPair_visited g x y nx ny d a b

theorem unvisitedCount_removeWallPair (width height : Int) (g : Grid)
    (x y nx ny : Int) (d : Dir) :
    unvisitedCount width height (removeWallPair g x y nx ny d) =
      unvisitedCount width height g :=
  unvisitedCount_congr fun a b _ => gridGet_removeWallPair_visited g x y nx ny d a b

/-- Marking visited does not change the edge count. -/
theorem edgeCount_markVisited (width height : Int) (g : Grid) (x y : Int) :
    edgeCount width height (markVisited g x y) = edgeCount width height g :=
  edgeCount_congr fun a b _ e => wallAt_markVisited g x y a b e

/-- An unvisited in-bounds cell means at least one unvisited cell. -/
theorem unvisitedCount_pos {width height : Int} {g : Grid} {a b : Int}
    (hab : InB width height a b)
    (hviz : (gridGet g a b).visited = false) :
    1 ≤ unvisitedCount width height g := by
  obtain ⟨ha0, haw, hb0, hbh⟩ := hab
  unfold unvisitedCount
  have hb' : b.toNat ∈ Finset.range height.toNat := Finset.mem_range.mpr (by omega)
  have ha' : a.toNat ∈ Finset.range width.toNat := Finset.mem_range.mpr (by omega)
  refine le_trans ?_ (Finset.single_le_sum (fun i _ => Nat.zero_le _) hb')
  refine le_trans ?_ (Finset.single_le_sum (fun i _ => Nat.zero_le _) ha')
  rw [Int.toNat_of_nonneg ha0, Int.toNat_of_nonneg hb0, hviz]
  exact le_refl 1

/-- Updating one `'right'` flag from present to absent raises the
horizontal half of the edge count by one. -/
theorem horizSum_update {width height : Int} {g g' : Grid} {cx cy : Int}
    (hcx0 : 0 ≤ cx) (hcx : cx < width - 1) (hcy0 : 0 ≤ cy) (hcy : cy < height)
    (hpt : wallAt g cx cy .right = true) (hpt' : wallAt g' cx cy .right = false)
    (hoff : ∀ x y : Int, InB width height x y → ¬(x = cx ∧ y = cy) →
        wallAt g' x y .right = wallAt g x y .right) :
    ((Finset.range height.toNat).sum fun y =>
      (Finset.range (width.toNat - 1)).sum fun x =>
        if wallAt g' (x : Int) (y : Int) .right then 0 else 1) =
    ((Finset.range height.toNat).sum fun y =>
      (Finset.range (width.toNat - 1)).sum fun x =>
        if wallAt g (x : Int) (y : Int) .right then 0 else 1) + 1 := by
  have hca : ((cx.toNat : Nat) : Int) = cx := Int.toNat_of_nonneg hcx0
  have hcb : ((cy.toNat : Nat) : Int) = cy := Int.toNat_of_nonneg hcy0
  have key := sum2_update
    (fun x y => if wallAt g' (x : Int) (y : Int) .right then 0 else 1)
    (fun x y => if wallAt g (x : Int) (y : Int) .right then 0 else 1)
    (show cx.toNat < width.toNat - 1 by omega)
    (show cy.toNat < height.toNat by omega)
    (by
      intro x y hx hy hne
      dsimp only
      rw [hoff (x : Int) (y : Int) ⟨by positivity, by omega, by positivity, by omega⟩
        (by rintro ⟨h1, h2⟩; exact hne ⟨by omega, by omega⟩)])
  have hF : (if wallAt g' cx cy .right = true then 0 else 1) = (1 : Nat) := by
    rw [hpt']
    rfl
  have hG : (if wallAt g cx cy .right = true then 0 else 1) = (0 : Nat) := by
    rw [hpt]
    rfl
  beta_reduce at key
  rw [hca, hcb, hF, hG] at key
  omega

/-- Updating one `'bottom'` flag from present to absent raises the
vertical half of the edge count by one. -/
theorem vertSum_update {width height : Int} {g g' : Grid} {cx cy : Int}
    (hcx0 : 0 ≤ cx) (hcx : cx < width) (hcy0 : 0 ≤ cy) (hcy : cy < height - 1)
    (hpt : wallAt g cx cy .bottom = true) (hpt' : wallAt g' cx cy .bottom = false)
    (hoff : ∀ x y : Int, InB width height x y → ¬(x = cx ∧ y = cy) →
        wallAt g' x y .bottom = wallAt g x y .bottom) :
    ((Finset.range (height.toNat - 1)).sum fun y =>
      (Finset.range width.toNat).sum fun x =>
        if wallAt g' (x : Int) (y : Int) .bottom then 0 else 1) =
    ((Finset.range (height.toNat - 1)).sum fun y =>
      (Finset.range width.toNat).sum fun x =>
        if wallAt g (x : Int) (y : Int) .bottom then 0 else 1) + 1 := by
  have hca : ((cx.toNat : Nat) : Int) = cx := Int.toNat_of_nonneg hcx0
  have hcb : ((cy.toNat : Nat) : Int) = cy := Int.toNat_of_nonneg hcy0
  have key := sum2_update
    (fun x y => if wallAt g' (x : Int) (y : Int) .bottom then 0 else 1)
    (fun x y => if wallAt g (x : Int) (y : Int) .bottom then 0 else 1)
    (show cx.toNat < width.toNat by omega)
    (show cy.toNat < height.toNat - 1 by omega)
    (by
      intro x y hx hy hne
      dsimp only
      rw [hoff (x : Int) (y : Int) ⟨by positivity, by omega, by positivity, by omega⟩
        (by rintro ⟨h1, h2⟩; exact hne ⟨by omega, by omega⟩)])
  have hF : (if wallAt g' cx cy .bottom = true then 0 else 1) = (1 : Nat) := by
    rw [hpt']
    rfl
  have hG : (if wallAt g cx cy .bottom = true then 0 else 1) = (0 : Nat) := by
    rw [hpt]
    rfl
  beta_reduce at key
  rw [hca, hcb, hF, hG] at key
  omega

theorem horizSum_congr (width height : Int) (g g' : Grid)
    (h : ∀ x y : Int, InB width height x y →
      wallAt g' x y .right = wallAt g x y .right) :
    ((Finset.range height.toNat).sum fun y =>
      (Finset.range (width.toNat - 1)).sum fun x =>
        if wallAt g' (x : Int) (y : Int) .right then 0 else 1) =
    ((Finset.range height.toNat).sum fun y =>
      (Finset.range (width.toNat - 1)).sum fun x =>
        if wallAt g (x : Int) (y : Int) .right then 0 else 1) := by
  apply Finset.sum_congr rfl
  intro y hy
  apply Finset.sum_congr rfl
  intro x hx
  have hx' := Finset.mem_range.mp hx
  have hy' := Finset.mem_range.mp hy
  rw [h (x : Int) (y : Int) ⟨by positivity, by omega, by positivity, by omega⟩]

theorem vertSum_congr (width height : Int) (g g' : Grid)
    (h : ∀ x y : Int, InB width height x y →
      wallAt g' x y .bottom = wallAt g x y .bottom) :
    ((Finset.range (height.toNat - 1)).sum fun y =>
      (Finset.range width.toNat).sum fun x =>
        if wallAt g' (x : Int) (y : Int) .bottom then 0 else 1) =
    ((Finset.range (height.toNat - 1)).sum fun y =>
      (Finset.range width.toNat).sum fun x =>
        if wallAt g (x : Int) (y : Int) .bottom then 0 else 1) := by
  apply Finset.sum_congr rfl
  intro y hy
  apply Finset.sum_congr rfl
  intro x hx
  have hx' := Finset.mem_range.mp hx
  have hy' := Finset.mem_range.mp hy
  rw [h (x : Int) (y : Int) ⟨by positivity, by omega, by positivity, by omega⟩]

/-- Removing a present shared wall between in-bounds neighbors raises the
edge count by exactly one. -/
theorem edgeCount_removeWallPair {width height : Int} {g : Grid}
    (hs : GridShape g width.toNat height.toNat) {a b : Int} {d : Dir}
    (hab : InB width height a b) (hn : InB width height (a + d.dx) (b + d.dy))
    (hsym : WallSym width height g)
    (hw : wallAt g a b d = true) :
    edgeCount width height (removeWallPair g a b (a + d.dx) (b + d.dy) d) =
      edgeCount width height g + 1 := by
  have hab' : InB width height a b := hab
  obtain ⟨ha0, haw, hb0, hbh⟩ := hab
  have hnc := hn
  unfold edgeCount
  cases d with
  | right =>
    obtain ⟨hna0, hnaw, hnb0, hnbh⟩ := hnc
    simp only [Dir.dx, Dir.dy] at hna0 hnaw hnb0 hnbh
    rw [horizSum_update ha0 (by omega) hb0 hbh hw
      (by
        rw [wallAt_removeWallPair hs .right hab' hn hab' .right,
          if_pos ⟨rfl, rfl, rfl⟩])
      (by
        intro x y hxy hne
        rw [wallAt_removeWallPair hs .right hab' hn hxy .right,
          if_neg (fun hc => hne ⟨hc.1, hc.2.1⟩),
          if_neg (fun hc => absurd hc.2.2 (by simp [Dir.opposite]))]),
      vertSum_congr width height g
        (removeWallPair g a b (a + Dir.right.dx) (b + Dir.right.dy) Dir.right) (by
        intro x y hxy
        rw [wallAt_removeWallPair hs .right hab' hn hxy .bottom,
          if_neg (fun hc => absurd hc.2.2 (by simp)),
          if_neg (fun hc => absurd hc.2.2 (by simp [Dir.opposite]))])]
    omega
  | left =>
    obtain ⟨hna0, hnaw, hnb0, hnbh⟩ := hnc
    simp only [Dir.dx, Dir.dy] at hna0 hnaw hnb0 hnbh
    have hn' : InB width height (a - 1) b := ⟨by omega, by omega, hb0, hbh⟩
    have hpt : wallAt g (a - 1) b .right = true := by
      have h' := hsym.1 (a - 1) b hn'
        (show InB width height (a - 1 + 1) b from ⟨by omega, by omega, hb0, hbh⟩)
      have e : a - 1 + 1 = a := by omega
      rw [e] at h'
      rw [h', hw]
    rw [horizSum_update (show (0:Int) ≤ a - 1 by omega) (by omega) hb0 hbh hpt
      (by
        rw [wallAt_removeWallPair hs .left hab' hn hn' .right,
          if_neg (fun hc => absurd hc.2.2 (by simp)),
          if_pos ⟨by simp only [Dir.dx]; omega, by simp only [Dir.dy]; omega, rfl⟩])
      (by
        intro x y hxy hne
        rw [wallAt_removeWallPair hs .left hab' hn hxy .right,
          if_neg (fun hc => absurd hc.2.2 (by simp)),
          if_neg (fun hc => by
            refine hne ⟨?_, ?_⟩
            · have h1 := hc.1; simp only [Dir.dx] at h1; omega
            · have h2 := hc.2.1; simp only [Dir.dy] at h2; omega)]),
      vertSum_congr width height g
        (removeWallPair g a b (a + Dir.left.dx) (b + Dir.left.dy) Dir.left) (by
        intro x y hxy
        rw [wallAt_removeWallPair hs .left hab' hn hxy .bottom,
          if_neg (fun hc => absurd hc.2.2 (by simp)),
          if_neg (fun hc => absurd hc.2.2 (by simp [Dir.opposite]))])]
    omega
  | bottom =>
    obtain ⟨hna0, hnaw, hnb0, hnbh⟩ := hnc
    simp only [Dir.dx, Dir.dy] at hna0 hnaw hnb0 hnbh
    rw [vertSum_update ha0 haw hb0 (by omega) hw
      (by
        rw [wallAt_removeWallPair hs .bottom hab' hn hab' .bottom,
          if_pos ⟨rfl, rfl, rfl⟩])
      (by
        intro x y hxy hne
        rw [wallAt_removeWallPair hs .bottom hab' hn hxy .bottom,
          if_neg (fun hc => hne ⟨hc.1, hc.2.1⟩),
          if_neg (fun hc => absurd hc.2.2 (by simp [Dir.opposite]))]),
      horizSum_congr width height g
        (removeWallPair g a b (a + Dir.bottom.dx) (b + Dir.bottom.dy) Dir.bottom) (by
        intro x y hxy
        rw [wallAt_removeWallPair hs .bottom hab' hn hxy .right,
          if_neg (fun hc => absurd hc.2.2 (by simp)),
          if_neg (fun hc => absurd hc.2.2 (by simp [Dir.opposite]))])]
    omega
  | top =>
    obtain ⟨hna0, hnaw, hnb0, hnbh⟩ := hnc
    simp only [Dir.dx, Dir.dy] at hna0 hnaw hnb0 hnbh
    have hn' : InB width height a (b - 1) := ⟨ha0, haw, by omega, by omega⟩
    have hpt : wallAt g a (b - 1) .bottom = true := by
      have h' := hsym.2 a (b - 1) hn'
        (show InB width height a (b - 1 + 1) from ⟨ha0, haw, by omega, by omega⟩)
      have e : b - 1 + 1 = b := by omega
      rw [e] at h'
      rw [h', hw]
    rw [vertSum_update ha0 haw (show (0:Int) ≤ b - 1 by omega) (by omega) hpt
      (by
        rw [wallAt_removeWallPair hs .top hab' hn hn' .bottom,
          if_neg (fun hc => absurd hc.2.2 (by simp)),
          if_pos ⟨by simp only [Dir.dx]; omega, by simp only [Dir.dy]; omega, rfl⟩])
      (by
        intro x y hxy hne
        rw [wallAt_removeWallPair hs .top hab' hn hxy .bottom,
          if_neg (fun hc => absurd hc.2.2 (by simp)),
          if_neg (fun hc => by
            refine hne ⟨?_, ?_⟩
            · have h1 := hc.1; simp only [Dir.dx] at h1; omega
            · have h2 := hc.2.1; simp only [Dir.dy] at h2; omega)]),
      horizSum_congr width height g
        (removeWallPair g a b (a + Dir.top.dx) (b + Dir.top.dy) Dir.top) (by
        intro x y hxy
        rw [wallAt_removeWallPair hs .top hab' hn hxy .right,
          if_neg (fun hc => absurd hc.2.2 (by simp)),
          if_neg (fun hc => absurd hc.2.2 (by simp [Dir.opposite]))])]
    omega

/-! ## The carved graph: adjacency through removed walls -/

/-- Two in-bounds cells are adjacent through a removed shared wall (the
flags are read on the canonical owning side, as in `edgeCount`). -/
def openAdj (width height : Int) (g : Grid) (p q : Int × Int) : Prop :=
  InB width height p.1 p.2 ∧ InB width height q.1 q.2 ∧
  ((q.1 = p.1 + 1 ∧ q.2 = p.2 ∧ wallAt g p.1 p.2 .right = false) ∨
   (p.1 = q.1 + 1 ∧ p.2 = q.2 ∧ wallAt g q.1 q.2 .right = false) ∨
   (q.1 = p.1 ∧ q.2 = p.2 + 1 ∧ wallAt g p.1 p.2 .bottom = false) ∨
   (p.1 = q.1 ∧ p.2 = q.2 + 1 ∧ wallAt g q.1 q.2 .bottom = false))

theorem openAdj_symm {width height : Int} {g : Grid} {p q : Int × Int}
    (h : openAdj width height g p q) : openAdj width height g q p := by
  obtain ⟨hp, hq, hd⟩ := h
  refine ⟨hq, hp, ?_⟩
  tauto

theorem openAdj_ne {width height : Int} {g : Grid} {p q : Int × Int}
    (h : openAdj width height g p q) : p ≠ q := by
  obtain ⟨hp, hq, hd⟩ := h
  rintro rfl
  rcases hd with ⟨h1, _, _⟩ | ⟨h1, _, _⟩ | ⟨_, h2, _⟩ | ⟨_, h2, _⟩ <;> omega

/-- Reachability through removed walls. -/
def Reach (width height : Int) (g : Grid) : (Int × Int) → (Int × Int) → Prop :=
  Relation.ReflTransGen (openAdj width height g)

/-- The carved graph on integer cell coordinates. -/
def openGraph (width height : Int) (g : Grid) : SimpleGraph (Int × Int) where
  Adj p q := openAdj width height g p q
  symm := fun _ _ h => openAdj_symm h
  loopless := fun _ h => openAdj_ne h rfl

theorem openGraph_adj {width height : Int} {g : Grid} {p q : Int × Int} :
    (openGraph width height g).Adj p q ↔ openAdj width height g p q :=
  Iff.rfl

/-- Grids with identical wall flags have identical carved graphs. -/
theorem openGraph_congr {width height : Int} {g g' : Grid}
    (h : ∀ u v : Int, ∀ e : Dir, wallAt g u v e = wallAt g' u v e) :
    openGraph width height g = openGraph width height g' := by
  ext p q
  show openAdj width height g p q ↔ openAdj width height g' p q
  unfold openAdj
  rw [h p.1 p.2 .right, h q.1 q.2 .right, h p.1 p.2 .bottom, h q.1 q.2 .bottom]

/-- Walls are only ever removed. -/
def wallMono (g g' : Grid) : Prop :=
  ∀ (u v : Int) (e : Dir), wallAt g u v e = false → wallAt g' u v e = false

theorem wallMono_refl (g : Grid) : wallMono g g := fun _ _ _ h => h

theorem wallMono_trans {g₁ g₂ g₃ : Grid} (h1 : wallMono g₁ g₂)
    (h2 : wallMono g₂ g₃) : wallMono g₁ g₃ :=
  fun u v e h => h2 u v e (h1 u v e h)

theorem wallMono_markVisited (g : Grid) (x y : Int) :
    wallMono g (markVisited g x y) := by
  intro u v e h
  rw [← h]
  exact congrArg (fun w => Walls.get w e) (gridGet_markVisited_walls g x y u v)

theorem cell_clear_get (c : Cell) (dd e : Dir) (h : c.walls.get e = false) :
    ({ c with walls := c.walls.clear dd } : Cell).walls.get e = false := by
  show (c.walls.clear dd).get e = false
  rw [walls_get_clear]
  split
  · rfl
  · exact h

theorem wallMono_removeWallPair (g : Grid) (x y nx ny : Int) (d : Dir) :
    wallMono g (removeWallPair g x y nx ny d) := by
  intro u v e h
  unfold wallAt at h ⊢
  unfold removeWallPair
  dsimp only
  have hinner : (gridGet (gridModify g x y
      fun c => { c with walls := c.walls.clear d }) u v).walls.get e = false := by
    rcases gridGet_modify_cases g x y u v
        (fun c => { c with walls := c.walls.clear d }) with hc | ⟨_, _, hc⟩ <;>
      rw [hc]
    · exact h
    · exact cell_clear_get _ d e h
  rcases gridGet_modify_cases
      (gridModify g x y fun c => { c with walls := c.walls.clear d }) nx ny u v
      (fun c => { c with walls := c.walls.clear d.opposite })
      with hc | ⟨_, _, hc⟩ <;> rw [hc]
  · exact hinner
  · exact cell_clear_get _ d.opposite e hinner

theorem openAdj_mono {width height : Int} {g g' : Grid} (hm : wallMono g g')
    {p q : Int × Int} (h : openAdj width height g p q) :
    openAdj width height g' p q := by
  obtain ⟨hp, hq, hd⟩ := h
  refine ⟨hp, hq, ?_⟩
  rcases hd with ⟨h1, h2, h3⟩ | ⟨h1, h2, h3⟩ | ⟨h1, h2, h3⟩ | ⟨h1, h2, h3⟩
  · exact .inl ⟨h1, h2, hm _ _ _ h3⟩
  · exact .inr (.inl ⟨h1, h2, hm _ _ _ h3⟩)
  · exact .inr (.inr (.inl ⟨h1, h2, hm _ _ _ h3⟩))
  · exact .inr (.inr (.inr ⟨h1, h2, hm _ _ _ h3⟩))

theorem reach_mono {width height : Int} {g g' : Grid} (hm : wallMono g g')
    {p q : Int × Int} (h : Reach width height g p q) :
    Reach width height g' p q :=
  Relation.ReflTransGen.mono (fun _ _ ha => openAdj_mono hm ha) h

/-! ## Open walls only exist between visited cells -/

/-- Every removed shared wall has both endpoints visited. -/
def EdgeVis (width height : Int) (g : Grid) : Prop :=
  (∀ x y : Int, InB width height x y → InB width height (x + 1) y →
    wallAt g x y .right = false →
    (gridGet g x y).visited = true ∧ (gridGet g (x + 1) y).visited = true) ∧
  (∀ x y : Int, InB width height x y → InB width height x (y + 1) →
    wallAt g x y .bottom = false →
    (gridGet g x y).visited = true ∧ (gridGet g x (y + 1)).visited = true)

/-- Every removed shared wall has both endpoints visited, except that the
distinguished cell `p` is excused (it is the cell about to be carved). -/
def EdgeVisX (width height : Int) (g : Grid) (p : Int × Int) : Prop :=
  (∀ x y : Int, InB width height x y → InB width height (x + 1) y →
    wallAt g x y .right = false →
    ((gridGet g x y).visited = true ∨ (x, y) = p) ∧
    ((gridGet g (x + 1) y).visited = true ∨ (x + 1, y) = p)) ∧
  (∀ x y : Int, InB width height x y → InB width height x (y + 1) →
    wallAt g x y .bottom = false →
    ((gridGet g x y).visited = true ∨ (x, y) = p) ∧
    ((gridGet g x (y + 1)).visited = true ∨ (x, y + 1) = p))

theorem edgeVis_edgeVisX {width height : Int} {g : Grid} (p : Int × Int)
    (h : EdgeVis width height g) : EdgeVisX width height g p := by
  obtain ⟨h1, h2⟩ := h
  constructor
  · intro x y hx hx1 hw
    exact ⟨.inl (h1 x y hx hx1 hw).1, .inl (h1 x y hx hx1 hw).2⟩
  · intro x y hx hx1 hw
    exact ⟨.inl (h2 x y hx hx1 hw).1, .inl (h2 x y hx hx1 hw).2⟩

/-- Marking a cell visited never unmarks another cell. -/
theorem visited_markVisited_mono (g : Grid) (x y a b : Int)
    (h : (gridGet g a b).visited = true) :
    (gridGet (markVisited g x y) a b).visited = true := by
  unfold markVisited
  rcases gridGet_modify_cases g x y a b
      (fun c => { c with visited := true }) with hc | ⟨_, _, hc⟩
  · rw [hc]
    exact h
  · rw [hc]

/-- The excused cell becomes visited, so the full invariant is restored. -/
theorem edgeVisX_markVisited {width height : Int} {g : Grid}
    (hs : GridShape g width.toNat height.toNat) {a b : Int}
    (hab : InB width height a b)
    (h : EdgeVisX width height g (a, b)) :
    EdgeVis width height (markVisited g a b) := by
  obtain ⟨h1, h2⟩ := h
  have hvp : (gridGet (markVisited g a b) a b).visited = true := by
    rw [gridGet_markVisited_at hs hab]
  have hmw : ∀ u v : Int, ∀ e : Dir,
      wallAt (markVisited g a b) u v e = wallAt g u v e := by
    intro u v e
    unfold wallAt
    rw [gridGet_markVisited_walls]
  constructor
  · intro x y hx hx1 hw
    rw [hmw] at hw
    obtain ⟨hA, hB⟩ := h1 x y hx hx1 hw
    constructor
    · rcases hA with hv | hp
      · exact visited_markVisited_mono g a b _ _ hv
      · rw [show x = a from congrArg Prod.fst hp,
          show y = b from congrArg Prod.snd hp]
        exact hvp
    · rcases hB with hv | hp
      · exact visited_markVisited_mono g a b _ _ hv
      · rw [show x + 1 = a from congrArg Prod.fst hp,
          show y = b from congrArg Prod.snd hp]
        exact hvp
  · intro x y hx hx1 hw
    rw [hmw] at hw
    obtain ⟨hA, hB⟩ := h2 x y hx hx1 hw
    constructor
    · rcases hA with hv | hp
      · exact visited_markVisited_mono g a b _ _ hv
      · rw [show x = a from congrArg Prod.fst hp,
          show y = b from congrArg Prod.snd hp]
        exact hvp
    · rcases hB with hv | hp
      · exact visited_markVisited_mono g a b _ _ hv
      · rw [show x = a from congrArg Prod.fst hp,
          show y + 1 = b from congrArg Prod.snd hp]
        exact hvp

/-- Removing the wall toward an in-bounds neighbor keeps the invariant
with that neighbor excused, provided the source cell is visited. -/
theorem edgeVisX_removeWallPair {width height : Int} {g : Grid}
    (hs : GridShape g width.toNat height.toNat) {a b : Int} {d : Dir}
    (hab : InB width height a b) (hn : InB width height (a + d.dx) (b + d.dy))
    (hva : (gridGet g a b).visited = true)
    (h : EdgeVis width height g) :
    EdgeVisX width height (removeWallPair g a b (a + d.dx) (b + d.dy) d)
      (a + d.dx, b + d.dy) := by
  obtain ⟨h1, h2⟩ := h
  have hvv : ∀ u v : Int,
      (gridGet (removeWallPair g a b (a + d.dx) (b + d.dy) d) u v).visited =
        (gridGet g u v).visited :=
    fun u v => gridGet_removeWallPair_visited g a b (a + d.dx) (b + d.dy) d u v
  constructor
  · intro x y hx hx1 hw
    rw [wallAt_removeWallPair hs d hab hn hx .right] at hw
    rw [hvv, hvv]
    split_ifs at hw with c1 c2
    · -- the removed wall was (a,b) toward the east: neighbor is (a+1, b)
      obtain ⟨e1, e2, e3⟩ := c1
      subst e1; subst e2; subst e3
      refine ⟨.inl hva, .inr ?_⟩
      simp [Dir.dx, Dir.dy]
    · -- the removed wall was (a,b) toward the west: (x, y) is the neighbor
      obtain ⟨e1, e2, e3⟩ := c2
      refine ⟨.inr ?_, ?_⟩
      · rw [e1, e2]
      · left
        have hd : d = .left := by
          cases d <;> simp [Dir.opposite] at e3 <;> rfl
        subst hd
        simp only [Dir.dx, Dir.dy] at e1 e2
        have hx1' : x + 1 = a := by omega
        have hy' : y = b := by omega
        rw [hx1', hy']
        exact hva
    · rcases h1 x y hx hx1 hw with ⟨hv1, hv2⟩
      exact ⟨.inl hv1, .inl hv2⟩
  · intro x y hx hx1 hw
    rw [wallAt_removeWallPair hs d hab hn hx .bottom] at hw
    rw [hvv, hvv]
    split_ifs at hw with c1 c2
    · obtain ⟨e1, e2, e3⟩ := c1
      subst e1; subst e2; subst e3
      refine ⟨.inl hva, .inr ?_⟩
      simp [Dir.dx, Dir.dy]
    · obtain ⟨e1, e2, e3⟩ := c2
      refine ⟨.inr ?_, ?_⟩
      · rw [e1, e2]
      · left
        have hd : d = .top := by
          cases d <;> simp [Dir.opposite] at e3 <;> rfl
        subst hd
        simp only [Dir.dx, Dir.dy] at e1 e2
        have hy' : y + 1 = b := by omega
        have hx' : x = a := by omega
        rw [hx', hy']
        exact hva
    · rcases h2 x y hx hx1 hw with ⟨hv1, hv2⟩
      exact ⟨.inl hv1, .inl hv2⟩

/-- An unvisited cell is isolated in the carved graph. -/
theorem unvisited_isolated {width height : Int} {g : Grid} {t : Int × Int}
    (hev : EdgeVis width height g)
    (hviz : (gridGet g t.1 t.2).visited = false) :
    ∀ z, ¬openAdj width height g t z := by
  rintro z ⟨hp, hq, hd⟩
  obtain ⟨h1, h2⟩ := hev
  rcases hd with ⟨e1, e2, e3⟩ | ⟨e1, e2, e3⟩ | ⟨e1, e2, e3⟩ | ⟨e1, e2, e3⟩
  · have := (h1 t.1 t.2 hp (by rw [← e1, ← e2]; exact hq) e3).1
    rw [hviz] at this
    exact absurd this (by simp)
  · have := (h1 z.1 z.2 hq (by rw [← e1, ← e2]; exact hp) e3).2
    rw [← e1, ← e2] at this
    rw [hviz] at this
    exact absurd this (by simp)
  · have := (h2 t.1 t.2 hp (by rw [← e1, ← e2]; exact hq) e3).1
    rw [hviz] at this
    exact absurd this (by simp)
  · have := (h2 z.1 z.2 hq (by rw [← e1, ← e2]; exact hp) e3).2
    rw [← e1, ← e2] at this
    rw [hviz] at this
    exact absurd this (by simp)

/-! ## Acyclicity is preserved when attaching a pendant edge -/

/-- If `G'` only adds to the acyclic graph `G` one edge whose endpoint `b`
was isolated in `G`, then `G'` is acyclic as well. -/
theorem isAcyclic_of_pendant {V : Type _} [DecidableEq V]
    {G G' : SimpleGraph V} {a b : V}
    (hsub : ∀ x y, G'.Adj x y → G.Adj x y ∨ (x = a ∧ y = b) ∨ (x = b ∧ y = a))
    (hacy : G.IsAcyclic) (hiso : ∀ z, ¬G.Adj b z) : G'.IsAcyclic := by
  intro v c hc
  by_cases hb : b ∈ c.support
  · -- rotate the cycle to start at the pendant vertex
    have hc' := hc.rotate hb
    revert hc'
    generalize c.rotate hb = c'
    intro hc'
    cases c' with
    | nil => exact hc'.ne_nil rfl
    | @cons _ u _ hadj p =>
      have hu : u = a := by
        rcases hsub b u hadj with h | ⟨h1, h2⟩ | ⟨h1, h2⟩
        · exact absurd h (hiso u)
        · exact absurd h2 (by
            intro hub
            exact hadj.ne (by rw [hub]))
        · exact h2
      rw [SimpleGraph.Walk.cons_isCycle_iff] at hc'
      obtain ⟨hpath, hedge⟩ := hc'
      have hba : b ≠ u := hadj.ne
      cases hrev : p.reverse with
      | nil =>
        have hlen : p.length = 0 := by
          rw [← SimpleGraph.Walk.length_reverse, hrev]
          rfl
        exact hba (SimpleGraph.Walk.eq_of_length_eq_zero hlen).symm
      | @cons _ z _ hadj2 p2 =>
        have hz : z = a := by
          rcases hsub b z hadj2 with h | ⟨h1, h2⟩ | ⟨h1, h2⟩
          · exact absurd h (hiso z)
          · exact absurd h2 (by
              intro hzb
              exact hadj2.ne (by rw [hzb]))
          · exact h2
        have hmem : s(b, z) ∈ p.reverse.edges := by
          rw [hrev]
          exact List.mem_cons_self _ _
        rw [SimpleGraph.Walk.edges_reverse, List.mem_reverse] at hmem
        rw [hz, ← hu] at hmem
        exact hedge hmem
  · -- the cycle avoids `b` entirely, so it lives in `G`
    have hGedges : ∀ e ∈ c.edges, e ∈ G.edgeSet := by
      intro e he
      induction e with
      | _ x y =>
        have hy := SimpleGraph.Walk.snd_mem_support_of_mem_edges c he
        have hx := SimpleGraph.Walk.fst_mem_support_of_mem_edges c he
        have hadj : G'.Adj x y := c.adj_of_mem_edges he
        rcases hsub x y hadj with h | ⟨h1, h2⟩ | ⟨h1, h2⟩
        · exact h
        · exact absurd (h2 ▸ hy) hb
        · exact absurd (h1 ▸ hx) hb
    exact hacy (c.transfer G hGedges) (hc.transfer hGedges)

/-- A wall removal adds exactly the adjacency of the carved pair. -/
theorem openAdj_removeWallPair_sub {width height : Int} {g : Grid}
    (hs : GridShape g width.toNat height.toNat) {a b : Int} {d : Dir}
    (hab : InB width height a b) (hn : InB width height (a + d.dx) (b + d.dy)) :
    ∀ p q, openAdj width height (removeWallPair g a b (a + d.dx) (b + d.dy) d) p q →
      openAdj width height g p q ∨
      (p = (a, b) ∧ q = (a + d.dx, b + d.dy)) ∨
      (p = (a + d.dx, b + d.dy) ∧ q = (a, b)) := by
  rintro p q ⟨hp, hq, hd⟩
  rcases hd with ⟨h1, h2, h3⟩ | ⟨h1, h2, h3⟩ | ⟨h1, h2, h3⟩ | ⟨h1, h2, h3⟩
  · -- q east of p, flag at p
    rw [wallAt_removeWallPair hs d hab hn hp .right] at h3
    split_ifs at h3 with c1 c2
    · obtain ⟨e1, e2, e3⟩ := c1
      subst e3
      right; left
      constructor
      · exact Prod.ext e1 e2
      · apply Prod.ext <;> simp only [Dir.dx, Dir.dy] <;> omega
    · obtain ⟨e1, e2, e3⟩ := c2
      have hdl : d = .left := by
        cases d <;> simp only [Dir.opposite, reduceCtorEq] at e3 <;> rfl
      subst hdl
      simp only [Dir.dx, Dir.dy] at e1 e2
      right; right
      constructor
      · apply Prod.ext <;> simp only [Dir.dx, Dir.dy] <;> omega
      · apply Prod.ext <;> simp only [] <;> omega
    · exact .inl ⟨hp, hq, .inl ⟨h1, h2, h3⟩⟩
  · -- p east of q, flag at q
    rw [wallAt_removeWallPair hs d hab hn hq .right] at h3
    split_ifs at h3 with c1 c2
    · obtain ⟨e1, e2, e3⟩ := c1
      subst e3
      right; right
      constructor
      · apply Prod.ext <;> simp only [Dir.dx, Dir.dy] <;> omega
      · exact Prod.ext e1 e2
    · obtain ⟨e1, e2, e3⟩ := c2
      have hdl : d = .left := by
        cases d <;> simp only [Dir.opposite, reduceCtorEq] at e3 <;> rfl
      subst hdl
      simp only [Dir.dx, Dir.dy] at e1 e2
      right; left
      constructor
      · apply Prod.ext <;> simp only [] <;> omega
      · apply Prod.ext <;> simp only [Dir.dx, Dir.dy] <;> omega
    · exact .inl ⟨hp, hq, .inr (.inl ⟨h1, h2, h3⟩)⟩
  · -- q south of p (carver `'bottom'`), flag at p
    rw [wallAt_removeWallPair hs d hab hn hp .bottom] at h3
    split_ifs at h3 with c1 c2
    · obtain ⟨e1, e2, e3⟩ := c1
      subst e3
      right; left
      constructor
      · exact Prod.ext e1 e2
      · apply Prod.ext <;> simp only [Dir.dx, Dir.dy] <;> omega
    · obtain ⟨e1, e2, e3⟩ := c2
      have hdl : d = .top := by
        cases d <;> simp only [Dir.opposite, reduceCtorEq] at e3 <;> rfl
      subst hdl
      simp only [Dir.dx, Dir.dy] at e1 e2
      right; right
      constructor
      · apply Prod.ext <;> simp only [Dir.dx, Dir.dy] <;> omega
      · apply Prod.ext <;> simp only [] <;> omega
    · exact .inl ⟨hp, hq, .inr (.inr (.inl ⟨h1, h2, h3⟩))⟩
  · -- p south of q, flag at q
    rw [wallAt_removeWallPair hs d hab hn hq .bottom] at h3
    split_ifs at h3 with c1 c2
    · obtain ⟨e1, e2, e3⟩ := c1
      subst e3
      right; right
      constructor
      · apply Prod.ext <;> simp only [Dir.dx, Dir.dy] <;> omega
      · exact Prod.ext e1 e2
    · obtain ⟨e1, e2, e3⟩ := c2
      have hdl : d = .top := by
        cases d <;> simp only [Dir.opposite, reduceCtorEq] at e3 <;> rfl
      subst hdl
      simp only [Dir.dx, Dir.dy] at e1 e2
      right; left
      constructor
      · apply Prod.ext <;> simp only [] <;> omega
      · apply Prod.ext <;> simp only [Dir.dx, Dir.dy] <;> omega
    · exact .inl ⟨hp, hq, .inr (.inr (.inr ⟨h1, h2, h3⟩))⟩

/-- The carved pair is adjacent after the removal. -/
theorem openAdj_after_remove {width height : Int} {g : Grid}
    (hs : GridShape g width.toNat height.toNat) {a b : Int} {d : Dir}
    (hab : InB width height a b) (hn : InB width height (a + d.dx) (b + d.dy)) :
    openAdj width height (removeWallPair g a b (a + d.dx) (b + d.dy) d)
      (a, b) (a + d.dx, b + d.dy) := by
  refine ⟨hab, hn, ?_⟩
  cases d with
  | right =>
    left
    refine ⟨by simp [Dir.dx], by simp [Dir.dy], ?_⟩
    rw [wallAt_removeWallPair hs .right hab hn hab .right, if_pos ⟨rfl, rfl, rfl⟩]
  | left =>
    right; left
    refine ⟨by simp only [Dir.dx]; omega, by simp [Dir.dy], ?_⟩
    rw [wallAt_removeWallPair hs .left hab hn hn .right,
      if_neg (fun hc => by
        have h1 := hc.1
        simp only [Dir.dx] at h1
        omega),
      if_pos ⟨rfl, rfl, rfl⟩]
  | bottom =>
    right; right; left
    refine ⟨by simp [Dir.dx], by simp [Dir.dy], ?_⟩
    rw [wallAt_removeWallPair hs .bottom hab hn hab .bottom, if_pos ⟨rfl, rfl, rfl⟩]
  | top =>
    right; right; right
    refine ⟨by simp [Dir.dx], by simp only [Dir.dy]; omega, ?_⟩
    rw [wallAt_removeWallPair hs .top hab hn hn .bottom,
      if_neg (fun hc => by
        have h2 := hc.2.1
        simp only [Dir.dy] at h2
        omega),
      if_pos ⟨rfl, rfl, rfl⟩]

/-- The carved graph is unchanged by `markVisited`. -/
theorem openGraph_markVisited (width height : Int) (g : Grid) (x y : Int) :
    openGraph width height (markVisited g x y) = openGraph width height g :=
  openGraph_congr (fun u v e => by
    unfold wallAt
    rw [gridGet_markVisited_walls])

/-- Carving a wall toward an unvisited cell keeps the carved graph
acyclic (the unvisited endpoint is isolated). -/
theorem isAcyclic_removeWallPair {width height : Int} {g : Grid}
    (hs : GridShape g width.toNat height.toNat) {a b : Int} {d : Dir}
    (hab : InB width height a b) (hn : InB width height (a + d.dx) (b + d.dy))
    (hev : EdgeVis width height g)
    (hviz : (gridGet g (a + d.dx) (b + d.dy)).visited = false)
    (hacy : (openGraph width height g).IsAcyclic) :
    (openGraph width height
      (removeWallPair g a b (a + d.dx) (b + d.dy) d)).IsAcyclic := by
  apply isAcyclic_of_pendant
    (openAdj_removeWallPair_sub hs hab hn) hacy
  intro z
  exact unvisited_isolated hev hviz z

/-! ## Helper lemmas for the main carve induction -/

theorem visited_markVisited_cases {width height : Int} {g : Grid}
    {x y a b : Int} (hx : InB width height x y) (hab : InB width height a b)
    (h : (gridGet (markVisited g x y) a b).visited = true) :
    (gridGet g a b).visited = true ∨ (a, b) = (x, y) := by
  by_cases hc : (a, b) = (x, y)
  · exact .inr hc
  · left
    rw [← h]
    unfold markVisited
    rw [gridGet_modify_ne (inb_toNat_inj hx hab (fun he => hc (by rw [he])))]

theorem visited_removeWallPair_true (g : Grid) (x y nx ny : Int) (d : Dir)
    {a b : Int} (h : (gridGet g a b).visited = true) :
    (gridGet (removeWallPair g x y nx ny d) a b).visited = true := by
  rw [gridGet_removeWallPair_visited]
  exact h

theorem unvisitedCount_le_of_visMono {width height : Int} {g g' : Grid}
    (h : ∀ a b : Int, InB width height a b →
      (gridGet g a b).visited = true → (gridGet g' a b).visited = true) :
    unvisitedCount width height g' ≤ unvisitedCount width height g := by
  unfold unvisitedCount
  apply Finset.sum_le_sum
  intro y hy
  apply Finset.sum_le_sum
  intro x hx
  have hx' := Finset.mem_range.mp hx
  have hy' := Finset.mem_range.mp hy
  by_cases hv : (gridGet g (x : Int) (y : Int)).visited = true
  · rw [hv, h (x : Int) (y : Int)
      ⟨by positivity, by omega, by positivity, by omega⟩ hv]
  · rw [if_neg hv]
    split <;> omega

/-- If the neighbor across a wall is unvisited, the wall must still be
present (an absent wall would need both endpoints visited). -/
theorem wall_present_of_unvisited {width height : Int} {g : Grid}
    (hsym : WallSym width height g) (hev : EdgeVis width height g)
    {x y : Int} {d : Dir} (hx : InB width height x y)
    (hn : InB width height (x + d.dx) (y + d.dy))
    (hviz : (gridGet g (x + d.dx) (y + d.dy)).visited = false) :
    wallAt g x y d = true := by
  by_contra hwn
  have hw : wallAt g x y d = false := by
    cases hv : wallAt g x y d
    · rfl
    · exact absurd hv hwn
  cases d with
  | right =>
    simp only [Dir.dx, Dir.dy] at hn hviz
    have := (hev.1 x y hx (by
      obtain ⟨h1, h2, h3, h4⟩ := hn
      exact ⟨by omega, by omega, by omega, by omega⟩) hw).2
    rw [show x + 1 = x + (1:Int) from rfl] at this
    have hya : y + (0:Int) = y := by omega
    rw [← hya] at this
    rw [this] at hviz
    exact absurd hviz (by simp)
  | bottom =>
    simp only [Dir.dx, Dir.dy] at hn hviz
    have := (hev.2 x y hx (by
      obtain ⟨h1, h2, h3, h4⟩ := hn
      exact ⟨by omega, by omega, by omega, by omega⟩) hw).2
    have hxa : x + (0:Int) = x := by omega
    rw [← hxa] at this
    rw [this] at hviz
    exact absurd hviz (by simp)
  | left =>
    simp only [Dir.dx, Dir.dy] at hn hviz
    obtain ⟨h1, h2, h3, h4⟩ := hn
    have hn' : InB width height (x - 1) y := ⟨by omega, by omega, by omega, by omega⟩
    have hsw := hsym.1 (x - 1) y hn'
      (show InB width height (x - 1 + 1) y by
        obtain ⟨g1, g2, g3, g4⟩ := hx
        exact ⟨by omega, by omega, by omega, by omega⟩)
    have e : x - 1 + 1 = x := by omega
    rw [e] at hsw
    have hw' : wallAt g (x - 1) y .right = false := by rw [hsw]; exact hw
    have := (hev.1 (x - 1) y hn'
      (by
        rw [e]
        exact hx) hw').1
    have e2 : x + (-1 : Int) = x - 1 := by omega
    have e3 : y + (0 : Int) = y := by omega
    rw [e2, e3] at hviz
    rw [this] at hviz
    exact absurd hviz (by simp)
  | top =>
    simp only [Dir.dx, Dir.dy] at hn hviz
    obtain ⟨h1, h2, h3, h4⟩ := hn
    have hn' : InB width height x (y - 1) := ⟨by omega, by omega, by omega, by omega⟩
    have hsw := hsym.2 x (y - 1) hn'
      (show InB width height x (y - 1 + 1) by
        obtain ⟨g1, g2, g3, g4⟩ := hx
        exact ⟨by omega, by omega, by omega, by omega⟩)
    have e : y - 1 + 1 = y := by omega
    rw [e] at hsw
    have hw' : wallAt g x (y - 1) .bottom = false := by rw [hsw]; exact hw
    have := (hev.2 x (y - 1) hn'
      (by
        rw [e]
        exact hx) hw').1
    have e2 : y + (-1 : Int) = y - 1 := by omega
    have e3 : x + (0 : Int) = x := by omega
    rw [e2, e3] at hviz
    rw [this] at hviz
    exact absurd hviz (by simp)

/-- Each direction's neighbor triple appears in the carver's list. -/
theorem neighbor_triple_mem (x y : Int) (d : Dir) :
    (x + d.dx, y + d.dy, d) ∈ neighborsOf x y := by
  cases d with
  | top =>
    have e1 : x + Dir.top.dx = x := by simp only [Dir.dx]; omega
    have e2 : y + Dir.top.dy = y - 1 := by simp only [Dir.dy]; omega
    rw [e1, e2]
    exact List.mem_cons_self _ _
  | right =>
    have e1 : x + Dir.right.dx = x + 1 := by simp only [Dir.dx]
    have e2 : y + Dir.right.dy = y := by simp only [Dir.dy]; omega
    rw [e1, e2]
    exact List.mem_cons_of_mem _ (List.mem_cons_self _ _)
  | bottom =>
    have e1 : x + Dir.bottom.dx = x := by simp only [Dir.dx]; omega
    have e2 : y + Dir.bottom.dy = y + 1 := by simp only [Dir.dy]
    rw [e1, e2]
    exact List.mem_cons_of_mem _ (List.mem_cons_of_mem _ (List.mem_cons_self _ _))
  | left =>
    have e1 : x + Dir.left.dx = x - 1 := by simp only [Dir.dx]; omega
    have e2 : y + Dir.left.dy = y := by simp only [Dir.dy]; omega
    rw [e1, e2]
    exact List.mem_cons_of_mem _ (List.mem_cons_of_mem _
      (List.mem_cons_of_mem _ (List.mem_cons_self _ _)))

/-! ## The main specification of `carve_path` -/

/-- Everything a single (recursive) carve call guarantees, relating the
grid `g` at call entry to the grid `g'` at return. -/
structure CarvePost (width height : Int) (x y : Int) (g g' : Grid) : Prop where
  shape : GridShape g' width.toNat height.toNat
  sym : WallSym width height g'
  edgeVis : EdgeVis width height g'
  acy : (openGraph width height g').IsAcyclic
  visMono : ∀ a b : Int, (gridGet g a b).visited = true →
    (gridGet g' a b).visited = true
  wallM : wallMono g g'
  visTarget : (gridGet g' x y).visited = true
  reach : ∀ a b : Int, InB width height a b →
    (gridGet g' a b).visited = true →
    (gridGet g a b).visited = true ∨ Reach width height g' (x, y) (a, b)
  closed : ∀ a b : Int, InB width height a b →
    (gridGet g' a b).visited = true → (gridGet g a b).visited = false →
    ∀ d : Dir, InB width height (a + d.dx) (b + d.dy) →
      (gridGet g' (a + d.dx) (b + d.dy)).visited = true
  count : ∃ k : Nat,
    visitedCount width height g' = visitedCount width height g + k + 1 ∧
    edgeCount width height g' = edgeCount width height g + k

/-- What the neighbor loop guarantees, relating the grid at loop entry to
the grid after the processed suffix `l`. -/
structure LoopPost (width height : Int) (x y : Int)
    (l : List (Int × Int × Dir)) (g g' : Grid) : Prop where
  shape : GridShape g' width.toNat height.toNat
  sym : WallSym width height g'
  edgeVis : EdgeVis width height g'
  acy : (openGraph width height g').IsAcyclic
  visMono : ∀ a b : Int, (gridGet g a b).visited = true →
    (gridGet g' a b).visited = true
  wallM : wallMono g g'
  reach : ∀ a b : Int, InB width height a b →
    (gridGet g' a b).visited = true →
    (gridGet g a b).visited = true ∨ Reach width height g' (x, y) (a, b)
  closed : ∀ a b : Int, InB width height a b →
    (gridGet g' a b).visited = true → (gridGet g a b).visited = false →
    ∀ d : Dir, InB width height (a + d.dx) (b + d.dy) →
      (gridGet g' (a + d.dx) (b + d.dy)).visited = true
  procVis : ∀ t ∈ l, InB width height t.1 t.2.1 →
    (gridGet g' t.1 t.2.1).visited = true
  count : ∃ k : Nat,
    visitedCount width height g' = visitedCount width height g + k ∧
    edgeCount width height g' = edgeCount width height g + k

theorem carve_loop_spec {width height : Int} (fuel : Nat) (x y : Int)
    (IH : ∀ (x' y' : Int) (g : Grid) (r : RNG),
      GridShape g width.toNat height.toNat →
      WallSym width height g →
      EdgeVisX width height g (x', y') →
      (openGraph width height g).IsAcyclic →
      InB width height x' y' →
      (gridGet g x' y').visited = false →
      unvisitedCount width height g ≤ fuel →
      CarvePost width height x' y'
        g (carve_path width height fuel x' y' (g, r)).1)
    (hxy : InB width height x y) :
    ∀ (l : List (Int × Int × Dir)) (gr : Grid × RNG),
      (∀ t ∈ l, t ∈ neighborsOf x y) →
      GridShape gr.1 width.toNat height.toNat →
      WallSym width height gr.1 →
      EdgeVis width height gr.1 →
      (openGraph width height gr.1).IsAcyclic →
      (gridGet gr.1 x y).visited = true →
      unvisitedCount width height gr.1 ≤ fuel →
      LoopPost width height x y l gr.1
        ((l.foldl (fun gs' t =>
          if 0 ≤ t.1 ∧ t.1 < width ∧ 0 ≤ t.2.1 ∧ t.2.1 < height ∧
              (gridGet gs'.1 t.1 t.2.1).visited = false then
            carve_path width height fuel t.1 t.2.1
              (removeWallPair gs'.1 x y t.1 t.2.1 t.2.2, gs'.2)
          else gs') gr)).1 := by
  intro l
  induction l with
  | nil =>
    intro gr hmem hs hsym hev hacy hvxy hfuel
    rw [List.foldl_nil]
    refine ⟨hs, hsym, hev, hacy, fun a b h => h, wallMono_refl _, ?_, ?_, ?_, 0,
      by omega, by omega⟩
    · exact fun a b _ hv => .inl hv
    · intro a b _ hv hnv
      rw [hv] at hnv
      exact absurd hnv (by simp)
    · exact fun t ht => absurd ht (List.not_mem_nil t)
  | cons t rest ihl =>
    intro gr hmem hs hsym hev hacy hvxy hfuel
    rw [List.foldl_cons]
    by_cases hguard : 0 ≤ t.1 ∧ t.1 < width ∧ 0 ≤ t.2.1 ∧ t.2.1 < height ∧
        (gridGet gr.1 t.1 t.2.1).visited = false
    · rw [if_pos hguard]
      obtain ⟨hdx, hdy⟩ := mem_neighborsOf (hmem t (List.mem_cons_self _ _))
      have hinb : InB width height (x + t.2.2.dx) (y + t.2.2.dy) := by
        rw [← hdx, ← hdy]
        exact ⟨hguard.1, hguard.2.1, hguard.2.2.1, hguard.2.2.2.1⟩
      have hviz : (gridGet gr.1 (x + t.2.2.dx) (y + t.2.2.dy)).visited = false := by
        rw [← hdx, ← hdy]
        exact hguard.2.2.2.2
      have hwall : wallAt gr.1 x y t.2.2 = true :=
        wall_present_of_unvisited hsym hev hxy hinb hviz
      rw [hdx, hdy]
      -- the grid after the paired removal
      have hshape2 := gridShape_removeWallPair hs hxy hinb t.2.2
      have hsym2 := wallSym_removeWallPair hs hxy hinb hsym
      have hevx2 := edgeVisX_removeWallPair hs hxy hinb hvxy hev
      have hacy2 := isAcyclic_removeWallPair hs hxy hinb hev hviz hacy
      have hviz2 : (gridGet (removeWallPair gr.1 x y (x + t.2.2.dx)
          (y + t.2.2.dy) t.2.2) (x + t.2.2.dx) (y + t.2.2.dy)).visited = false := by
        rw [gridGet_removeWallPair_visited]
        exact hviz
      have hfuel2 : unvisitedCount width height
          (removeWallPair gr.1 x y (x + t.2.2.dx) (y + t.2.2.dy) t.2.2) ≤ fuel := by
        rw [unvisitedCount_removeWallPair]
        exact hfuel
      have post := IH (x + t.2.2.dx) (y + t.2.2.dy)
        (removeWallPair gr.1 x y (x + t.2.2.dx) (y + t.2.2.dy) t.2.2) gr.2
        hshape2 hsym2 hevx2 hacy2 hinb hviz2 hfuel2
      -- facts about the carve result (as a first projection)
      have hvxy3 : (gridGet (carve_path width height fuel (x + t.2.2.dx)
          (y + t.2.2.dy) (removeWallPair gr.1 x y (x + t.2.2.dx)
            (y + t.2.2.dy) t.2.2, gr.2)).1 x y).visited = true :=
        post.visMono x y (visited_removeWallPair_true _ _ _ _ _ _ hvxy)
      have hfuel3 : unvisitedCount width height
          (carve_path width height fuel (x + t.2.2.dx) (y + t.2.2.dy)
            (removeWallPair gr.1 x y (x + t.2.2.dx) (y + t.2.2.dy) t.2.2, gr.2)).1
          ≤ fuel := by
        refine le_trans (unvisitedCount_le_of_visMono ?_) hfuel2
        exact fun a b _ hv => post.visMono a b hv
      have postRest := ihl (carve_path width height fuel (x + t.2.2.dx)
          (y + t.2.2.dy) (removeWallPair gr.1 x y (x + t.2.2.dx)
            (y + t.2.2.dy) t.2.2, gr.2))
        (fun u hu => hmem u (List.mem_cons_of_mem _ hu))
        post.shape post.sym post.edgeVis post.acy hvxy3 hfuel3
      -- the new wall stays open through the rest of the loop
      have hadj : openAdj width height
          ((rest.foldl (fun gs' t =>
            if 0 ≤ t.1 ∧ t.1 < width ∧ 0 ≤ t.2.1 ∧ t.2.1 < height ∧
                (gridGet gs'.1 t.1 t.2.1).visited = false then
              carve_path width height fuel t.1 t.2.1
                (removeWallPair gs'.1 x y t.1 t.2.1 t.2.2, gs'.2)
            else gs')
            (carve_path width height fuel (x + t.2.2.dx) (y + t.2.2.dy)
              (removeWallPair gr.1 x y (x + t.2.2.dx) (y + t.2.2.dy) t.2.2,
                gr.2))).1)
          (x, y) (x + t.2.2.dx, y + t.2.2.dy) :=
        openAdj_mono postRest.wallM
          (openAdj_mono post.wallM (openAdj_after_remove hs hxy hinb))
      refine ⟨postRest.shape, postRest.sym, postRest.edgeVis, postRest.acy,
        ?_, ?_, ?_, ?_, ?_, ?_⟩
      · -- visited monotone
        intro a b hv
        exact postRest.visMono a b (post.visMono a b
          (visited_removeWallPair_true _ _ _ _ _ _ hv))
      · -- walls monotone
        exact wallMono_trans (wallMono_removeWallPair _ _ _ _ _ _)
          (wallMono_trans post.wallM postRest.wallM)
      · -- reachability of the new cells from (x, y)
        intro a b hab hv
        rcases postRest.reach a b hab hv with hv3 | hr
        · rcases post.reach a b hab hv3 with hv2 | hr2
          · rw [gridGet_removeWallPair_visited] at hv2
            exact .inl hv2
          · right
            exact Relation.ReflTransGen.head hadj
              (reach_mono postRest.wallM hr2)
        · exact .inr hr
      · -- closure of new cells
        intro a b hab hv hnv
        by_cases hv3 : (gridGet (carve_path width height fuel (x + t.2.2.dx)
            (y + t.2.2.dy) (removeWallPair gr.1 x y (x + t.2.2.dx)
              (y + t.2.2.dy) t.2.2, gr.2)).1 a b).visited = true
        · have hnv2 : (gridGet (removeWallPair gr.1 x y (x + t.2.2.dx)
              (y + t.2.2.dy) t.2.2) a b).visited = false := by
            rw [gridGet_removeWallPair_visited]
            exact hnv
          intro e hne
          exact postRest.visMono _ _ (post.closed a b hab hv3 hnv2 e hne)
        · have hnv3 : (gridGet (carve_path width height fuel (x + t.2.2.dx)
              (y + t.2.2.dy) (removeWallPair gr.1 x y (x + t.2.2.dx)
                (y + t.2.2.dy) t.2.2, gr.2)).1 a b).visited = false := by
            cases hvv : (gridGet (carve_path width height fuel (x + t.2.2.dx)
                (y + t.2.2.dy) (removeWallPair gr.1 x y (x + t.2.2.dx)
                  (y + t.2.2.dy) t.2.2, gr.2)).1 a b).visited
            · rfl
            · exact absurd hvv hv3
          exact postRest.closed a b hab hv hnv3
      · -- every processed neighbor is visited
        intro u hu huinb
        rcases List.mem_cons.mp hu with rfl | hu'
        · have := postRest.visMono _ _ post.visTarget
          rw [hdx, hdy]
          exact this
        · exact postRest.procVis u hu' huinb
      · -- counting
        obtain ⟨k1, hk1v, hk1e⟩ := post.count
        obtain ⟨k2, hk2v, hk2e⟩ := postRest.count
        refine ⟨k1 + 1 + k2, ?_, ?_⟩
        · rw [hk2v, hk1v, visitedCount_removeWallPair]
          omega
        · rw [hk2e, hk1e,
            edgeCount_removeWallPair hs hxy hinb hsym hwall]
          omega
    · rw [if_neg hguard]
      have postRest := ihl gr
        (fun u hu => hmem u (List.mem_cons_of_mem _ hu))
        hs hsym hev hacy hvxy hfuel
      refine ⟨postRest.shape, postRest.sym, postRest.edgeVis, postRest.acy,
        postRest.visMono, postRest.wallM, postRest.reach, postRest.closed,
        ?_, postRest.count⟩
      intro u hu huinb
      rcases List.mem_cons.mp hu with rfl | hu'
      · -- the guard failed with the cell in bounds, so it was visited
        have hvis : (gridGet gr.1 u.1 u.2.1).visited = true := by
          obtain ⟨h1, h2, h3, h4⟩ := huinb
          cases hvv : (gridGet gr.1 u.1 u.2.1).visited
          · exact absurd ⟨h1, h2, h3, h4, hvv⟩ hguard
          · rfl
        exact postRest.visMono _ _ hvis
      · exact postRest.procVis u hu' huinb

set_option maxHeartbeats 1000000 in
/-- The full specification of one carve call, by induction on fuel. -/
theorem carve_path_spec {width height : Int} :
    ∀ (fuel : Nat) (x y : Int) (gs : Grid × RNG),
      GridShape gs.1 width.toNat height.toNat →
      WallSym width height gs.1 →
      EdgeVisX width height gs.1 (x, y) →
      (openGraph width height gs.1).IsAcyclic →
      InB width height x y →
      (gridGet gs.1 x y).visited = false →
      unvisitedCount width height gs.1 ≤ fuel →
      CarvePost width height x y gs.1
        (carve_path width height fuel x y gs).1 := by
  intro fuel
  induction fuel with
  | zero =>
    intro x y gs hs hsym hev hacy hxy hviz hfuel
    exact absurd hfuel (by
      have h1 := unvisitedCount_pos hxy hviz
      omega)
  | succ fuel ih =>
    intro x y gs hs hsym hev hacy hxy hviz hfuel
    show CarvePost width height x y gs.1
      ((shuffle (neighborsOf x y) gs.2).1.foldl
        (fun gs' t =>
          if 0 ≤ t.1 ∧ t.1 < width ∧ 0 ≤ t.2.1 ∧ t.2.1 < height ∧
              (gridGet gs'.1 t.1 t.2.1).visited = false then
            carve_path width height fuel t.1 t.2.1
              (removeWallPair gs'.1 x y t.1 t.2.1 t.2.2, gs'.2)
          else gs')
        (markVisited gs.1 x y, (shuffle (neighborsOf x y) gs.2).2)).1
    have hs1 := gridShape_markVisited hs hxy
    have hsym1 : WallSym width height (markVisited gs.1 x y) :=
      wallSym_markVisited hsym
    have hev1 := edgeVisX_markVisited hs hxy hev
    have hacy1 : (openGraph width height (markVisited gs.1 x y)).IsAcyclic := by
      rw [openGraph_markVisited]
      exact hacy
    have hv1 : (gridGet (markVisited gs.1 x y) x y).visited = true := by
      rw [gridGet_markVisited_at hs hxy]
    have hfuel1 : unvisitedCount width height (markVisited gs.1 x y) ≤ fuel := by
      have h1 := unvisitedCount_markVisited hs hxy hviz
      omega
    have hperm := shuffle_perm (neighborsOf x y) gs.2
    have hloop := carve_loop_spec fuel x y
      (fun x' y' g r h1 h2 h3 h4 h5 h6 h7 => ih x' y' (g, r) h1 h2 h3 h4 h5 h6 h7)
      hxy (shuffle (neighborsOf x y) gs.2).1
      (markVisited gs.1 x y, (shuffle (neighborsOf x y) gs.2).2)
      (fun t ht => hperm.mem_iff.mp ht)
      hs1 hsym1 hev1 hacy1 hv1 hfuel1
    refine ⟨hloop.shape, hloop.sym, hloop.edgeVis, hloop.acy, ?_, ?_, ?_, ?_, ?_, ?_⟩
    · intro a b hv
      exact hloop.visMono a b (visited_markVisited_mono _ x y a b hv)
    · exact wallMono_trans (wallMono_markVisited gs.1 x y) hloop.wallM
    · exact hloop.visMono x y hv1
    · intro a b hab hv
      rcases hloop.reach a b hab hv with hva | hr
      · rcases visited_markVisited_cases hxy hab hva with hv0 | heq
        · exact .inl hv0
        · right
          rw [heq]
          exact Relation.ReflTransGen.refl
      · exact .inr hr
    · intro a b hab hv hnv
      by_cases hva : (gridGet (markVisited gs.1 x y) a b).visited = true
      · rcases visited_markVisited_cases hxy hab hva with hv0 | heq
        · rw [hv0] at hnv
          exact absurd hnv (by simp)
        · intro d hnd
          have heqa : a = x := congrArg Prod.fst heq
          have heqb : b = y := congrArg Prod.snd heq
          subst heqa
          subst heqb
          have hmemt : (a + d.dx, b + d.dy, d) ∈
              (shuffle (neighborsOf a b) gs.2).1 :=
            hperm.mem_iff.mpr (neighbor_triple_mem a b d)
          exact hloop.procVis _ hmemt hnd
      · have hnva : (gridGet (markVisited gs.1 x y) a b).visited = false := by
          cases hvv : (gridGet (markVisited gs.1 x y) a b).visited
          · rfl
          · exact absurd hvv hva
        exact hloop.closed a b hab hv hnva
    · obtain ⟨k, hkv, hke⟩ := hloop.count
      dsimp only at hkv hke
      have h1 := visitedCount_markVisited hs hxy hviz
      have h2 := edgeCount_markVisited width height gs.1 x y
      exact ⟨k, by omega, by omega⟩

/-! ## The freshly built grid -/

theorem wallAt_buildGrid {width height x y : Int} (hx : InB width height x y)
    (d : Dir) : wallAt (buildGrid width height) x y d = true := by
  obtain ⟨h1, h2, h3, h4⟩ := hx
  unfold wallAt
  rw [gridGet_buildGrid h1 h2 h3 h4]
  cases d <;> rfl

theorem visited_buildGrid {width height x y : Int}
    (hx : InB width height x y) :
    (gridGet (buildGrid width height) x y).visited = false := by
  obtain ⟨h1, h2, h3, h4⟩ := hx
  rw [gridGet_buildGrid h1 h2 h3 h4]
  rfl

theorem wallSym_buildGrid (width height : Int) :
    WallSym width height (buildGrid width height) := by
  constructor
  · intro x y hx hx1
    rw [wallAt_buildGrid hx, wallAt_buildGrid hx1]
  · intro x y hx hx1
    rw [wallAt_buildGrid hx, wallAt_buildGrid hx1]

theorem edgeVis_buildGrid (width height : Int) :
    EdgeVis width height (buildGrid width height) := by
  constructor
  · intro x y hx hx1 hw
    rw [wallAt_buildGrid hx] at hw
    exact absurd hw (by simp)
  · intro x y hx hx1 hw
    rw [wallAt_buildGrid hx] at hw
    exact absurd hw (by simp)

theorem openGraph_buildGrid (width height : Int) :
    openGraph width height (buildGrid width height) = ⊥ := by
  ext p q
  simp only [SimpleGraph.bot_adj, iff_false]
  intro h
  obtain ⟨hp, hq, hd⟩ := h
  rcases hd with ⟨_, _, hw⟩ | ⟨_, _, hw⟩ | ⟨_, _, hw⟩ | ⟨_, _, hw⟩
  · rw [wallAt_buildGrid hp] at hw
    exact absurd hw (by simp)
  · rw [wallAt_buildGrid hq] at hw
    exact absurd hw (by simp)
  · rw [wallAt_buildGrid hp] at hw
    exact absurd hw (by simp)
  · rw [wallAt_buildGrid hq] at hw
    exact absurd hw (by simp)

theorem isAcyclic_buildGrid (width height : Int) :
    (openGraph width height (buildGrid width height)).IsAcyclic := by
  rw [openGraph_buildGrid]
  exact SimpleGraph.isAcyclic_bot

theorem visitedCount_buildGrid (width height : Int) :
    visitedCount width height (buildGrid width height) = 0 := by
  unfold visitedCount
  refine Finset.sum_eq_zero fun y hy => Finset.sum_eq_zero fun x hx => ?_
  rw [Finset.mem_range] at hx hy
  have hinb : InB width height (x : Int) (y : Int) := by
    unfold InB
    omega
  rw [visited_buildGrid hinb]
  rfl

theorem unvisitedCount_buildGrid (width height : Int) :
    unvisitedCount width height (buildGrid width height) =
      width.toNat * height.toNat := by
  have h1 := visited_add_unvisited width height (buildGrid width height)
  have h2 := visitedCount_buildGrid width height
  omega

theorem edgeCount_buildGrid (width height : Int) :
    edgeCount width height (buildGrid width height) = 0 := by
  unfold edgeCount
  have h1 : ((Finset.range height.toNat).sum fun y =>
      (Finset.range (width.toNat - 1)).sum fun x =>
        if wallAt (buildGrid width height) (x : Int) (y : Int) .right
        then 0 else 1) = 0 := by
    refine Finset.sum_eq_zero fun y hy => Finset.sum_eq_zero fun x hx => ?_
    rw [Finset.mem_range] at hx hy
    have hinb : InB width height (x : Int) (y : Int) := by
      unfold InB
      omega
    simp [wallAt_buildGrid hinb]
  have h2 : ((Finset.range (height.toNat - 1)).sum fun y =>
      (Finset.range width.toNat).sum fun x =>
        if wallAt (buildGrid width height) (x : Int) (y : Int) .bottom
        then 0 else 1) = 0 := by
    refine Finset.sum_eq_zero fun y hy => Finset.sum_eq_zero fun x hx => ?_
    rw [Finset.mem_range] at hx hy
    have hinb : InB width height (x : Int) (y : Int) := by
      unfold InB
      omega
    simp [wallAt_buildGrid hinb]
  omega

/-! ## All cells are visited after the top-level carve -/

theorem carvePost_all_visited {width height sx sy : Int} {g' : Grid}
    (hst : InB width height sx sy)
    (hpost : CarvePost width height sx sy (buildGrid width height) g') :
    ∀ a b : Int, InB width height a b → (gridGet g' a b).visited = true := by
  have key : ∀ n : Nat, ∀ a b : Int, InB width height a b →
      (a - sx).natAbs + (b - sy).natAbs = n →
      (gridGet g' a b).visited = true := by
    intro n
    induction n using Nat.strong_induction_on with
    | _ n ih =>
      intro a b hab hdist
      by_cases hax : a = sx
      · by_cases hby : b = sy
        · rw [hax, hby]
          exact hpost.visTarget
        · by_cases hlt : sy < b
          · -- step down toward the start; the cell below is closer
            have hnb : InB width height a (b - 1) := by
              obtain ⟨h1, h2, h3, h4⟩ := hab
              obtain ⟨_, _, h7, _⟩ := hst
              exact ⟨h1, h2, by omega, by omega⟩
            have hless : (a - sx).natAbs + ((b - 1) - sy).natAbs < n := by
              omega
            have hv := ih _ hless a (b - 1) hnb rfl
            have hcl := hpost.closed a (b - 1) hnb hv (visited_buildGrid hnb)
            have e1 : a + Dir.bottom.dx = a := by
              simp only [Dir.dx]
              omega
            have e2 : (b - 1) + Dir.bottom.dy = b := by
              simp only [Dir.dy]
              omega
            have := hcl Dir.bottom (by rw [e1, e2]; exact hab)
            rw [e1, e2] at this
            exact this
          · -- step up toward the start; the cell above is closer
            have hnb : InB width height a (b + 1) := by
              obtain ⟨h1, h2, h3, h4⟩ := hab
              obtain ⟨_, _, _, h8⟩ := hst
              exact ⟨h1, h2, by omega, by omega⟩
            have hless : (a - sx).natAbs + ((b + 1) - sy).natAbs < n := by
              omega
            have hv := ih _ hless a (b + 1) hnb rfl
            have hcl := hpost.closed a (b + 1) hnb hv (visited_buildGrid hnb)
            have e1 : a + Dir.top.dx = a := by
              simp only [Dir.dx]
              omega
            have e2 : (b + 1) + Dir.top.dy = b := by
              simp only [Dir.dy]
              omega
            have := hcl Dir.top (by rw [e1, e2]; exact hab)
            rw [e1, e2] at this
            exact this
      · by_cases hlt : sx < a
        · have hnb : InB width height (a - 1) b := by
            obtain ⟨h1, h2, h3, h4⟩ := hab
            obtain ⟨h5, _, _, _⟩ := hst
            exact ⟨by omega, by omega, h3, h4⟩
          have hless : ((a - 1) - sx).natAbs + (b - sy).natAbs < n := by
            omega
          have hv := ih _ hless (a - 1) b hnb rfl
          have hcl := hpost.closed (a - 1) b hnb hv (visited_buildGrid hnb)
          have e1 : (a - 1) + Dir.right.dx = a := by
            simp only [Dir.dx]
            omega
          have e2 : b + Dir.right.dy = b := by
            simp only [Dir.dy]
            omega
          have := hcl Dir.right (by rw [e1, e2]; exact hab)
          rw [e1, e2] at this
          exact this
        · have hnb : InB width height (a + 1) b := by
            obtain ⟨h1, h2, h3, h4⟩ := hab
            obtain ⟨_, h6, _, _⟩ := hst
            exact ⟨by omega, by omega, h3, h4⟩
          have hless : ((a + 1) - sx).natAbs + (b - sy).natAbs < n := by
            omega
          have hv := ih _ hless (a + 1) b hnb rfl
          have hcl := hpost.closed (a + 1) b hnb hv (visited_buildGrid hnb)
          have e1 : (a + 1) + Dir.left.dx = a := by
            simp only [Dir.dx]
            omega
          have e2 : b + Dir.left.dy = b := by
            simp only [Dir.dy]
            omega
          have := hcl Dir.left (by rw [e1, e2]; exact hab)
          rw [e1, e2] at this
          exact this
  intro a b hab
  exact key _ a b hab rfl

/-- A grid whose in-bounds cells are all visited has full visited count. -/
theorem visitedCount_full {width height : Int} {g : Grid}
    (h : ∀ a b : Int, InB width height a b → (gridGet g a b).visited = true) :
    visitedCount width height g = width.toNat * height.toNat := by
  have h1 := visited_add_unvisited width height g
  have h2 : unvisitedCount width height g = 0 := by
    unfold unvisitedCount
    refine Finset.sum_eq_zero fun y hy => Finset.sum_eq_zero fun x hx => ?_
    rw [Finset.mem_range] at hx hy
    have hinb : InB width height (x : Int) (y : Int) := by
      unfold InB
      omega
    rw [h _ _ hinb]
    rfl
  omega

/-! ## The carved graph restricted to the grid vertices -/

def cellVert (width height : Int)
    (p : Fin width.toNat × Fin height.toNat) : Int × Int :=
  (((p.1 : Nat) : Int), ((p.2 : Nat) : Int))

/-- The carved wall graph on the actual cells of the grid. -/
def mazeGraph (width height : Int) (g : Grid) :
    SimpleGraph (Fin width.toNat × Fin height.toNat) :=
  (openGraph width height g).comap (cellVert width height)

theorem cellVert_injective (width height : Int) :
    Function.Injective (cellVert width height) := by
  intro p q hpq
  have h1 : ((p.1 : Nat) : Int) = ((q.1 : Nat) : Int) := congrArg Prod.fst hpq
  have h2 : ((p.2 : Nat) : Int) = ((q.2 : Nat) : Int) := congrArg Prod.snd hpq
  have h1n : (p.1 : Nat) = (q.1 : Nat) := by exact_mod_cast h1
  have h2n : (p.2 : Nat) = (q.2 : Nat) := by exact_mod_cast h2
  exact Prod.ext (Fin.ext h1n) (Fin.ext h2n)

theorem mazeGraph_isAcyclic {width height : Int} {g : Grid}
    (h : (openGraph width height g).IsAcyclic) :
    (mazeGraph width height g).IsAcyclic := by
  intro v c hc
  exact h (c.map (SimpleGraph.Hom.comap (cellVert width height)
    (openGraph width height g))) (hc.map (cellVert_injective width height))

theorem reach_lift {width height : Int} {g : Grid} {u v : Int × Int}
    (h : Reach width height g u v) :
    ∀ uF vF : Fin width.toNat × Fin height.toNat,
      cellVert width height uF = u → cellVert width height vF = v →
      (mazeGraph width height g).Reachable uF vF := by
  induction h with
  | refl =>
    intro uF vF h1 h2
    have huv : uF = vF := cellVert_injective width height (by rw [h1, h2])
    rw [huv]
  | @tail c e hsteps hstep ih =>
    intro uF vF h1 h2
    obtain ⟨cx, cy⟩ := c
    have hcin : InB width height cx cy := hstep.1
    obtain ⟨hc1, hc2, hc3, hc4⟩ := hcin
    have hcb1 : cx.toNat < width.toNat := by omega
    have hcb2 : cy.toNat < height.toNat := by omega
    have hcv : cellVert width height (⟨cx.toNat, hcb1⟩, ⟨cy.toNat, hcb2⟩)
        = (cx, cy) := by
      show ((cx.toNat : Int), (cy.toNat : Int)) = (cx, cy)
      rw [Int.toNat_of_nonneg hc1, Int.toNat_of_nonneg hc3]
    have hadj : (mazeGraph width height g).Adj
        (⟨cx.toNat, hcb1⟩, ⟨cy.toNat, hcb2⟩) vF := by
      show (openGraph width height g).Adj
        (cellVert width height (⟨cx.toNat, hcb1⟩, ⟨cy.toNat, hcb2⟩))
        (cellVert width height vF)
      rw [hcv, h2]
      exact hstep
    exact (ih uF (⟨cx.toNat, hcb1⟩, ⟨cy.toNat, hcb2⟩) h1 hcv).trans hadj.reachable

theorem mazeGraph_connected {width height sx sy : Int} {g : Grid}
    (hW : 1 ≤ width) (hH : 1 ≤ height)
    (hst : InB width height sx sy)
    (hreach : ∀ a b : Int, InB width height a b →
      Reach width height g (sx, sy) (a, b)) :
    (mazeGraph width height g).Connected := by
  rw [SimpleGraph.connected_iff_exists_forall_reachable]
  obtain ⟨h1, h2, h3, h4⟩ := hst
  have hb1 : sx.toNat < width.toNat := by omega
  have hb2 : sy.toNat < height.toNat := by omega
  refine ⟨(⟨sx.toNat, hb1⟩, ⟨sy.toNat, hb2⟩), fun w => ?_⟩
  have hw1 := w.1.isLt
  have hw2 := w.2.isLt
  have hwin : InB width height ((w.1 : Nat) : Int) ((w.2 : Nat) : Int) := by
    refine ⟨by omega, by omega, by omega, by omega⟩
  have hr := hreach _ _ hwin
  refine reach_lift hr _ w ?_ rfl
  show ((sx.toNat : Int), (sy.toNat : Int)) = (sx, sy)
  rw [Int.toNat_of_nonneg h1, Int.toNat_of_nonneg h3]

/-- C1: for every grid with `width, height ≥ 1`, after the depth-first
carving phase (and before any advanced-difficulty extra-path pass), the
carved wall graph is a spanning tree of the cell-adjacency graph: exactly
`width*height - 1` adjacent cell pairs have their shared wall removed,
every cell is visited and reachable from the start cell, and between any
two cells there is exactly one simple path. -/
theorem C1_carve_spanning_tree {width height : Int} {d : Difficulty}
    {r : RNG} {g : Grid} {st : Int × Int} {r' : RNG}
    (hW : 1 ≤ width) (hH : 1 ≤ height)
    (h : carvePhase width height d r = .ok (g, st, r')) :
    edgeCount width height g = width.toNat * height.toNat - 1 ∧
    (∀ a b : Int, InB width height a b →
      (gridGet g a b).visited = true ∧ Reach width height g st (a, b)) ∧
    ∀ u v : Fin width.toNat × Fin height.toNat,
      ∃! p : (mazeGraph width height g).Walk u v, p.IsPath := by
  obtain ⟨hstin, r₀, heq⟩ := carvePhase_ok_elim h
  have hgeq : g = (carve_path width height (width.toNat * height.toNat)
      st.1 st.2 (buildGrid width height, r₀)).1 := congrArg Prod.fst heq
  have hpost : CarvePost width height st.1 st.2 (buildGrid width height) g := by
    rw [hgeq]
    exact carve_path_spec _ st.1 st.2 (buildGrid width height, r₀)
      (gridShape_buildGrid width height)
      (wallSym_buildGrid width height)
      (edgeVis_edgeVisX _ (edgeVis_buildGrid width height))
      (isAcyclic_buildGrid width height)
      hstin
      (visited_buildGrid hstin)
      (le_of_eq (unvisitedCount_buildGrid width height))
  have hall := carvePost_all_visited hstin hpost
  have hvc : visitedCount width height g = width.toNat * height.toNat :=
    visitedCount_full hall
  have hreach : ∀ a b : Int, InB width height a b →
      Reach width height g (st.1, st.2) (a, b) := by
    intro a b hab
    rcases hpost.reach a b hab (hall a b hab) with hv0 | hr
    · rw [visited_buildGrid hab] at hv0
      exact absurd hv0 (by simp)
    · exact hr
  obtain ⟨k, hkv, hke⟩ := hpost.count
  rw [visitedCount_buildGrid] at hkv
  rw [edgeCount_buildGrid] at hke
  have hwh : 1 ≤ width.toNat * height.toNat :=
    Nat.mul_pos (by omega) (by omega)
  refine ⟨by omega, ?_, ?_⟩
  · intro a b hab
    exact ⟨hall a b hab, hreach a b hab⟩
  · have htree : (mazeGraph width height g).IsTree :=
      ⟨mazeGraph_connected hW hH hstin hreach, mazeGraph_isAcyclic hpost.acy⟩
    exact (SimpleGraph.isTree_iff_existsUnique_path.mp htree).2

theorem C1_carve_spanning_tree_witness :
    edgeCount 2 1
      [[{ visited := true, walls :=
          { top := true, right := false, bottom := true, left := true } },
        { visited := true, walls :=
          { top := true, right := true, bottom := true, left := false } }]] =
      (2 : Int).toNat * (1 : Int).toNat - 1 ∧
    (∀ a b : Int, InB 2 1 a b →
      (gridGet
        [[{ visited := true, walls :=
            { top := true, right := false, bottom := true, left := true } },
          { visited := true, walls :=
            { top := true, right := true, bottom := true, left := false } }]]
        a b).visited = true ∧
      Reach 2 1
        [[{ visited := true, walls :=
            { top := true, right := false, bottom := true, left := true } },
          { visited := true, walls :=
            { top := true, right := true, bottom := true, left := false } }]]
        (0, 0) (a, b)) ∧
    ∀ u v : Fin (2 : Int).toNat × Fin (1 : Int).toNat,
      ∃! p : (mazeGraph 2 1
        [[{ visited := true, walls :=
            { top := true, right := false, bottom := true, left := true } },
          { visited := true, walls :=
            { top := true, right := true, bottom := true, left := false } }]]).Walk
        u v, p.IsPath :=
  @C1_carve_spanning_tree 2 1 .beginner (fun _ => 0)
    [[{ visited := true, walls :=
        { top := true, right := false, bottom := true, left := true } },
      { visited := true, walls :=
        { top := true, right := true, bottom := true, left := false } }]]
    (0, 0) (fun _ => 0) (by decide) (by decide) (by rfl)

/-- C2: wall symmetry is an invariant of the whole generation. Marking a
cell visited never changes any wall flag; the only wall mutation,
`removeWallPair`, clears the two flags of a shared wall in the same step
and preserves symmetry; and the grids produced by the carve phase and by
the full `_create_maze_grid` (including the advanced extra wall-removal
pass) satisfy `WallSym`: the flags of every shared wall agree. -/
theorem C2_wall_symmetry {width height : Int} :
    (∀ (g : Grid) (a b : Int), WallSym width height g →
      WallSym width height (markVisited g a b)) ∧
    (∀ (g : Grid) (a b : Int) (d : Dir),
      GridShape g width.toNat height.toNat →
      InB width height a b → InB width height (a + d.dx) (b + d.dy) →
      WallSym width height g →
      WallSym width height (removeWallPair g a b (a + d.dx) (b + d.dy) d)) ∧
    (∀ (d : Difficulty) (r : RNG) (g : Grid) (st : Int × Int) (r' : RNG),
      carvePhase width height d r = .ok (g, st, r') →
      WallSym width height g) ∧
    (∀ (n : Nat) (gs gs' : Grid × RNG),
      extraPass width height n gs = .ok gs' →
      SymInv width height gs.1 → WallSym width height gs'.1) ∧
    (∀ (d : Difficulty) (r : RNG) (g : Grid) (r' : RNG),
      create_maze_grid width height d r = .ok (g, r') →
      WallSym width height g) := by
  refine ⟨?_, ?_, ?_, ?_, ?_⟩
  · intro g a b hsym
    exact wallSym_markVisited hsym
  · intro g a b d hs hab hn hsym
    exact wallSym_removeWallPair hs hab hn hsym
  · intro d r g st r' h
    exact (carvePhase_symInv h).2.1
  · intro n gs gs' h hinv
    exact (extraPass_preserves (SymInv width height)
      (fun g' a b dd hab hn hq => symInv_remove hab hn hq) n h hinv).2.1
  · intro d r g r' h
    exact (create_maze_grid_symInv h).2.1

theorem C2_wall_symmetry_witness :
    WallSym 2 1
      [[{ visited := true, walls :=
          { top := true, right := false, bottom := true, left := true } },
        { visited := true, walls :=
          { top := true, right := true, bottom := true, left := false } }]] :=
  (@C2_wall_symmetry 2 1).2.2.1 .beginner (fun _ => 0)
    [[{ visited := true, walls :=
        { top := true, right := false, bottom := true, left := true } },
      { visited := true, walls :=
        { top := true, right := true, bottom := true, left := false } }]]
    (0, 0) (fun _ => 0) (by rfl)

/-- C6: for every grid with `height ≥ 2`, every difficulty and every
random stream, the carver and extra pass never clear a bottom-row cell's
`'top'` flag (the carver's `'top'` neighbor `(x, y-1)` is out of bounds at
`y = 0`), while the emitter places the `'top'` wall on the `+y` side with
guard `y < height - 1`, which `y = 0` satisfies: an internal wall segment
at `(x*cellSize + wallThickness, cellSize, 0)` is emitted for every
bottom-row cell, an unbroken wall row between cell rows 0 and 1. -/
theorem C6_bottom_row_walls {p : MazeParams} {r : RNG} {g : Grid} {r' : RNG}
    (hH : 2 ≤ p.height)
    (h : create_maze_grid p.width p.height p.difficulty r = .ok (g, r')) :
    (∀ x : Int, InB p.width p.height x 0 → wallAt g x 0 .top = true) ∧
    ∀ x : Nat, x < p.width.toNat →
      topWallSegment p (x : Int) 0 ∈ rectangularMazeSegments g p ∧
      topWallSegment p (x : Int) 0 =
        ⟨(x : Int) * cellSize p + p.wall_thickness, cellSize p, 0,
         p.path_width, p.wall_thickness, p.wall_height, .internal⟩ := by
  obtain ⟨hs, hsym, hrow⟩ := create_maze_grid_symInv h
  refine ⟨fun x hx => hrow x hx, ?_⟩
  intro x hx
  have hinb : InB p.width p.height (x : Int) 0 :=
    ⟨by omega, by omega, le_refl 0, by omega⟩
  have htop : (gridGet g (x : Int) 0).walls.top = true := hrow (x : Int) hinb
  have hgh : g.length = p.height.toNat := hs.1
  have hgw : (g.getD 0 []).length = p.width.toNat := by
    have hlen : 0 < g.length := by omega
    rw [List.getD_eq_getElem?_getD, List.getElem?_eq_getElem hlen]
    exact hs.2 _ (List.getElem_mem hlen)
  have hmemcell : topWallSegment p (x : Int) 0 ∈
      cellSegments g p.width.toNat p.height.toNat p x 0 := by
    unfold cellSegments
    refine List.mem_append.mpr (.inr ?_)
    have hcond : ((gridGet g (x : Int) ((0 : Nat) : Int)).walls.top = true) ∧
        ((0 : Nat) : Int) < (p.height.toNat : Int) - 1 := by
      constructor
      · exact_mod_cast htop
      · have : (0 : Int) < (p.height.toNat : Int) - 1 := by omega
        exact_mod_cast this
    rw [if_pos hcond]
    simp
  have hmeminternal : topWallSegment p (x : Int) 0 ∈
      internalSegments g p.width.toNat p.height.toNat p := by
    unfold internalSegments
    refine List.mem_flatMap.mpr ⟨0, List.mem_range.mpr (by omega),
      List.mem_flatMap.mpr ⟨x, List.mem_range.mpr hx, hmemcell⟩⟩
  constructor
  · unfold rectangularMazeSegments
    rw [hgw, hgh]
    refine List.mem_append.mpr (.inl (List.mem_append.mpr
      (.inl (List.mem_append.mpr (.inl (List.mem_append.mpr
        (.inr hmeminternal)))))))
  · have hoy : 0 * cellSize p + p.wall_thickness + p.path_width
        = cellSize p := by
      unfold cellSize
      ring
    unfold topWallSegment
    rw [hoy]

theorem C6_bottom_row_walls_witness :
    (∀ x : Int, InB 1 2 x 0 →
      wallAt
        [[{ visited := true, walls :=
            { top := true, right := true, bottom := false, left := true } }],
         [{ visited := true, walls :=
            { top := false, right := true, bottom := true, left := true } }]]
        x 0 .top = true) ∧
    ∀ x : Nat, x < (1 : Int).toNat →
      topWallSegment ⟨1, 2, 20, 2, 10, .beginner, .rectangular, []⟩ (x : Int) 0 ∈
        rectangularMazeSegments
          [[{ visited := true, walls :=
              { top := true, right := true, bottom := false, left := true } }],
           [{ visited := true, walls :=
              { top := false, right := true, bottom := true, left := true } }]]
          ⟨1, 2, 20, 2, 10, .beginner, .rectangular, []⟩ ∧
      topWallSegment ⟨1, 2, 20, 2, 10, .beginner, .rectangular, []⟩ (x : Int) 0 =
        ⟨(x : Int) * cellSize ⟨1, 2, 20, 2, 10, .beginner, .rectangular, []⟩ + 2,
         cellSize ⟨1, 2, 20, 2, 10, .beginner, .rectangular, []⟩, 0,
         10, 2, 20, .internal⟩ :=
  @C6_bottom_row_walls ⟨1, 2, 20, 2, 10, .beginner, .rectangular, []⟩
    (fun _ => 0)
    [[{ visited := true, walls :=
        { top := true, right := true, bottom := false, left := true } }],
     [{ visited := true, walls :=
        { top := false, right := true, bottom := true, left := true } }]]
    (fun _ => 0) (by decide) (by rfl)

/-! ## Totality of the generation pipeline -/

theorem extraStep_isOk {width height : Int} (hW : 1 ≤ width) (hH : 1 ≤ height)
    (gs : Grid × RNG) : ∃ gs', extraStep width height gs = .ok gs' := by
  obtain ⟨x, r1, hx⟩ := randint_isOk gs.2 (show (0 : Int) ≤ width - 1 by omega)
  obtain ⟨y, r2, hy⟩ := randint_isOk r1 (show (0 : Int) ≤ height - 1 by omega)
  unfold extraStep
  rw [hx]
  dsimp only
  rw [hy]
  dsimp only
  split
  · split
    · exact ⟨_, rfl⟩
    · exact ⟨_, rfl⟩
  · exact ⟨_, rfl⟩

theorem extraPass_isOk {width height : Int} (hW : 1 ≤ width)
    (hH : 1 ≤ height) :
    ∀ (n : Nat) (gs : Grid × RNG),
      ∃ gs', extraPass width height n gs = .ok gs' := by
  intro n
  induction n with
  | zero =>
    intro gs
    exact ⟨gs, rfl⟩
  | succ n ih =>
    intro gs
    obtain ⟨gs1, h1⟩ := extraStep_isOk hW hH gs
    obtain ⟨gs2, h2⟩ := ih gs1
    refine ⟨gs2, ?_⟩
    show (match extraStep width height gs with
      | .error e => (.error e : Except PyError (Grid × RNG))
      | .ok gs' => extraPass width height n gs') = .ok gs2
    rw [h1]
    exact h2

theorem carvePhase_isOk {width height : Int} (hW : 1 ≤ width)
    (hH : 1 ≤ height) (d : Difficulty) (r : RNG) :
    ∃ g st r', carvePhase width height d r = .ok (g, st, r') := by
  cases d with
  | advanced =>
    obtain ⟨sx, r1, hx⟩ := randint_isOk r (show (0 : Int) ≤ width - 1 by omega)
    obtain ⟨sy, r2, hy⟩ := randint_isOk r1 (show (0 : Int) ≤ height - 1 by omega)
    have hsx := randint_le hx
    have hsy := randint_le hy
    unfold carvePhase
    dsimp only
    rw [hx]
    dsimp only
    rw [hy]
    dsimp only
    rw [if_pos (show 0 ≤ sx ∧ sx < width ∧ 0 ≤ sy ∧ sy < height by omega)]
    exact ⟨_, _, _, rfl⟩
  | beginner =>
    unfold carvePhase
    dsimp only
    rw [if_pos (show (0 : Int) ≤ 0 ∧ (0 : Int) < width ∧ (0 : Int) ≤ 0 ∧
      (0 : Int) < height by omega)]
    exact ⟨_, _, _, rfl⟩
  | intermediate =>
    unfold carvePhase
    dsimp only
    rw [if_pos (show (0 : Int) ≤ 0 ∧ (0 : Int) < width ∧ (0 : Int) ≤ 0 ∧
      (0 : Int) < height by omega)]
    exact ⟨_, _, _, rfl⟩

theorem create_maze_grid_isOk {width height : Int} (hW : 1 ≤ width)
    (hH : 1 ≤ height) (d : Difficulty) (r : RNG) :
    ∃ g r', create_maze_grid width height d r = .ok (g, r') := by
  obtain ⟨g0, st, r0, hcp⟩ := carvePhase_isOk hW hH d r
  unfold create_maze_grid
  rw [hcp]
  cases d with
  | advanced =>
    obtain ⟨gs', hp⟩ :=
      extraPass_isOk hW hH (width.toNat * height.toNat / 10) (g0, r0)
    exact ⟨gs'.1, gs'.2, hp⟩
  | beginner => exact ⟨g0, r0, rfl⟩
  | intermediate => exact ⟨g0, r0, rfl⟩

/-- A neighbor loop in which every processed coordinate is out of bounds
leaves the state unchanged. -/
theorem carve_loop_skip {width height : Int} (fuel : Nat) (x y : Int) :
    ∀ (l : List (Int × Int × Dir)) (gr : Grid × RNG),
      (∀ t ∈ l, ¬(0 ≤ t.1 ∧ t.1 < width ∧ 0 ≤ t.2.1 ∧ t.2.1 < height)) →
      l.foldl (fun gs' t =>
        if 0 ≤ t.1 ∧ t.1 < width ∧ 0 ≤ t.2.1 ∧ t.2.1 < height ∧
            (gridGet gs'.1 t.1 t.2.1).visited = false then
          carve_path width height fuel t.1 t.2.1
            (removeWallPair gs'.1 x y t.1 t.2.1 t.2.2, gs'.2)
        else gs') gr = gr := by
  intro l
  induction l with
  | nil =>
    intro gr _
    rfl
  | cons t rest ih =>
    intro gr hmem
    rw [List.foldl_cons, if_neg ?_]
    · exact ih gr fun u hu => hmem u (List.mem_cons_of_mem _ hu)
    · intro hc
      exact hmem t (List.mem_cons_self _ _) ⟨hc.1, hc.2.1, hc.2.2.1, hc.2.2.2.1⟩

/-- The `1 × 1` carve: a single visited cell with all four walls intact. -/
theorem carvePhase_one {d : Difficulty} {r : RNG} {g : Grid}
    {st : Int × Int} {r' : RNG}
    (h : carvePhase 1 1 d r = .ok (g, st, r')) :
    g = [[{ visited := true, walls :=
      { top := true, right := true, bottom := true, left := true } }]] := by
  obtain ⟨hstin, r₀, heq⟩ := carvePhase_ok_elim h
  have hst1 : st.1 = 0 := by
    obtain ⟨h1, h2, h3, h4⟩ := hstin
    omega
  have hst2 : st.2 = 0 := by
    obtain ⟨h1, h2, h3, h4⟩ := hstin
    omega
  rw [hst1, hst2] at heq
  have hg2 : g = ((shuffle (neighborsOf 0 0) r₀).1.foldl
      (fun gs' t =>
        if 0 ≤ t.1 ∧ t.1 < 1 ∧ 0 ≤ t.2.1 ∧ t.2.1 < 1 ∧
            (gridGet gs'.1 t.1 t.2.1).visited = false then
          carve_path 1 1 0 t.1 t.2.1
            (removeWallPair gs'.1 0 0 t.1 t.2.1 t.2.2, gs'.2)
        else gs')
      (markVisited (buildGrid 1 1) 0 0,
        (shuffle (neighborsOf 0 0) r₀).2)).1 := congrArg Prod.fst heq
  rw [carve_loop_skip 0 0 0 _ _ ?_] at hg2
  · rw [hg2]
    rfl
  · intro t ht
    have hmem := (shuffle_perm (neighborsOf 0 0) r₀).mem_iff.mp ht
    unfold neighborsOf at hmem
    rcases List.mem_cons.mp hmem with h1 | hmem
    · rw [h1]
      rintro ⟨c1, c2, c3, c4⟩
      dsimp only at c1 c2 c3 c4
      omega
    rcases List.mem_cons.mp hmem with h1 | hmem
    · rw [h1]
      rintro ⟨c1, c2, c3, c4⟩
      dsimp only at c1 c2 c3 c4
      omega
    rcases List.mem_cons.mp hmem with h1 | hmem
    · rw [h1]
      rintro ⟨c1, c2, c3, c4⟩
      dsimp only at c1 c2 c3 c4
      omega
    rcases List.mem_cons.mp hmem with h1 | hmem
    · rw [h1]
      rintro ⟨c1, c2, c3, c4⟩
      dsimp only at c1 c2 c3 c4
      omega
    · exact absurd hmem (List.not_mem_nil t)

/-- C10: for every `width, height ≥ 1` the carving procedure (including
the advanced extra pass) terminates without failure; a `1×1` grid carves
to a single visited cell with no wall removed, and its emitted geometry
has exactly 4 boundary segments and 0 internal segments. -/
theorem C10_carve_total {width height : Int} (hW : 1 ≤ width)
    (hH : 1 ≤ height) :
    (∀ (d : Difficulty) (r : RNG),
      ∃ g r', create_maze_grid width height d r = .ok (g, r')) ∧
    ∀ (d : Difficulty) (r : RNG) (g : Grid) (r' : RNG),
      create_maze_grid 1 1 d r = .ok (g, r') →
      g = [[{ visited := true, walls :=
          { top := true, right := true, bottom := true, left := true } }]] ∧
      ((rectangularMazeSegments g
          ⟨1, 1, 20, 2, 10, .beginner, .rectangular, []⟩).filter
          (fun s => s.role == Role.boundary)).length = 4 ∧
      ((rectangularMazeSegments g
          ⟨1, 1, 20, 2, 10, .beginner, .rectangular, []⟩).filter
          (fun s => s.role == Role.internal)).length = 0 := by
  refine ⟨create_maze_grid_isOk hW hH, ?_⟩
  intro d r g r' h
  obtain ⟨g₀, st, r₀, hcp, hrest⟩ := create_maze_grid_ok_elim h
  have hg₀ := carvePhase_one hcp
  have hg : g = [[{ visited := true, walls :=
      { top := true, right := true, bottom := true, left := true } }]] := by
    rcases hrest with ⟨_, hgg⟩ | ⟨_, hpass⟩
    · rw [hgg]
      exact hg₀
    · have h2 : (Except.ok (g₀, r₀) : Except PyError (Grid × RNG)) =
          .ok (g, r') := hpass
      injection h2 with h3
      have h4 : g₀ = g := congrArg Prod.fst h3
      rw [← h4]
      exact hg₀
  refine ⟨hg, ?_, ?_⟩ <;> rw [hg] <;> decide

theorem C10_carve_total_witness :
    (∃ g r', create_maze_grid 1 1 .beginner (fun _ => 0) = .ok (g, r')) ∧
    (([[{ visited := true, walls :=
        { top := true, right := true, bottom := true, left := true } }]] : Grid)
      = [[{ visited := true, walls :=
        { top := true, right := true, bottom := true, left := true } }]] ∧
    ((rectangularMazeSegments
        [[{ visited := true, walls :=
          { top := true, right := true, bottom := true, left := true } }]]
        ⟨1, 1, 20, 2, 10, .beginner, .rectangular, []⟩).filter
        (fun s => s.role == Role.boundary)).length = 4 ∧
    ((rectangularMazeSegments
        [[{ visited := true, walls :=
          { top := true, right := true, bottom := true, left := true } }]]
        ⟨1, 1, 20, 2, 10, .beginner, .rectangular, []⟩).filter
        (fun s => s.role == Role.internal)).length = 0) :=
  ⟨(@C10_carve_total 1 1 (by decide) (by decide)).1 .beginner (fun _ => 0),
   (@C10_carve_total 1 1 (by decide) (by decide)).2 .beginner (fun _ => 0)
     [[{ visited := true, walls :=
       { top := true, right := true, bottom := true, left := true } }]]
     (fun _ => 0) (by rfl)⟩

/-! ## Failure behavior on non-positive dimensions -/

theorem carvePhase_bad {width height : Int} (hbad : width ≤ 0 ∨ height ≤ 0)
    (r : RNG) :
    carvePhase width height .beginner r = .error .indexError ∧
    carvePhase width height .intermediate r = .error .indexError ∧
    carvePhase width height .advanced r = .error .valueError := by
  refine ⟨?_, ?_, ?_⟩
  · unfold carvePhase
    dsimp only
    rw [if_neg (by omega : ¬((0 : Int) ≤ 0 ∧ (0 : Int) < width ∧
      (0 : Int) ≤ 0 ∧ (0 : Int) < height))]
  · unfold carvePhase
    dsimp only
    rw [if_neg (by omega : ¬((0 : Int) ≤ 0 ∧ (0 : Int) < width ∧
      (0 : Int) ≤ 0 ∧ (0 : Int) < height))]
  · unfold carvePhase
    dsimp only
    by_cases hw : width ≤ 0
    · have h1 : randint 0 (width - 1) r = .error .valueError := by
        unfold randint
        rw [if_pos (by omega)]
      rw [h1]
    · have hh : height ≤ 0 := by omega
      obtain ⟨v, r1, hv⟩ := randint_isOk r (show (0 : Int) ≤ width - 1 by omega)
      rw [hv]
      dsimp only
      have h2 : randint 0 (height - 1) r1 = .error .valueError := by
        unfold randint
        rw [if_pos (by omega)]
      rw [h2]

theorem create_maze_grid_bad {width height : Int}
    (hbad : width ≤ 0 ∨ height ≤ 0) (r : RNG) :
    create_maze_grid width height .beginner r = .error .indexError ∧
    create_maze_grid width height .intermediate r = .error .indexError ∧
    create_maze_grid width height .advanced r = .error .valueError := by
  obtain ⟨h1, h2, h3⟩ := carvePhase_bad hbad r
  refine ⟨?_, ?_, ?_⟩
  · unfold create_maze_grid
    rw [h1]
  · unfold create_maze_grid
    rw [h2]
  · unfold create_maze_grid
    rw [h3]

/-- C4 (amended): for `width, height ≥ 1` the grid builder returns a
rectangular grid whose every cell has all four wall flags true and
`visited = false`; for a non-positive dimension the pipeline fails, but
with the untyped Python errors the source actually raises — `IndexError`
from the start-cell access for beginner/intermediate, `ValueError` from
`random.randint(0, n-1)` for advanced — never with a typed
`InvalidDimension`, which does not exist in the source. -/
theorem C4_grid_builder_contract {width height : Int} :
    (1 ≤ width → 1 ≤ height →
      GridShape (buildGrid width height) width.toNat height.toNat ∧
      ∀ x y : Int, InB width height x y →
        gridGet (buildGrid width height) x y =
          { visited := false, walls :=
            { top := true, right := true, bottom := true, left := true } }) ∧
    (width ≤ 0 ∨ height ≤ 0 → ∀ r : RNG,
      create_maze_grid width height .beginner r = .error .indexError ∧
      create_maze_grid width height .intermediate r = .error .indexError ∧
      create_maze_grid width height .advanced r = .error .valueError) := by
  constructor
  · intro hW hH
    refine ⟨gridShape_buildGrid width height, ?_⟩
    intro x y hxy
    obtain ⟨h1, h2, h3, h4⟩ := hxy
    rw [gridGet_buildGrid h1 h2 h3 h4]
    rfl
  · exact fun hbad r => create_maze_grid_bad hbad r

theorem C4_grid_builder_contract_witness :
    create_maze_grid 0 3 .beginner (fun _ => 1) = .error .indexError :=
  ((@C4_grid_builder_contract 0 3).2 (.inl (by decide)) (fun _ => 1)).1

/-- C4 counterexample: on `size = (0, 3)` the source does not fail with
`InvalidDimension` — the non-advanced difficulties raise `IndexError` and
the advanced difficulty raises `ValueError`. -/
theorem C4_counterexample :
    create_maze_grid 0 3 .intermediate (fun _ => 0) = .error .indexError ∧
    create_maze_grid 0 3 .advanced (fun _ => 0) = .error .valueError ∧
    PyError.indexError ≠ PyError.invalidDimension ∧
    PyError.valueError ≠ PyError.invalidDimension :=
  ⟨rfl, rfl, by decide, by decide⟩

/-! ## Boundary segments among the emitted geometry -/

theorem mem_internalSegments_role {g : Grid} {gw gh : Nat} {p : MazeParams} :
    ∀ s ∈ internalSegments g gw gh p, s.role = Role.internal := by
  intro s hs
  unfold internalSegments at hs
  obtain ⟨y, _, hy⟩ := List.mem_flatMap.mp hs
  obtain ⟨x, _, hx⟩ := List.mem_flatMap.mp hy
  unfold cellSegments at hx
  rcases List.mem_append.mp hx with h | h
  · split at h
    · rw [List.mem_singleton.mp h]
      rfl
    · exact absurd h (List.not_mem_nil s)
  · split at h
    · rw [List.mem_singleton.mp h]
      rfl
    · exact absurd h (List.not_mem_nil s)

theorem mem_pillarSegments_role {gw gh : Nat} {p : MazeParams} :
    ∀ s ∈ pillarSegments gw gh p, s.role = Role.pillar := by
  intro s hs
  unfold pillarSegments at hs
  split at hs
  · obtain ⟨y, _, hy⟩ := List.mem_flatMap.mp hs
    obtain ⟨x, _, hx⟩ := List.mem_flatMap.mp hy
    rw [List.mem_singleton.mp hx]
  · exact absurd hs (List.not_mem_nil s)

theorem filter_boundary_base {gw gh : Nat} {p : MazeParams} :
    (baseSegments gw gh p).filter (fun s => s.role == Role.boundary) = [] := by
  unfold baseSegments
  split <;> rfl

theorem filter_boundary_roof {gw gh : Nat} {p : MazeParams} :
    (roofSegments gw gh p).filter (fun s => s.role == Role.boundary) = [] := by
  unfold roofSegments
  split <;> rfl

theorem filter_boundary_cuts {gw gh : Nat} {p : MazeParams} :
    (cutSegments gw gh p).filter (fun s => s.role == Role.boundary) = [] := rfl

theorem filter_boundary_internal {g : Grid} {gw gh : Nat} {p : MazeParams} :
    (internalSegments g gw gh p).filter
      (fun s => s.role == Role.boundary) = [] := by
  refine List.filter_eq_nil_iff.mpr fun s hs => ?_
  rw [mem_internalSegments_role s hs]
  decide

theorem filter_boundary_pillars {gw gh : Nat} {p : MazeParams} :
    (pillarSegments gw gh p).filter
      (fun s => s.role == Role.boundary) = [] := by
  refine List.filter_eq_nil_iff.mpr fun s hs => ?_
  rw [mem_pillarSegments_role s hs]
  decide

theorem filter_boundary_boundary {gw gh : Nat} {p : MazeParams} :
    (boundarySegments gw gh p).filter
      (fun s => s.role == Role.boundary) = boundarySegments gw gh p := rfl

/-- C9: for every carved grid and every parameter set, the boundary-role
segments of the emitted geometry are exactly the four full-span walls
(left, right, bottom, top), each `wall_thickness` thick, at `z = 0` with
height `wall_height`, spanning `totalWidth = width*(path_width +
wall_thickness) + wall_thickness` and the analogous `totalHeight`; for
the `5×5` example with `wall_thickness = 2`, `path_width = 10` both spans
are `62`. -/
theorem C9_boundary_completeness {g : Grid} {p : MazeParams} :
    (rectangularMazeSegments g p).filter (fun s => s.role == Role.boundary) =
      [⟨0, 0, 0, p.wall_thickness, totalHeight g.length p,
         p.wall_height, .boundary⟩,
       ⟨totalWidth (g.getD 0 []).length p - p.wall_thickness, 0, 0,
         p.wall_thickness, totalHeight g.length p, p.wall_height, .boundary⟩,
       ⟨0, 0, 0, totalWidth (g.getD 0 []).length p, p.wall_thickness,
         p.wall_height, .boundary⟩,
       ⟨0, totalHeight g.length p - p.wall_thickness, 0,
         totalWidth (g.getD 0 []).length p, p.wall_thickness,
         p.wall_height, .boundary⟩] ∧
    ((rectangularMazeSegments g p).filter
      (fun s => s.role == Role.boundary)).length = 4 ∧
    (∀ gw : Nat, totalWidth gw p =
      gw * (p.path_width + p.wall_thickness) + p.wall_thickness) ∧
    (∀ gh : Nat, totalHeight gh p =
      gh * (p.path_width + p.wall_thickness) + p.wall_thickness) ∧
    totalWidth 5 ⟨5, 5, 20, 2, 10, .beginner, .rectangular, []⟩ = 62 ∧
    totalHeight 5 ⟨5, 5, 20, 2, 10, .beginner, .rectangular, []⟩ = 62 := by
  have hfilter : (rectangularMazeSegments g p).filter
      (fun s => s.role == Role.boundary) =
      boundarySegments (g.getD 0 []).length g.length p := by
    unfold rectangularMazeSegments
    dsimp only
    rw [List.filter_append, List.filter_append, List.filter_append,
      List.filter_append, List.filter_append,
      filter_boundary_base, filter_boundary_roof, filter_boundary_cuts,
      filter_boundary_internal, filter_boundary_pillars,
      filter_boundary_boundary]
    simp
  refine ⟨?_, ?_, ?_, ?_, by decide, by decide⟩
  · rw [hfilter]
    rfl
  · rw [hfilter]
    rfl
  · intro gw
    unfold totalWidth cellSize
    ring
  · intro gh
    unfold totalHeight cellSize
    ring

/-! ## Geometry of internal wall segments -/

/-- The physical data of a segment (origin and dimensions), without the
role tag. -/
def segGeom (s : WallSegment) : Int × Int × Int × Int × Int × Int :=
  (s.ox, s.oy, s.oz, s.dx, s.dy, s.dz)

theorem k_mul_contra {k c v : Int} (hc : v < c) (hv : 1 ≤ v)
    (h : k * c = v) : False := by
  have hc0 : 0 ≤ c := by omega
  rcases le_or_lt k 0 with h0 | h1
  · have h2 : k * c ≤ 0 := mul_nonpos_of_nonpos_of_nonneg h0 hc0
    linarith
  · have h2 : c ≤ k * c := le_mul_of_one_le_left hc0 h1
    linarith

theorem rightWall_inj {p : MazeParams} (ht : 1 ≤ p.wall_thickness)
    (hpw : 1 ≤ p.path_width) {x y x' y' : Int}
    (h : segGeom (rightWallSegment p x y) =
      segGeom (rightWallSegment p x' y')) : x = x' ∧ y = y' := by
  unfold segGeom rightWallSegment at h
  simp only [Prod.mk.injEq] at h
  obtain ⟨h1, h2, -⟩ := h
  have hcs : 0 < cellSize p := by
    unfold cellSize
    omega
  constructor
  · have h1' : x * cellSize p = x' * cellSize p := by linarith
    exact mul_right_cancel₀ (by omega) h1'
  · have h2' : y * cellSize p = y' * cellSize p := by linarith
    exact mul_right_cancel₀ (by omega) h2'

theorem topWall_inj {p : MazeParams} (ht : 1 ≤ p.wall_thickness)
    (hpw : 1 ≤ p.path_width) {x y x' y' : Int}
    (h : segGeom (topWallSegment p x y) =
      segGeom (topWallSegment p x' y')) : x = x' ∧ y = y' := by
  unfold segGeom topWallSegment at h
  simp only [Prod.mk.injEq] at h
  obtain ⟨h1, h2, -⟩ := h
  have hcs : 0 < cellSize p := by
    unfold cellSize
    omega
  constructor
  · have h1' : x * cellSize p = x' * cellSize p := by linarith
    exact mul_right_cancel₀ (by omega) h1'
  · have h2' : y * cellSize p = y' * cellSize p := by linarith
    exact mul_right_cancel₀ (by omega) h2'

theorem rightWall_ne_topWall {p : MazeParams} (ht : 1 ≤ p.wall_thickness)
    (hpw : 1 ≤ p.path_width) (x y x' y' : Int) :
    segGeom (rightWallSegment p x y) ≠ segGeom (topWallSegment p x' y') := by
  intro h
  unfold segGeom rightWallSegment topWallSegment at h
  simp only [Prod.mk.injEq] at h
  obtain ⟨h1, h2, -⟩ := h
  have hcs : p.path_width < cellSize p := by
    unfold cellSize
    omega
  have hk : (y - y') * cellSize p = p.path_width := by
    have hexp : (y - y') * cellSize p =
        y * cellSize p - y' * cellSize p := by ring
    rw [hexp]
    linarith
  exact k_mul_contra hcs hpw hk

theorem mem_cellSegments_elim {g : Grid} {gw gh : Nat} {p : MazeParams}
    {x y : Nat} {s : WallSegment}
    (h : s ∈ cellSegments g gw gh p x y) :
    (s = rightWallSegment p x y ∧ (gridGet g x y).walls.right = true ∧
      (x : Int) < (gw : Int) - 1) ∨
    (s = topWallSegment p x y ∧ (gridGet g x y).walls.top = true ∧
      (y : Int) < (gh : Int) - 1) := by
  unfold cellSegments at h
  rcases List.mem_append.mp h with h' | h'
  · left
    split at h'
    · next hc => exact ⟨List.mem_singleton.mp h', hc.1, hc.2⟩
    · exact absurd h' (List.not_mem_nil s)
  · right
    split at h'
    · next hc => exact ⟨List.mem_singleton.mp h', hc.1, hc.2⟩
    · exact absurd h' (List.not_mem_nil s)

theorem mem_internalSegments_elim {g : Grid} {gw gh : Nat} {p : MazeParams}
    {s : WallSegment} (h : s ∈ internalSegments g gw gh p) :
    ∃ x y : Nat, x < gw ∧ y < gh ∧
      ((s = rightWallSegment p x y ∧ (gridGet g x y).walls.right = true ∧
        (x : Int) < (gw : Int) - 1) ∨
       (s = topWallSegment p x y ∧ (gridGet g x y).walls.top = true ∧
        (y : Int) < (gh : Int) - 1)) := by
  unfold internalSegments at h
  obtain ⟨y, hy, hy2⟩ := List.mem_flatMap.mp h
  obtain ⟨x, hx, hx2⟩ := List.mem_flatMap.mp hy2
  exact ⟨x, y, List.mem_range.mp hx, List.mem_range.mp hy,
    mem_cellSegments_elim hx2⟩

theorem mem_internalSegments_right {g : Grid} {gw gh : Nat} {p : MazeParams}
    {x y : Nat} (hx : x < gw) (hy : y < gh)
    (hw : (gridGet g x y).walls.right = true)
    (hb : (x : Int) < (gw : Int) - 1) :
    rightWallSegment p x y ∈ internalSegments g gw gh p := by
  unfold internalSegments
  refine List.mem_flatMap.mpr ⟨y, List.mem_range.mpr hy,
    List.mem_flatMap.mpr ⟨x, List.mem_range.mpr hx, ?_⟩⟩
  unfold cellSegments
  refine List.mem_append.mpr (.inl ?_)
  rw [if_pos ⟨hw, hb⟩]
  exact List.mem_singleton.mpr rfl

theorem mem_internalSegments_top {g : Grid} {gw gh : Nat} {p : MazeParams}
    {x y : Nat} (hx : x < gw) (hy : y < gh)
    (hw : (gridGet g x y).walls.top = true)
    (hb : (y : Int) < (gh : Int) - 1) :
    topWallSegment p x y ∈ internalSegments g gw gh p := by
  unfold internalSegments
  refine List.mem_flatMap.mpr ⟨y, List.mem_range.mpr hy,
    List.mem_flatMap.mpr ⟨x, List.mem_range.mpr hx, ?_⟩⟩
  unfold cellSegments
  refine List.mem_append.mpr (.inr ?_)
  rw [if_pos ⟨hw, hb⟩]
  exact List.mem_singleton.mpr rfl

theorem cellSegments_geom_cases {g : Grid} {gw gh : Nat} {p : MazeParams}
    {x y : Nat} {a : Int × Int × Int × Int × Int × Int}
    (h : a ∈ (cellSegments g gw gh p x y).map segGeom) :
    a = segGeom (rightWallSegment p x y) ∨
    a = segGeom (topWallSegment p x y) := by
  obtain ⟨s, hs, rfl⟩ := List.mem_map.mp h
  rcases mem_cellSegments_elim hs with ⟨h1, -, -⟩ | ⟨h1, -, -⟩
  · left
    rw [h1]
  · right
    rw [h1]

theorem row_geom_cases {g : Grid} {gw gh : Nat} {p : MazeParams} {y : Nat}
    {a : Int × Int × Int × Int × Int × Int}
    (h : a ∈ ((List.range gw).flatMap
      (fun x => cellSegments g gw gh p x y)).map segGeom) :
    ∃ x : Nat, a = segGeom (rightWallSegment p x y) ∨
      a = segGeom (topWallSegment p x y) := by
  rw [List.map_flatMap] at h
  obtain ⟨x, _, hx⟩ := List.mem_flatMap.mp h
  exact ⟨x, cellSegments_geom_cases hx⟩

/-- No two emitted internal wall segments occupy the same position. -/
theorem internalSegments_geom_nodup {g : Grid} {p : MazeParams}
    (ht : 1 ≤ p.wall_thickness) (hpw : 1 ≤ p.path_width) (gw gh : Nat) :
    ((internalSegments g gw gh p).map segGeom).Nodup := by
  unfold internalSegments
  rw [List.map_flatMap, List.nodup_flatMap]
  constructor
  · intro y hy
    rw [List.map_flatMap, List.nodup_flatMap]
    constructor
    · intro x hx
      unfold cellSegments
      rw [List.map_append]
      split
      · split
        · simp [rightWall_ne_topWall ht hpw]
        · simp
      · split
        · simp
        · simp
    · refine List.Pairwise.imp ?_ (List.pairwise_lt_range gw)
      intro x x' hlt
      intro a ha ha'
      rcases cellSegments_geom_cases ha with h1 | h1 <;>
        rcases cellSegments_geom_cases ha' with h2 | h2 <;>
        rw [h1] at h2
      · obtain ⟨hx, -⟩ := rightWall_inj ht hpw h2
        have hxx : x = x' := by exact_mod_cast hx
        omega
      · exact rightWall_ne_topWall ht hpw _ _ _ _ h2
      · exact rightWall_ne_topWall ht hpw _ _ _ _ h2.symm
      · obtain ⟨hx, -⟩ := topWall_inj ht hpw h2
        have hxx : x = x' := by exact_mod_cast hx
        omega
  · refine List.Pairwise.imp ?_ (List.pairwise_lt_range gh)
    intro y y' hlt
    intro a ha ha'
    obtain ⟨x, h1⟩ := row_geom_cases ha
    obtain ⟨x', h2⟩ := row_geom_cases ha'
    rcases h1 with h1 | h1 <;> rcases h2 with h2 | h2 <;> rw [h1] at h2
    · obtain ⟨-, hy⟩ := rightWall_inj ht hpw h2
      have hyy : y = y' := by exact_mod_cast hy
      omega
    · exact rightWall_ne_topWall ht hpw _ _ _ _ h2
    · exact rightWall_ne_topWall ht hpw _ _ _ _ h2.symm
    · obtain ⟨-, hy⟩ := topWall_inj ht hpw h2
      have hyy : y = y' := by exact_mod_cast hy
      omega

/-- No internal wall segment coincides with a boundary segment. -/
theorem internal_boundary_geom_ne {g : Grid} {gw gh : Nat} {p : MazeParams}
    (ht : 1 ≤ p.wall_thickness) (hpw : 1 ≤ p.path_width) :
    ∀ s ∈ internalSegments g gw gh p, ∀ b ∈ boundarySegments gw gh p,
      segGeom s ≠ segGeom b := by
  intro s hs b hb hgeom
  obtain ⟨x, y, hx, hy, hcase⟩ := mem_internalSegments_elim hs
  have hcs : 0 < cellSize p := by
    unfold cellSize
    omega
  have hnnx : 0 ≤ (x : Int) * cellSize p :=
    mul_nonneg (Int.natCast_nonneg x) (le_of_lt hcs)
  have hnny : 0 ≤ (y : Int) * cellSize p :=
    mul_nonneg (Int.natCast_nonneg y) (le_of_lt hcs)
  unfold boundarySegments at hb
  simp only [List.mem_cons, List.mem_singleton, List.not_mem_nil,
    or_false] at hb
  rcases hcase with ⟨h1, -, -⟩ | ⟨h1, -, -⟩ <;> rw [h1] at hgeom <;>
    simp only [segGeom, rightWallSegment, topWallSegment] at hgeom <;>
    rcases hb with rfl | rfl | rfl | rfl <;>
    simp only [Prod.mk.injEq] at hgeom <;>
    obtain ⟨e1, e2, -⟩ := hgeom <;>
    linarith

theorem filter_internal_base {gw gh : Nat} {p : MazeParams} :
    (baseSegments gw gh p).filter (fun s => s.role == Role.internal) = [] := by
  unfold baseSegments
  split <;> rfl

theorem filter_internal_roof {gw gh : Nat} {p : MazeParams} :
    (roofSegments gw gh p).filter (fun s => s.role == Role.internal) = [] := by
  unfold roofSegments
  split <;> rfl

theorem filter_internal_boundary {gw gh : Nat} {p : MazeParams} :
    (boundarySegments gw gh p).filter
      (fun s => s.role == Role.internal) = [] := rfl

theorem filter_internal_cuts {gw gh : Nat} {p : MazeParams} :
    (cutSegments gw gh p).filter (fun s => s.role == Role.internal) = [] := rfl

theorem filter_internal_pillars {gw gh : Nat} {p : MazeParams} :
    (pillarSegments gw gh p).filter
      (fun s => s.role == Role.internal) = [] := by
  refine List.filter_eq_nil_iff.mpr fun s hs => ?_
  rw [mem_pillarSegments_role s hs]
  decide

theorem filter_internal_internal {g : Grid} {gw gh : Nat} {p : MazeParams} :
    (internalSegments g gw gh p).filter (fun s => s.role == Role.internal) =
      internalSegments g gw gh p := by
  refine List.filter_eq_self.mpr fun s hs => ?_
  rw [mem_internalSegments_role s hs]
  decide

/-- C5: owning-side emission.  The internal-role segments of the output
are exactly the internal-wall loop's segments; an east (`'right'`) wall
segment for cell `(x, y)` is emitted iff that cell's `'right'` flag is
true and `x < width - 1`, and a north (`'top'`) wall segment iff its
`'top'` flag is true and `y < height - 1`; no two emitted internal
segments occupy the same position, and no internal segment coincides with
a boundary segment. -/
theorem C5_owning_side_rule {g : Grid} {p : MazeParams}
    (ht : 1 ≤ p.wall_thickness) (hpw : 1 ≤ p.path_width) :
    (rectangularMazeSegments g p).filter (fun s => s.role == Role.internal) =
      internalSegments g (g.getD 0 []).length g.length p ∧
    (∀ gw gh x y : Nat, x < gw → y < gh →
      (rightWallSegment p x y ∈ internalSegments g gw gh p ↔
        (gridGet g x y).walls.right = true ∧ (x : Int) < (gw : Int) - 1) ∧
      (topWallSegment p x y ∈ internalSegments g gw gh p ↔
        (gridGet g x y).walls.top = true ∧ (y : Int) < (gh : Int) - 1)) ∧
    (∀ gw gh : Nat, ((internalSegments g gw gh p).map segGeom).Nodup) ∧
    (∀ gw gh : Nat, ∀ s ∈ internalSegments g gw gh p,
      ∀ b ∈ boundarySegments gw gh p, segGeom s ≠ segGeom b) := by
  refine ⟨?_, ?_, fun gw gh => internalSegments_geom_nodup ht hpw gw gh,
    fun gw gh => internal_boundary_geom_ne ht hpw⟩
  · unfold rectangularMazeSegments
    dsimp only
    rw [List.filter_append, List.filter_append, List.filter_append,
      List.filter_append, List.filter_append,
      filter_internal_base, filter_internal_roof, filter_internal_cuts,
      filter_internal_boundary, filter_internal_pillars,
      filter_internal_internal]
    simp
  · intro gw gh x y hx hy
    constructor
    · constructor
      · intro hmem
        obtain ⟨x', y', hx', hy', hcase⟩ := mem_internalSegments_elim hmem
        rcases hcase with ⟨h1, hflag, hb⟩ | ⟨h1, -, -⟩
        · obtain ⟨hxe, hye⟩ := rightWall_inj ht hpw (congrArg segGeom h1)
          have hxx : x = x' := by exact_mod_cast hxe
          have hyy : y = y' := by exact_mod_cast hye
          subst hxx
          subst hyy
          exact ⟨hflag, hb⟩
        · exact absurd (congrArg segGeom h1)
            (rightWall_ne_topWall ht hpw _ _ _ _)
      · rintro ⟨hflag, hb⟩
        exact mem_internalSegments_right hx hy hflag hb
    · constructor
      · intro hmem
        obtain ⟨x', y', hx', hy', hcase⟩ := mem_internalSegments_elim hmem
        rcases hcase with ⟨h1, -, -⟩ | ⟨h1, hflag, hb⟩
        · exact absurd (congrArg segGeom h1).symm
            (rightWall_ne_topWall ht hpw _ _ _ _)
        · obtain ⟨hxe, hye⟩ := topWall_inj ht hpw (congrArg segGeom h1)
          have hxx : x = x' := by exact_mod_cast hxe
          have hyy : y = y' := by exact_mod_cast hye
          subst hxx
          subst hyy
          exact ⟨hflag, hb⟩
      · rintro ⟨hflag, hb⟩
        exact mem_internalSegments_top hx hy hflag hb

theorem C5_owning_side_rule_witness :
    (rectangularMazeSegments
      [[{ visited := true, walls :=
          { top := true, right := true, bottom := true, left := true } }]]
      ⟨1, 1, 20, 2, 10, .beginner, .rectangular, []⟩).filter
      (fun s => s.role == Role.internal) =
    internalSegments
      [[{ visited := true, walls :=
          { top := true, right := true, bottom := true, left := true } }]]
      (([[{ visited := true, walls :=
          { top := true, right := true, bottom := true, left := true } }]] :
        Grid).getD 0 []).length
      ([[{ visited := true, walls :=
          { top := true, right := true, bottom := true, left := true } }]] :
        Grid).length
      ⟨1, 1, 20, 2, 10, .beginner, .rectangular, []⟩ :=
  (C5_owning_side_rule (by decide) (by decide)).1

/-! ## Emission order of the segment groups -/

/-- Position of each role's emission site in the source's output order:
base platform, boundary walls, internal walls, pillars, entrance/exit
cuts, roof. -/
def roleIndex : Role → Nat
  | .base => 0
  | .boundary => 1
  | .internal => 2
  | .pillar => 3
  | .entranceCut => 4
  | .exitCut => 4
  | .roof => 5

theorem roleIndex_le (ρ : Role) : roleIndex ρ ≤ 5 := by
  cases ρ <;> decide

theorem roleIndex_base {gw gh : Nat} {p : MazeParams} :
    ∀ s ∈ baseSegments gw gh p, roleIndex s.role = 0 := by
  intro s hs
  unfold baseSegments at hs
  split at hs
  · rw [List.mem_singleton.mp hs]
    rfl
  · exact absurd hs (List.not_mem_nil s)

theorem roleIndex_boundary {gw gh : Nat} {p : MazeParams} :
    ∀ s ∈ boundarySegments gw gh p, roleIndex s.role = 1 := by
  intro s hs
  unfold boundarySegments at hs
  simp only [List.mem_cons, List.mem_singleton, List.not_mem_nil,
    or_false] at hs
  rcases hs with rfl | rfl | rfl | rfl <;> rfl

theorem roleIndex_internal {g : Grid} {gw gh : Nat} {p : MazeParams} :
    ∀ s ∈ internalSegments g gw gh p, roleIndex s.role = 2 := by
  intro s hs
  rw [mem_internalSegments_role s hs]
  rfl

theorem roleIndex_pillar {gw gh : Nat} {p : MazeParams} :
    ∀ s ∈ pillarSegments gw gh p, roleIndex s.role = 3 := by
  intro s hs
  rw [mem_pillarSegments_role s hs]
  rfl

theorem roleIndex_cuts {gw gh : Nat} {p : MazeParams} :
    ∀ s ∈ cutSegments gw gh p, roleIndex s.role = 4 := by
  intro s hs
  unfold cutSegments at hs
  simp only [List.mem_cons, List.mem_singleton, List.not_mem_nil,
    or_false] at hs
  rcases hs with rfl | rfl <;> rfl

theorem roleIndex_roof {gw gh : Nat} {p : MazeParams} :
    ∀ s ∈ roofSegments gw gh p, roleIndex s.role = 5 := by
  intro s hs
  unfold roofSegments at hs
  split at hs
  · rw [List.mem_singleton.mp hs]
    rfl
  · exact absurd hs (List.not_mem_nil s)

theorem pairwise_of_const_roleIndex {l : List WallSegment} {k : Nat}
    (h : ∀ s ∈ l, roleIndex s.role = k) :
    l.Pairwise (fun a b => roleIndex a.role ≤ roleIndex b.role) := by
  refine List.pairwise_of_forall_mem_list fun a ha b hb => ?_
  rw [h a ha, h b hb]

theorem pairwise_roleIdx_append {l₁ l₂ : List WallSegment} (k : Nat)
    (hp1 : l₁.Pairwise (fun a b => roleIndex a.role ≤ roleIndex b.role))
    (hp2 : l₂.Pairwise (fun a b => roleIndex a.role ≤ roleIndex b.role))
    (h1 : ∀ s ∈ l₁, roleIndex s.role ≤ k)
    (h2 : ∀ s ∈ l₂, k ≤ roleIndex s.role) :
    (l₁ ++ l₂).Pairwise (fun a b => roleIndex a.role ≤ roleIndex b.role) :=
  List.pairwise_append.mpr
    ⟨hp1, hp2, fun a ha b hb => le_trans (h1 a ha) (h2 b hb)⟩

theorem bound_append {l₁ l₂ : List WallSegment} {k : Nat}
    (h1 : ∀ s ∈ l₁, roleIndex s.role ≤ k)
    (h2 : ∀ s ∈ l₂, roleIndex s.role ≤ k) :
    ∀ s ∈ l₁ ++ l₂, roleIndex s.role ≤ k := by
  intro s hs
  rcases List.mem_append.mp hs with h | h
  · exact h1 s h
  · exact h2 s h

/-- C8 (amended): the emitted segment sequence is group-sorted in the
source's emission order — base platform (if enabled) first, then the four
boundary walls, then the internal walls in row-major cell order, then the
pillars (if enabled), then the entrance and exit cuts, and the roof (if
enabled) last.  The spec's claimed order (boundary first, features between
internal walls and cuts, cuts last) does not match the source. -/
theorem C8_output_order {g : Grid} {p : MazeParams} :
    (∀ gw gh : Nat,
      ((baseSegments gw gh p ++ boundarySegments gw gh p ++
        internalSegments g gw gh p ++ pillarSegments gw gh p ++
        cutSegments gw gh p ++ roofSegments gw gh p).map
        (fun s => roleIndex s.role)).Pairwise (· ≤ ·)) ∧
    rectangularMazeSegments g p =
      baseSegments (g.getD 0 []).length g.length p ++
      boundarySegments (g.getD 0 []).length g.length p ++
      internalSegments g (g.getD 0 []).length g.length p ++
      pillarSegments (g.getD 0 []).length g.length p ++
      cutSegments (g.getD 0 []).length g.length p ++
      roofSegments (g.getD 0 []).length g.length p ∧
    ((rectangularMazeSegments g p).map
      (fun s => roleIndex s.role)).Pairwise (· ≤ ·) := by
  have key : ∀ gw gh : Nat,
      ((baseSegments gw gh p ++ boundarySegments gw gh p ++
        internalSegments g gw gh p ++ pillarSegments gw gh p ++
        cutSegments gw gh p ++ roofSegments gw gh p).map
        (fun s => roleIndex s.role)).Pairwise (· ≤ ·) := by
    intro gw gh
    rw [List.pairwise_map]
    refine pairwise_roleIdx_append 5 ?_
      (pairwise_of_const_roleIndex roleIndex_roof) ?_
      (fun s hs => by rw [roleIndex_roof s hs])
    · refine pairwise_roleIdx_append 4 ?_
        (pairwise_of_const_roleIndex roleIndex_cuts) ?_
        (fun s hs => by rw [roleIndex_cuts s hs])
      · refine pairwise_roleIdx_append 3 ?_
          (pairwise_of_const_roleIndex roleIndex_pillar) ?_
          (fun s hs => by rw [roleIndex_pillar s hs])
        · refine pairwise_roleIdx_append 2 ?_
            (pairwise_of_const_roleIndex roleIndex_internal) ?_
            (fun s hs => by rw [roleIndex_internal s hs])
          · exact pairwise_roleIdx_append 1
              (pairwise_of_const_roleIndex roleIndex_base)
              (pairwise_of_const_roleIndex roleIndex_boundary)
              (fun s hs => by rw [roleIndex_base s hs]; omega)
              (fun s hs => by rw [roleIndex_boundary s hs])
          · exact bound_append
              (fun s hs => by rw [roleIndex_base s hs]; omega)
              (fun s hs => by rw [roleIndex_boundary s hs]; omega)
        · exact bound_append (bound_append
            (fun s hs => by rw [roleIndex_base s hs]; omega)
            (fun s hs => by rw [roleIndex_boundary s hs]; omega))
            (fun s hs => by rw [roleIndex_internal s hs]; omega)
      · exact bound_append (bound_append (bound_append
          (fun s hs => by rw [roleIndex_base s hs]; omega)
          (fun s hs => by rw [roleIndex_boundary s hs]; omega))
          (fun s hs => by rw [roleIndex_internal s hs]; omega))
          (fun s hs => by rw [roleIndex_pillar s hs]; omega)
    · exact bound_append (bound_append (bound_append (bound_append
        (fun s hs => by rw [roleIndex_base s hs]; omega)
        (fun s hs => by rw [roleIndex_boundary s hs]; omega))
        (fun s hs => by rw [roleIndex_internal s hs]; omega))
        (fun s hs => by rw [roleIndex_pillar s hs]; omega))
        (fun s hs => by rw [roleIndex_cuts s hs]; omega)
  have h2 : rectangularMazeSegments g p =
      baseSegments (g.getD 0 []).length g.length p ++
      boundarySegments (g.getD 0 []).length g.length p ++
      internalSegments g (g.getD 0 []).length g.length p ++
      pillarSegments (g.getD 0 []).length g.length p ++
      cutSegments (g.getD 0 []).length g.length p ++
      roofSegments (g.getD 0 []).length g.length p := rfl
  refine ⟨key, h2, ?_⟩
  rw [h2]
  exact key (g.getD 0 []).length g.length

/-- C8 counterexample: with the base and roof features enabled the claimed
order (boundary first, cuts last) is wrong — the first emitted segment is
the base platform and the last is the roof, not a cut. -/
theorem C8_counterexample :
    ((rectangularMazeSegments
      [[{ visited := true, walls :=
          { top := true, right := true, bottom := true, left := true } }]]
      ⟨1, 1, 20, 2, 10, .beginner, .rectangular,
        [.base, .roof]⟩).map (fun s => s.role)).head? = some Role.base ∧
    Role.base ≠ Role.boundary ∧
    ((rectangularMazeSegments
      [[{ visited := true, walls :=
          { top := true, right := true, bottom := true, left := true } }]]
      ⟨1, 1, 20, 2, 10, .beginner, .rectangular,
        [.base, .roof]⟩).map (fun s => s.role)).getLast? = some Role.roof ∧
    Role.roof ≠ Role.entranceCut ∧ Role.roof ≠ Role.exitCut := by
  refine ⟨by decide, by decide, by decide, by decide, by decide⟩

/-! ## Heights of the emitted solids -/

theorem mem_rect_oz {g : Grid} {p : MazeParams} :
    ∀ s ∈ rectangularMazeSegments g p,
      s.oz = -2 ∨ s.oz = 0 ∨ s.oz = p.wall_height := by
  intro s hs
  unfold rectangularMazeSegments at hs
  dsimp only at hs
  simp only [List.mem_append] at hs
  rcases hs with ((((hb | hbd) | hi) | hp) | hc) | hr
  · unfold baseSegments at hb
    split at hb
    · left
      rw [List.mem_singleton.mp hb]
    · exact absurd hb (List.not_mem_nil s)
  · unfold boundarySegments at hbd
    simp only [List.mem_cons, List.mem_singleton, List.not_mem_nil,
      or_false] at hbd
    rcases hbd with rfl | rfl | rfl | rfl <;> right <;> left <;> rfl
  · obtain ⟨x, y, -, -, hcase⟩ := mem_internalSegments_elim hi
    rcases hcase with ⟨h1, -, -⟩ | ⟨h1, -, -⟩ <;> rw [h1] <;>
      right <;> left <;> rfl
  · unfold pillarSegments at hp
    split at hp
    · obtain ⟨y, -, hy⟩ := List.mem_flatMap.mp hp
      obtain ⟨x, -, hx⟩ := List.mem_flatMap.mp hy
      rw [List.mem_singleton.mp hx]
      right
      left
      rfl
    · exact absurd hp (List.not_mem_nil s)
  · unfold cutSegments at hc
    simp only [List.mem_cons, List.mem_singleton, List.not_mem_nil,
      or_false] at hc
    rcases hc with rfl | rfl <;> right <;> left <;> rfl
  · unfold roofSegments at hr
    split at hr
    · right
      right
      rw [List.mem_singleton.mp hr]
    · exact absurd hr (List.not_mem_nil s)

/-- C7 (amended): for `mazeType = multiLevel` no second grid is carved —
the pipeline runs `_create_maze_grid` once and the emitted solids are
exactly those of the single rectangular maze; the `str.replace`-inserted
"second level" blocks are empty, and (for `wall_height ≥ 0`) no solid at
all is emitted at the claimed second-level height `wall_height + 5`. -/
theorem C7_multilevel_single_grid {p : MazeParams} {r : RNG} {g : Grid}
    {r' : RNG} (hwh : 0 ≤ p.wall_height) (hml : p.mazeType = .multiLevel)
    (h : create_maze_grid p.width p.height p.difficulty r = .ok (g, r')) :
    generate_algorithmic_maze p r = .ok (multilevelMazeSegments g p, r') ∧
    multilevelMazeSegments g p = rectangularMazeSegments g p ∧
    ∀ s ∈ multilevelMazeSegments g p, s.oz ≠ p.wall_height + 5 := by
  refine ⟨?_, rfl, ?_⟩
  · unfold generate_algorithmic_maze
    rw [h, hml]
  · intro s hs heq
    rcases mem_rect_oz s hs with h1 | h1 | h1 <;> rw [h1] at heq <;> omega

theorem C7_multilevel_single_grid_witness :
    generate_algorithmic_maze
      ⟨1, 1, 20, 2, 10, .beginner, .multiLevel, []⟩ (fun _ => 0) =
      .ok (multilevelMazeSegments
        [[{ visited := true, walls :=
            { top := true, right := true, bottom := true, left := true } }]]
        ⟨1, 1, 20, 2, 10, .beginner, .multiLevel, []⟩, fun _ => 0) ∧
    multilevelMazeSegments
      [[{ visited := true, walls :=
          { top := true, right := true, bottom := true, left := true } }]]
      ⟨1, 1, 20, 2, 10, .beginner, .multiLevel, []⟩ =
    rectangularMazeSegments
      [[{ visited := true, walls :=
          { top := true, right := true, bottom := true, left := true } }]]
      ⟨1, 1, 20, 2, 10, .beginner, .multiLevel, []⟩ ∧
    ∀ s ∈ multilevelMazeSegments
      [[{ visited := true, walls :=
          { top := true, right := true, bottom := true, left := true } }]]
      ⟨1, 1, 20, 2, 10, .beginner, .multiLevel, []⟩, s.oz ≠ 20 + 5 :=
  @C7_multilevel_single_grid
    ⟨1, 1, 20, 2, 10, .beginner, .multiLevel, []⟩ (fun _ => 0)
    [[{ visited := true, walls :=
        { top := true, right := true, bottom := true, left := true } }]]
    (fun _ => 0) (by decide) (by rfl) (by rfl)

set_option maxRecDepth 10000 in
/-- C7 counterexample: in a concrete multilevel run the output is the
single rectangular maze's geometry — no solid whatsoever sits at the
claimed second-level height `wall_height + 5 = 25`, and the string
rewrite adds no `cube(` statement (6 before, 6 after): there is no second
carved maze. -/
theorem C7_counterexample :
    (∀ s ∈ multilevelMazeSegments
      [[{ visited := true, walls :=
          { top := true, right := true, bottom := true, left := true } }]]
      ⟨1, 1, 20, 2, 10, .beginner, .multiLevel, []⟩, s.oz ≠ 25) ∧
    cubeCount (generate_multilevel_maze_code
      [[{ visited := true, walls :=
          { top := true, right := true, bottom := true, left := true } }]]
      ⟨1, 1, 20, 2, 10, .beginner, .multiLevel, []⟩) = 6 ∧
    cubeCount (generate_rectangular_maze_code
      [[{ visited := true, walls :=
          { top := true, right := true, bottom := true, left := true } }]]
      ⟨1, 1, 20, 2, 10, .beginner, .multiLevel, []⟩) = 6 :=
  ⟨by decide, by decide, by decide⟩

/-- C3 (amended): generation is deterministic in the explicit
random-stream state the model threads through the pipeline — two calls
with the same parameters and the same (pointwise-equal) stream state
return the same result, byte-for-byte equal when serialized.  In the
source this state is the process-global `random` generator: there is no
seed parameter, and a second call starts from the state the first call
left behind. -/
theorem C3_determinism {p : MazeParams} {r r' : RNG}
    (h : ∀ n, r n = r' n) :
    generate_algorithmic_maze p r = generate_algorithmic_maze p r' ∧
    ∀ segs1 ρ1 segs2 ρ2,
      generate_algorithmic_maze p r = .ok (segs1, ρ1) →
      generate_algorithmic_maze p r' = .ok (segs2, ρ2) →
      serializeSegments segs1 = serializeSegments segs2 := by
  have hr : r = r' := funext h
  subst hr
  refine ⟨rfl, ?_⟩
  intro segs1 ρ1 segs2 ρ2 h1 h2
  rw [h1] at h2
  injection h2 with h3
  have h4 : segs1 = segs2 := congrArg Prod.fst h3
  rw [h4]

theorem C3_determinism_witness :
    generate_algorithmic_maze
      ⟨1, 1, 20, 2, 10, .beginner, .rectangular, []⟩ (fun _ => 0) =
    generate_algorithmic_maze
      ⟨1, 1, 20, 2, 10, .beginner, .rectangular, []⟩ (fun _ => 0) ∧
    ∀ segs1 ρ1 segs2 ρ2,
      generate_algorithmic_maze
        ⟨1, 1, 20, 2, 10, .beginner, .rectangular, []⟩ (fun _ => 0) =
        .ok (segs1, ρ1) →
      generate_algorithmic_maze
        ⟨1, 1, 20, 2, 10, .beginner, .rectangular, []⟩ (fun _ => 0) =
        .ok (segs2, ρ2) →
      serializeSegments segs1 = serializeSegments segs2 :=
  C3_determinism (fun _ => rfl)

set_option maxRecDepth 40000 in
/-- C3 counterexample: randomness is drawn from the process-global
generator, not an injected seed.  Starting the model's global stream at
`fun n => n / 2`, a first generation call with a `2×2` intermediate
parameter set succeeds, advances the global state, and a second call with
the *same parameters* then yields a byte-for-byte *different* serialized
output — the premise "same parameters, same seed" cannot be realized by
the source's API, in which consecutive calls share the mutated global
state. -/
theorem C3_counterexample :
    ∃ segs1 r1 segs2 r2,
      generate_algorithmic_maze
        ⟨2, 2, 20, 2, 10, .intermediate, .rectangular, []⟩ (fun n => n / 2) =
        .ok (segs1, r1) ∧
      generate_algorithmic_maze
        ⟨2, 2, 20, 2, 10, .intermediate, .rectangular, []⟩ r1 =
        .ok (segs2, r2) ∧
      serializeSegments segs1 ≠ serializeSegments segs2 := by
  refine ⟨_, _, _, _, rfl, rfl, ?_⟩
  decide
